import Mathlib

/-! # createico: a verification development

Shallow embedding of `src/createico.cpp` (one translation unit, one function
`main`) and theorems about the container it writes.

Conventions of the embedding

* A byte is a natural number; a buffer (`unsigned char *` plus its length) is a
  list of bytes.  A null pointer is `none`.
* `unsigned`, `std::uint8_t`, `std::uint16_t`, `std::uint32_t` values are
  naturals reduced modulo `2^w` at every conversion; `int` values are integers,
  and the one signed addition of the program (`offset += size`) has no defined
  result when it leaves the `int` range, as in C++.
* The three stb entry points, `malloc`, the file system, the outcome of each
  `fwrite` and the number of accepted bytes that the flushes of the buffered
  output stream carry to the file are parameters of a run, collected in `Env`.
* A run yields its exit status, the file system it leaves and the trace of the
  library calls it made, in program order.
-/

namespace CreateIco

/-- One octet of a buffer or of a file. -/
abbrev Byte := Nat

/-! ## The two on-disk records (lines 33-50) -/

/-- The struct `ICONDIR` with its default member initialisers. -/
structure ICONDIR where
  reserved : Nat := 0
  type : Nat := 1
  numImages : Nat := 0
deriving DecidableEq, Repr

/-- The enumerator `ICONDIRSIZE`. -/
def ICONDIRSIZE : Nat := 6

/-- The struct `ICONDIRENTRY` with its default member initialisers. -/
structure ICONDIRENTRY where
  width : Nat := 0
  height : Nat := 0
  numColors : Nat := 0
  reserved : Nat := 0
  colorPlanes : Nat := 0
  bitsPerPixel : Nat := 0
  size : Nat := 0
  offset : Nat := 0
deriving DecidableEq, Repr

/-- The enumerator `ICONDIRENTRYSIZE`. -/
def ICONDIRENTRYSIZE : Nat := 16

/-- Conversion of an unsigned value to `std::uint8_t`. -/
def toUInt8 (v : Nat) : Nat := v % 256

/-- Conversion of an unsigned value to `std::uint16_t`. -/
def toUInt16 (v : Nat) : Nat := v % 65536

/-- Conversion of an `int` to `std::uint32_t`: the value modulo `2^32`. -/
def toUInt32 (v : Int) : Nat := (v % 4294967296).toNat

/-- Object representation of a `std::uint8_t` member. -/
def u8Bytes (v : Nat) : List Byte := [v % 256]

/-- Object representation of a `std::uint16_t` member; the host stores the
low-order byte first (the byte order of every platform the ICO format targets). -/
def u16Bytes (v : Nat) : List Byte := [v % 256, v / 256 % 256]

/-- Object representation of a `std::uint32_t` member, low-order byte first. -/
def u32Bytes (v : Nat) : List Byte :=
  [v % 256, v / 256 % 256, v / 65536 % 256, v / 16777216 % 256]

/-- Object representation of an `ICONDIR`: three 2-byte members, no padding. -/
def ICONDIR.bytes (d : ICONDIR) : List Byte :=
  u16Bytes d.reserved ++ u16Bytes d.type ++ u16Bytes d.numImages

/-- Object representation of an `ICONDIRENTRY`: every member is naturally
aligned, so the 16 bytes hold the members back to back. -/
def ICONDIRENTRY.bytes (e : ICONDIRENTRY) : List Byte :=
  u8Bytes e.width ++ u8Bytes e.height ++ u8Bytes e.numColors ++ u8Bytes e.reserved ++
  u16Bytes e.colorPlanes ++ u16Bytes e.bitsPerPixel ++ u32Bytes e.size ++ u32Bytes e.offset

/-! ## Images (lines 52-62) -/

/-- The struct `Image`: `data` is the buffer the pointer owns (`none` for
`nullptr`).  The member `size` is only ever assigned by the PNG encoder, which
stores the length of the buffer it returns; it is `0` while `data` is null. -/
structure Image where
  data : Option (List Byte) := none
deriving DecidableEq, Repr

/-- The member `int size` of an `Image`. -/
def Image.size (im : Image) : Int :=
  match im.data with
  | none => 0
  | some b => (b.length : Int)

/-- The struct `Images`: two vectors of `numImages` images. -/
structure Images where
  raw : List Image
  png : List Image
deriving DecidableEq, Repr

/-- The constructor `Images(numImages)`: both vectors hold default images. -/
def Images.init (numImages : Nat) : Images :=
  { raw := List.replicate numImages {}, png := List.replicate numImages {} }

/-! ## The environment of a run -/

/-- What `stbi_load` hands back on success: the pixel buffer and the three
out-parameters. -/
structure Decoded where
  data : List Byte
  x : Int
  y : Int
  comp : Int
deriving DecidableEq, Repr

/-- The arguments of one call of `stbir_resize_uint8_srgb`, in parameter order
(the output buffer is identified separately, by its index in `images.raw`). -/
structure ResizeCall where
  input_pixels : List Byte
  input_w : Nat
  input_h : Nat
  input_stride_in_bytes : Nat
  output_w : Nat
  output_h : Nat
  output_stride_in_bytes : Nat
  num_channels : Nat
  alpha_channel : Nat
  flags : Nat
deriving DecidableEq, Repr

/-- A file of the file system, as far as `fopen` and `fwrite` can tell. -/
structure File where
  readable : Bool
  writable : Bool
  content : List Byte
deriving DecidableEq, Repr

/-- Everything a run of `main` depends on. -/
structure Env where
  /-- The argument vector, `argv[0]` included; `argc` is its length. -/
  argv : List String
  /-- The decoder `stbi_load filename req_comp`; `none` is a null result. -/
  stbi_load : String → Nat → Option Decoded
  /-- The allocator: the fresh buffer for a byte count, `none` when it fails. -/
  malloc : Nat → Option (List Byte)
  /-- The resampler: the new contents of the output buffer, `none` when the
  call returns 0. -/
  stbir_resize_uint8_srgb : ResizeCall → Option (List Byte)
  /-- The encoder `stbi_write_png_to_mem pixels stride x y n`: the buffer it
  returns (whose length it stores through `out_len`), `none` for null. -/
  stbi_write_png_to_mem : List Byte → Nat → Nat → Nat → Nat → Option (List Byte)
  /-- The value of the constant `STBIR_FLAG_ALPHA_USES_COLORSPACE`. -/
  STBIR_FLAG_ALPHA_USES_COLORSPACE : Nat
  /-- The file system before the run. -/
  fs : String → Option File
  /-- Whether a path that names no file can be created. -/
  creatable : String → Bool
  /-- The fate of the k-th `fwrite` on the output stream: `none` when it goes
  through, `some n` when it breaks off after `n` bytes. -/
  fwriteFault : Nat → Option Nat
  /-- The fate of the buffered output: of the `n` bytes the stream has accepted
  when the run is over, the number that reach the file.  The stream is
  buffered, so bytes an `fwrite` accepted can still be lost at a later flush,
  the last of which is that of `fclose`, whose result `main` drops (line 185). -/
  flushed : Nat → Nat

/-- The object an `fwrite` call is given. -/
inductive Obj
  | icondir (d : ICONDIR)
  | entry (e : ICONDIRENTRY)
  | buffer (b : List Byte)
deriving DecidableEq, Repr

/-- The first `size` bytes at the address of the object. -/
def Obj.bytes : Obj → Nat → List Byte
  | .icondir d, size => d.bytes.take size
  | .entry e, size => e.bytes.take size
  | .buffer b, size => b.take size

/-- A library call made by `main`. -/
inductive Event
  | stbi_load (filename : String) (req_comp : Nat)
  | malloc (size : Nat)
  | stbir_resize (output : Nat) (call : ResizeCall)
  | stbi_write_png (index : Nat) (pixels : List Byte) (stride x y n : Nat)
  | fopen (path : String) (mode : String)
  | fwrite (obj : Obj) (size : Nat)
  | fclose
deriving DecidableEq, Repr

/-- Whether the call is one on the destination: `fopen`, `fwrite`, `fclose`. -/
def Event.isFileOp : Event → Bool
  | .fopen _ _ => true
  | .fwrite _ _ => true
  | .fclose => true
  | _ => false

/-- The diagnostics of `main`, one constructor per `fprintf (stderr, ...)`. -/
inductive Failure
  /-- The usage line (line 70). -/
  | usage
  /-- The "Failed to load/decode" line (lines 88, 99). -/
  | loadFailed (filename : String)
  /-- The "not suitable image format" line (lines 92, 103): the error the
  specification calls DimensionError. -/
  | notSuitable (filename : String) (width height channels : Int)
  /-- The "Failed to allocate memory" line (line 112). -/
  | allocFailed (res : Nat)
  /-- The "Failed to downsample" line (line 122). -/
  | downsampleFailed (res : Nat)
  /-- The "Failed to PNG encode" line (line 132). -/
  | encodeFailed (res : Nat)
  /-- The "file already exists, refusing to overwrite it" line (line 138). -/
  | alreadyExists (path : String)
  /-- The "failed to open file for writing" line (line 144). -/
  | openFailed (path : String)
  /-- The "failed to write ICONDIR header" line (line 150). -/
  | writeHeaderFailed
  /-- The "failed to write ICONDIRENTRY" line (line 169). -/
  | writeEntryFailed (i : Nat)
  /-- The "failed to write image" line (line 179). -/
  | writeImageFailed (res : Nat)
deriving DecidableEq, Repr

/-- How a run ends. -/
inductive Status
  /-- Control reaches the end of `main` (line 188): exit status 0. -/
  | success
  /-- One of the `return -1` statements, after its diagnostic. -/
  | failure (f : Failure)
  /-- The signed addition of line 173 overflowed: the run has no defined
  behaviour from there on. -/
  | undefined
deriving DecidableEq, Repr

/-- The outcome of a part of `main`: the calls it made and either the value it
computed or the status it ended the run with. -/
structure Step (α : Type) where
  trace : List Event
  result : Except Status α

/-! ## The constants of `main` (lines 78-81) -/

/-- The array `resolutions`. -/
def resolutions : List Nat := [256, 72, 48, 32, 16]

/-- The constant `numImages`: the number of elements of `resolutions`. -/
def numImages : Nat := resolutions.length

/-- The constant `firstImage`. -/
def firstImage : Nat := 0

/-- The constant `lastImage`. -/
def lastImage : Nat := numImages - 1

/-- The values `i` takes in `for (unsigned i = start; i < stop; ++i)`. -/
def loopIndices (start stop : Nat) : List Nat := (List.range stop).drop start

/-- The element `v[i]` of a vector of images (every index `main` uses is below
`numImages`, the size of both vectors). -/
def imageAt (v : List Image) (i : Nat) : Image := v.getD i {}

/-- The buffer behind `v[i].data`, empty when the pointer is null. -/
def bufferAt (v : List Image) (i : Nat) : List Byte := ((imageAt v i).data).getD []

/-! ## The resolution pipeline (lines 83-135) -/

/-- Lines 85-94: decode the 256x256 source into `images.raw[firstImage]` and
check what the decoder reported. -/
def loadPrimary (env : Env) (filename256 : String) (images : Images) : Step Images :=
  match env.stbi_load filename256 0 with
  | none =>
    { trace := [.stbi_load filename256 0], result := .error (.failure (.loadFailed filename256)) }
  | some d =>
    if d.x ≠ 256 ∨ d.y ≠ 256 ∨ d.comp ≠ 4 then
      { trace := [.stbi_load filename256 0],
        result := .error (.failure (.notSuitable filename256 d.x d.y d.comp)) }
    else
      { trace := [.stbi_load filename256 0],
        result := .ok { images with raw := images.raw.set firstImage { data := some d.data } } }

/-- Lines 96-105: decode the 16x16 source, when there is one, into
`images.raw[lastImage]`; without one the pointer is set to null. -/
def loadSecondary (env : Env) (filename16 : Option String) (images : Images) : Step Images :=
  match filename16 with
  | none => { trace := [], result := .ok { images with raw := images.raw.set lastImage { data := none } } }
  | some f =>
    match env.stbi_load f 0 with
    | none => { trace := [.stbi_load f 0], result := .error (.failure (.loadFailed f)) }
    | some d =>
      if d.x ≠ 16 ∨ d.y ≠ 16 ∨ d.comp ≠ 4 then
        { trace := [.stbi_load f 0], result := .error (.failure (.notSuitable f d.x d.y d.comp)) }
      else
        { trace := [.stbi_load f 0],
          result := .ok { images with raw := images.raw.set lastImage { data := some d.data } } }

/-- Lines 107-116: the allocation loop, over the indices still to visit. -/
def allocLoop (env : Env) : List Nat → Images → Step Images
  | [], images => { trace := [], result := .ok images }
  | i :: rest, images =>
    if (imageAt images.raw i).data.isNone then
      let res := resolutions.getD i 0
      match env.malloc (res * res * 4 % 4294967296) with
      | none =>
        { trace := [.malloc (res * res * 4 % 4294967296)],
          result := .error (.failure (.allocFailed res)) }
      | some buf =>
        let next := allocLoop env rest { images with raw := images.raw.set i { data := some buf } }
        { trace := .malloc (res * res * 4 % 4294967296) :: next.trace, result := next.result }
    else allocLoop env rest images

/-- The argument list of the call on line 121 for target resolution `res`. -/
def resizeCall (env : Env) (images : Images) (res : Nat) : ResizeCall :=
  { input_pixels := bufferAt images.raw firstImage
    input_w := 256
    input_h := 256
    input_stride_in_bytes := 0
    output_w := res
    output_h := res
    output_stride_in_bytes := 0
    num_channels := 4
    alpha_channel := 3
    flags := env.STBIR_FLAG_ALPHA_USES_COLORSPACE }

/-- Lines 118-126: the resampling loop, over the indices still to visit. -/
def resizeLoop (env : Env) (filename16 : Option String) : List Nat → Images → Step Images
  | [], images => { trace := [], result := .ok images }
  | i :: rest, images =>
    if i ≠ lastImage ∨ filename16.isNone then
      let res := resolutions.getD i 0
      match env.stbir_resize_uint8_srgb (resizeCall env images res) with
      | none =>
        { trace := [.stbir_resize i (resizeCall env images res)],
          result := .error (.failure (.downsampleFailed res)) }
      | some out =>
        let next := resizeLoop env filename16 rest
          { images with raw := images.raw.set i { data := some out } }
        { trace := .stbir_resize i (resizeCall env images res) :: next.trace,
          result := next.result }
    else resizeLoop env filename16 rest images

/-- Lines 128-135: the encoding loop, over the indices still to visit. -/
def encodeLoop (env : Env) : List Nat → Images → Step Images
  | [], images => { trace := [], result := .ok images }
  | i :: rest, images =>
    let res := resolutions.getD i 0
    match env.stbi_write_png_to_mem (bufferAt images.raw i) 0 res res 4 with
    | none =>
      { trace := [.stbi_write_png i (bufferAt images.raw i) 0 res res 4],
        result := .error (.failure (.encodeFailed res)) }
    | some png =>
      let next := encodeLoop env rest { images with png := images.png.set i { data := some png } }
      { trace := .stbi_write_png i (bufferAt images.raw i) 0 res res 4 :: next.trace,
        result := next.result }

/-- Sequencing of two parts of `main`: the second runs on what the first
computed, unless the first ended the run. -/
def Step.andThen {α β : Type} (a : Step α) (f : α → Step β) : Step β :=
  match a.result with
  | .error st => { trace := a.trace, result := .error st }
  | .ok v => { trace := a.trace ++ (f v).trace, result := (f v).result }

/-- Lines 83-135: everything `main` does before it looks at the destination. -/
def pipeline (env : Env) (filename256 : String) (filename16 : Option String) : Step Images :=
  (loadPrimary env filename256 (Images.init numImages)).andThen fun im1 =>
  (loadSecondary env filename16 im1).andThen fun im2 =>
  (allocLoop env (loopIndices 1 numImages) im2).andThen fun im3 =>
  (resizeLoop env filename16 (loopIndices 1 numImages) im3).andThen fun im4 =>
  encodeLoop env (loopIndices 0 numImages) im4

/-! ## The container assembler (lines 137-188) -/

/-- The limits of `int`. -/
def INT_MAX : Int := 2147483647

/-- The least `int`. -/
def INT_MIN : Int := -2147483648

/-- Addition of two `int` values: defined only when the sum is an `int`. -/
def intAdd (a b : Int) : Option Int :=
  if INT_MIN ≤ a + b ∧ a + b ≤ INT_MAX then some (a + b) else none

/-- The stream `of`: the bytes it has accepted so far, in its buffer or in the
file, and the number of `fwrite` calls made on it. -/
structure Stream where
  content : List Byte
  nwrites : Nat
deriving DecidableEq, Repr

/-- The call `fwrite (ptr, size, 1, of)`: the number of items written (0 or 1)
and the stream afterwards.  An item of size 0 is never counted as written; a
write that breaks off leaves a proper part of the item in the stream. -/
def fwrite (env : Env) (obj : Obj) (size : Nat) (s : Stream) : Nat × Stream :=
  if size = 0 then (0, { s with nwrites := s.nwrites + 1 })
  else
    match env.fwriteFault s.nwrites with
    | none => (1, { content := s.content ++ obj.bytes size, nwrites := s.nwrites + 1 })
    | some n =>
      (0, { content := s.content ++ (obj.bytes size).take (min n (size - 1)),
            nwrites := s.nwrites + 1 })

/-- The outcome of a part of the write phase: the calls made, the stream
afterwards, and either a value or the status the run ended with. -/
structure WStep (α : Type) where
  trace : List Event
  stream : Stream
  result : Except Status α

/-- The initialiser of `icondir` on line 148. -/
def mkHeader : ICONDIR := { reserved := 0, type := 1, numImages := toUInt16 numImages }

/-- Lines 148-153: write the header. -/
def writeHeader (env : Env) (s : Stream) : WStep Unit :=
  if (fwrite env (.icondir mkHeader) ICONDIRSIZE s).1 ≠ 1 then
    { trace := [.fwrite (.icondir mkHeader) ICONDIRSIZE, .fclose]
      stream := (fwrite env (.icondir mkHeader) ICONDIRSIZE s).2
      result := .error (.failure .writeHeaderFailed) }
  else
    { trace := [.fwrite (.icondir mkHeader) ICONDIRSIZE]
      stream := (fwrite env (.icondir mkHeader) ICONDIRSIZE s).2
      result := .ok () }

/-- The initialiser of `entry` on lines 162-167, for resolution `res`, payload
size `size` and the current value `offset` of the accumulator. -/
def mkEntry (res : Nat) (size offset : Int) : ICONDIRENTRY :=
  { width := toUInt8 (if res = 256 then 0 else toUInt8 res)
    height := toUInt8 (if res = 256 then 0 else toUInt8 res)
    numColors := 0
    reserved := 0
    colorPlanes := toUInt16 1
    bitsPerPixel := toUInt16 32
    size := toUInt32 size
    offset := toUInt32 offset }

/-- Lines 156-174: the directory loop, over the indices still to visit, from
the current value of `offset`; it yields the final value of `offset`. -/
def writeEntries (env : Env) (images : Images) : List Nat → Int → Stream → WStep Int
  | [], offset, s => { trace := [], stream := s, result := .ok offset }
  | i :: rest, offset, s =>
    let entry := mkEntry (resolutions.getD i 0) (imageAt images.png i).size offset
    if (fwrite env (.entry entry) ICONDIRENTRYSIZE s).1 ≠ 1 then
      { trace := [.fwrite (.entry entry) ICONDIRENTRYSIZE, .fclose]
        stream := (fwrite env (.entry entry) ICONDIRENTRYSIZE s).2
        result := .error (.failure (.writeEntryFailed i)) }
    else
      match intAdd offset (imageAt images.png i).size with
      | none =>
        { trace := [.fwrite (.entry entry) ICONDIRENTRYSIZE]
          stream := (fwrite env (.entry entry) ICONDIRENTRYSIZE s).2
          result := .error .undefined }
      | some offset1 =>
        let next := writeEntries env images rest offset1
          (fwrite env (.entry entry) ICONDIRENTRYSIZE s).2
        { trace := .fwrite (.entry entry) ICONDIRENTRYSIZE :: next.trace
          stream := next.stream
          result := next.result }

/-- Lines 176-183: the payload loop, over the indices still to visit. -/
def writePayloads (env : Env) (images : Images) : List Nat → Stream → WStep Unit
  | [], s => { trace := [], stream := s, result := .ok () }
  | i :: rest, s =>
    let buf := bufferAt images.png i
    let size := (imageAt images.png i).size.toNat
    if (fwrite env (.buffer buf) size s).1 ≠ 1 then
      { trace := [.fwrite (.buffer buf) size, .fclose]
        stream := (fwrite env (.buffer buf) size s).2
        result := .error (.failure (.writeImageFailed (resolutions.getD i 0))) }
    else
      let next := writePayloads env images rest (fwrite env (.buffer buf) size s).2
      { trace := .fwrite (.buffer buf) size :: next.trace
        stream := next.stream
        result := next.result }

/-- Sequencing of two parts of the write phase. -/
def WStep.andThen {α β : Type} (a : WStep α) (f : α → Stream → WStep β) : WStep β :=
  match a.result with
  | .error st => { trace := a.trace, stream := a.stream, result := .error st }
  | .ok v =>
    { trace := a.trace ++ (f v a.stream).trace
      stream := (f v a.stream).stream
      result := (f v a.stream).result }

/-- The initialiser of `offset` on line 155: an unsigned sum, converted to
`int`. -/
def initialOffset : Int :=
  (((ICONDIRSIZE + ICONDIRENTRYSIZE * numImages) % 4294967296 : Nat) : Int)

/-- Lines 148-185: everything written to the freshly opened stream, and the
final `fclose`, whose result is not inspected: the status is success whatever
the last flush did. -/
def writeAll (env : Env) (images : Images) (s : Stream) : WStep Unit :=
  (writeHeader env s).andThen fun _ s1 =>
  (writeEntries env images (loopIndices 0 numImages) initialOffset s1).andThen fun _ s2 =>
  (writePayloads env images (loopIndices 0 numImages) s2).andThen fun _ s3 =>
  { trace := [.fclose], stream := s3, result := .ok () }

/-- The test `std::fopen (path, "r")` of line 137: the stream is non-null
exactly when the path names a file that can be opened for reading. -/
def fopenRead (fs : String → Option File) (path : String) : Bool :=
  match fs path with
  | some f => f.readable
  | none => false

/-- The call `std::fopen (path, "wb")` of line 142: an existing file is
truncated if it may be written, a missing one is created if the path allows;
the result is the (empty) file, `none` for a null stream. -/
def fopenWrite (env : Env) (path : String) : Option File :=
  match env.fs path with
  | some f => if f.writable then some { f with content := [] } else none
  | none =>
    if env.creatable path then some { readable := true, writable := true, content := [] }
    else none

/-- What a run of `main` leaves behind. -/
structure Result where
  status : Status
  fs : String → Option File
  trace : List Event

/-- The status a part of `main` leaves when nothing follows it. -/
def finalStatus {α : Type} : Except Status α → Status
  | .error st => st
  | .ok _ => .success

/-- What the file holds once the stream is done with: the initial part of the
accepted bytes that the flushes carried to the file. -/
def onDisk (env : Env) (s : Stream) : List Byte :=
  s.content.take (env.flushed s.content.length)

/-- Lines 137-188: the existence test, the open and the write phase. -/
def assemble (env : Env) (outputfile : String) (images : Images) : Result :=
  if fopenRead env.fs outputfile then
    { status := .failure (.alreadyExists outputfile)
      fs := env.fs
      trace := [.fopen outputfile "r"] }
  else
    match fopenWrite env outputfile with
    | none =>
      { status := .failure (.openFailed outputfile)
        fs := env.fs
        trace := [.fopen outputfile "r", .fopen outputfile "wb"] }
    | some file =>
      { status := finalStatus (writeAll env images { content := [], nwrites := 0 }).result
        fs := fun p =>
          if p = outputfile then
            some { file with
              content := onDisk env (writeAll env images { content := [], nwrites := 0 }).stream }
          else env.fs p
        trace := [.fopen outputfile "r", .fopen outputfile "wb"] ++
          (writeAll env images { content := [], nwrites := 0 }).trace }

/-- The variable `outputfile`: `argv[1]`. -/
def outputfile (env : Env) : String := env.argv.getD 1 ""

/-- The variable `filename256`: `argv[2]`. -/
def filename256 (env : Env) : String := env.argv.getD 2 ""

/-- The variable `filename16`: `argv[3]` when `argc == 4`, else null. -/
def filename16 (env : Env) : Option String :=
  if env.argv.length = 4 then some (env.argv.getD 3 "") else none

/-- The function `main`. -/
def main (env : Env) : Result :=
  if env.argv.length < 3 ∨ env.argv.length > 4 then
    { status := .failure .usage, fs := env.fs, trace := [] }
  else
    match (pipeline env (filename256 env) (filename16 env)).result with
    | .error st =>
      { status := st, fs := env.fs, trace := (pipeline env (filename256 env) (filename16 env)).trace }
    | .ok images =>
      { status := (assemble env (outputfile env) images).status
        fs := (assemble env (outputfile env) images).fs
        trace := (pipeline env (filename256 env) (filename16 env)).trace ++
          (assemble env (outputfile env) images).trace }

/-! ## Observations on a run -/

/-- Whether a diagnostic is one of the resolution pipeline (lines 85-135). -/
def Failure.isPipeline : Failure → Bool
  | .loadFailed _ => true
  | .notSuitable _ _ _ _ => true
  | .allocFailed _ => true
  | .downsampleFailed _ => true
  | .encodeFailed _ => true
  | _ => false

/-- The directory entry an `fwrite` call was given, if it was given one. -/
def Event.asEntry : Event → Option ICONDIRENTRY
  | .fwrite (.entry e) _ => some e
  | _ => none

/-- The directory entries handed to `fwrite` in a trace, in program order. -/
def entriesOf (t : List Event) : List ICONDIRENTRY := t.filterMap Event.asEntry

/-- The sum `s_0 + ... + s_{i-1}` of the sizes of the encoded images before
index `i`. -/
def sizesBefore (images : Images) (i : Nat) : Int :=
  ((List.range i).map fun j => (imageAt images.png j).size).sum

/-- The entries the directory loop builds along a list of indices when every
addition is exact, starting from a given value of `offset`. -/
def entriesFrom (images : Images) : List Nat → Int → List ICONDIRENTRY
  | [], _ => []
  | i :: rest, offset =>
    mkEntry (resolutions.getD i 0) (imageAt images.png i).size offset ::
      entriesFrom images rest (offset + (imageAt images.png i).size)

/-- The sum of the sizes of the encoded images at the given indices. -/
def sizesAt (images : Images) (idxs : List Nat) : Int :=
  (idxs.map fun j => (imageAt images.png j).size).sum

/-- The encoded images as byte strings, in the order of the payload loop. -/
def payloads (images : Images) : List (List Byte) :=
  (loopIndices 0 numImages).map (bufferAt images.png)

/-! ## The container format, as the specification words it -/

/-- Little-endian encoding of a value on a given number of bytes. -/
def leBytes : Nat → Nat → List Byte
  | 0, _ => []
  | n + 1, v => v % 256 :: leBytes n (v / 256)

/-- The 6-byte header: reserved, type and count as 16-bit little-endian
fields. -/
def layoutHeader (reserved type count : Nat) : List Byte :=
  leBytes 2 reserved ++ leBytes 2 type ++ leBytes 2 count

/-- One 16-byte directory entry: width byte, height byte (0 standing for 256),
numColors, reserved, colorPlanes and bitsPerPixel on 16 bits, size and offset
on 32 bits, little-endian. -/
def layoutEntry (res size offset : Nat) : List Byte :=
  [if res = 256 then 0 else res, if res = 256 then 0 else res, 0, 0] ++
  leBytes 2 1 ++ leBytes 2 32 ++ leBytes 4 size ++ leBytes 4 offset

/-- The container for a list of payloads: header with reserved=0, type=1,
count=5, then for each resolution in list order one entry whose offset is
`6 + 16*5` plus the lengths of the payloads before it, then the payloads. -/
def layoutContainer (ps : List (List Byte)) : List Byte :=
  layoutHeader 0 1 5 ++
  ((List.range 5).map fun i =>
    layoutEntry (resolutions.getD i 0) (ps.getD i []).length
      (6 + 16 * 5 + ((ps.take i).map List.length).sum)).flatten ++
  ps.flatten

/-! ## Sample runs -/

/-- A decoder that knows a 256x256 RGBA image `in.png`, a 16x16 RGBA image
`small.png` and a 256x256 RGB image `rgb.png`. -/
def sampleLoad (f : String) (_req_comp : Nat) : Option Decoded :=
  if f = "in.png" then some { data := [10, 20, 30, 40], x := 256, y := 256, comp := 4 }
  else if f = "small.png" then some { data := [50, 60, 70, 80], x := 16, y := 16, comp := 4 }
  else if f = "rgb.png" then some { data := [1, 2, 3], x := 256, y := 256, comp := 3 }
  else none

/-- A run `createico out.ico in.png` in which every library call succeeds,
every byte written reaches the file and `out.ico` does not exist. -/
def sampleEnv : Env :=
  { argv := ["createico", "out.ico", "in.png"]
    stbi_load := sampleLoad
    malloc := fun n => some (List.replicate n 0)
    stbir_resize_uint8_srgb := fun c => some (c.output_w :: c.input_pixels.take 1)
    stbi_write_png_to_mem := fun px _ x _ _ => some ([137, 80, x % 256] ++ px)
    STBIR_FLAG_ALPHA_USES_COLORSPACE := 2
    fs := fun _ => none
    creatable := fun _ => true
    fwriteFault := fun _ => none
    flushed := fun n => n }

/-- The images the pipeline of `sampleEnv` produces. -/
def sampleImages : Images :=
  { raw := [⟨some [10, 20, 30, 40]⟩, ⟨some [72, 10]⟩, ⟨some [48, 10]⟩, ⟨some [32, 10]⟩,
      ⟨some [16, 10]⟩]
    png := [⟨some [137, 80, 0, 10, 20, 30, 40]⟩, ⟨some [137, 80, 72, 72, 10]⟩,
      ⟨some [137, 80, 48, 48, 10]⟩, ⟨some [137, 80, 32, 32, 10]⟩,
      ⟨some [137, 80, 16, 16, 10]⟩] }

/-- The run `createico out.ico in.png small.png`, otherwise as `sampleEnv`. -/
def sampleEnv16 : Env :=
  { sampleEnv with argv := ["createico", "out.ico", "in.png", "small.png"] }

/-- The run `createico out.ico rgb.png`: the source has three channels. -/
def rgbEnv : Env :=
  { sampleEnv with argv := ["createico", "out.ico", "rgb.png"] }

/-- The run of `sampleEnv` with an encoder that returns null for 32x32. -/
def encodeFailEnv : Env :=
  { sampleEnv with
    stbi_write_png_to_mem := fun px _ x _ _ => if x = 32 then none else some (x % 256 :: px) }

/-- The run of `sampleEnv` on a destination that exists, holds three bytes and
may be written but not read (permission bits `0200`). -/
def writeOnlyEnv : Env :=
  { sampleEnv with
    fs := fun p =>
      if p = "out.ico" then some { readable := false, writable := true, content := [7, 7, 7] }
      else none }

/-- The run of `sampleEnv` on a destination that exists and may be read. -/
def existingEnv : Env :=
  { sampleEnv with
    fs := fun p =>
      if p = "out.ico" then some { readable := true, writable := true, content := [7, 7, 7] }
      else none }

/-! ## Further observations -/

/-- Reading a dimension byte of a directory entry under the convention of the
ICO format: 0 stands for 256, any other byte for itself. -/
def decodeDimension (b : Nat) : Nat := if b = 0 then 256 else b

/-- Whether a diagnostic is one of the three write diagnostics (lines 150,
169, 179). -/
def Failure.isWrite : Failure → Bool
  | .writeHeaderFailed => true
  | .writeEntryFailed _ => true
  | .writeImageFailed _ => true
  | _ => false

/-- The file name and the requested channel count of a decoder call. -/
def Event.asLoad : Event → Option (String × Nat)
  | .stbi_load f n => some (f, n)
  | _ => none

/-- The decoder calls of a trace, in program order. -/
def loadsOf (t : List Event) : List (String × Nat) := t.filterMap Event.asLoad

/-- The destination index and the arguments of a resampler call. -/
def Event.asResize : Event → Option (Nat × ResizeCall)
  | .stbir_resize i c => some (i, c)
  | _ => none

/-- The resampler calls of a trace, in program order. -/
def resizesOf (t : List Event) : List (Nat × ResizeCall) := t.filterMap Event.asResize

/-- Whether the call is a call of the encoder. -/
def Event.isEncode : Event → Bool
  | .stbi_write_png _ _ _ _ _ _ => true
  | _ => false

/-- The indices the resampling loop resamples when it runs to its end: those
of its range that pass the test of line 119. -/
def resizeTargets (f16 : Option String) : List Nat :=
  (loopIndices 1 numImages).filter fun i => decide (i ≠ lastImage ∨ f16.isNone)

/-- The bytes the write phase sends to the stream when no `fwrite` breaks off
and no addition overflows: header, directory, payloads. -/
def idealContent (images : Images) : List Byte :=
  mkHeader.bytes ++
  ((entriesFrom images (loopIndices 0 numImages) initialOffset).map ICONDIRENTRY.bytes).flatten ++
  (payloads images).flatten

/-- The argument list of a resampler call with a given source buffer, for
target resolution `res`: the call of line 121. -/
def sourceCall (env : Env) (source : List Byte) (res : Nat) : ResizeCall :=
  { input_pixels := source
    input_w := 256
    input_h := 256
    input_stride_in_bytes := 0
    output_w := res
    output_h := res
    output_stride_in_bytes := 0
    num_channels := 4
    alpha_channel := 3
    flags := env.STBIR_FLAG_ALPHA_USES_COLORSPACE }

/-- The decoded 16x16 buffer, when a 16x16 file is named and decodes. -/
def secondaryOf (env : Env) (f16 : Option String) : Option (List Byte) :=
  f16.bind fun f => (env.stbi_load f 0).map fun d => d.data

/-- The raw buffer of index `i` after the resampling loop, in terms of the
decoded sources: the primary for the first index, the secondary for the last
index when there is one, the resampler's output otherwise. -/
def rawBuffer (env : Env) (primary : List Byte) (secondary : Option (List Byte)) (i : Nat) :
    Option (List Byte) :=
  if i = firstImage then some primary
  else if i = lastImage ∧ secondary.isSome then secondary
  else env.stbir_resize_uint8_srgb (sourceCall env primary (resolutions.getD i 0))

/-- The encoded buffer of index `i`, in terms of the decoded sources. -/
def encodedBuffer (env : Env) (primary : List Byte) (secondary : Option (List Byte)) (i : Nat) :
    Option (List Byte) :=
  env.stbi_write_png_to_mem ((rawBuffer env primary secondary i).getD []) 0
    (resolutions.getD i 0) (resolutions.getD i 0) 4

/-- The run of `sampleEnv16` on a destination that exists and may be read. -/
def existingEnv16 : Env :=
  { existingEnv with argv := ["createico", "out.ico", "in.png", "small.png"] }

/-- The run of `sampleEnv` with a resampler that returns 0 for 48x48. -/
def resizeFailEnv : Env :=
  { sampleEnv with
    stbir_resize_uint8_srgb := fun c =>
      if c.output_w = 48 then none else some (c.output_w :: c.input_pixels.take 1) }

/-- The run of `sampleEnv` in which the eighth `fwrite` (the payload of index
1, after the header, five entries and one payload) breaks off after 2 bytes. -/
def writeFaultEnv : Env :=
  { sampleEnv with fwriteFault := fun k => if k = 7 then some 2 else none }

/-- Whether a diagnostic is one of the two of the source acquisition steps:
"Failed to load/decode" or "not suitable image format". -/
def Failure.isSource : Failure → Bool
  | .loadFailed _ => true
  | .notSuitable _ _ _ _ => true
  | _ => false

/-- The run `createico out.ico in.png in.png`: the file given as 16x16 source
is the 256x256 image. -/
def badSecondaryEnv : Env :=
  { sampleEnv with argv := ["createico", "out.ico", "in.png", "in.png"] }

/-- The run of `sampleEnv` with the destination on a device without free
space: the stream buffers the 113 bytes of the container, so each of the eleven
`fwrite` calls returns 1, and the flush of `fclose` fails, so none of them
reaches the file. -/
def fullDiskEnv : Env :=
  { sampleEnv with flushed := fun _ => 0 }

/-! ## Basic facts -/

theorem loopIndices_zero : loopIndices 0 numImages = [0, 1, 2, 3, 4] := by decide

theorem loopIndices_one : loopIndices 1 numImages = [1, 2, 3, 4] := by decide

theorem image_size_nonneg (im : Image) : 0 ≤ im.size := by
  unfold Image.size
  cases im.data with
  | none => exact le_refl 0
  | some b => exact Int.natCast_nonneg _

theorem bufferAt_length (v : List Image) (i : Nat) :
    ((bufferAt v i).length : Int) = (imageAt v i).size := by
  unfold bufferAt Image.size
  cases (imageAt v i).data with
  | none => rfl
  | some b => rfl

theorem toUInt32_of_int_range (v : Int) (h0 : 0 ≤ v) (h1 : v ≤ INT_MAX) :
    ((toUInt32 v : Nat) : Int) = v := by
  unfold toUInt32
  unfold INT_MAX at h1
  rw [Int.toNat_of_nonneg (Int.emod_nonneg _ (by norm_num))]
  exact Int.emod_eq_of_lt h0 (by omega)

theorem intAdd_eq_some {a b c : Int} (h : intAdd a b = some c) :
    c = a + b ∧ a + b ≤ INT_MAX := by
  unfold intAdd at h
  split at h
  · rename_i hr
    exact ⟨(Option.some.inj h).symm, hr.2⟩
  · exact absurd h (by simp)

theorem entry_bytes_length (e : ICONDIRENTRY) : e.bytes.length = 16 := by
  simp [ICONDIRENTRY.bytes, u8Bytes, u16Bytes, u32Bytes]

theorem icondir_bytes_length (d : ICONDIR) : d.bytes.length = 6 := by
  simp [ICONDIR.bytes, u16Bytes]

theorem obj_bytes_entry (e : ICONDIRENTRY) :
    Obj.bytes (.entry e) ICONDIRENTRYSIZE = e.bytes := by
  simp only [Obj.bytes, ICONDIRENTRYSIZE]
  exact List.take_of_length_le (le_of_eq (entry_bytes_length e))

theorem obj_bytes_icondir (d : ICONDIR) :
    Obj.bytes (.icondir d) ICONDIRSIZE = d.bytes := by
  simp only [Obj.bytes, ICONDIRSIZE]
  exact List.take_of_length_le (le_of_eq (icondir_bytes_length d))

/-- A successful `fwrite` appends exactly the item. -/
theorem fwrite_eq_one {env : Env} {obj : Obj} {size : Nat} {s : Stream}
    (h : (fwrite env obj size s).1 = 1) :
    size ≠ 0 ∧ (fwrite env obj size s).2.content = s.content ++ obj.bytes size := by
  unfold fwrite at h ⊢
  by_cases hs : size = 0
  · simp [hs] at h
  · refine ⟨hs, ?_⟩
    simp only [hs, if_false] at h ⊢
    cases hf : env.fwriteFault s.nwrites with
    | none => simp
    | some n => simp [hf] at h

theorem entriesOf_cons_entry (e : ICONDIRENTRY) (n : Nat) (t : List Event) :
    entriesOf (.fwrite (.entry e) n :: t) = e :: entriesOf t := by
  simp [entriesOf, Event.asEntry]

theorem entriesOf_append (t u : List Event) :
    entriesOf (t ++ u) = entriesOf t ++ entriesOf u := by
  simp [entriesOf]

theorem entriesOf_of_noEntry (t : List Event) (h : ∀ ev ∈ t, ev.asEntry = none) :
    entriesOf t = [] := by
  unfold entriesOf
  exact List.filterMap_eq_nil_iff.mpr h

/-- Every entry the directory loop hands to `fwrite` is the one built from the
exact running sum, and that sum is an `int`. -/
theorem writeEntries_get (env : Env) (images : Images) :
    ∀ (idxs : List Nat) (offset : Int) (s : Stream) (k : Nat) (e : ICONDIRENTRY),
      offset ≤ INT_MAX →
      (entriesOf (writeEntries env images idxs offset s).trace)[k]? = some e →
      ∃ i, idxs[k]? = some i ∧
        e = mkEntry (resolutions.getD i 0) (imageAt images.png i).size
              (offset + sizesAt images (idxs.take k)) ∧
        offset + sizesAt images (idxs.take k) ≤ INT_MAX := by
  intro idxs
  induction idxs with
  | nil =>
    intro offset s k e _ h
    simp [writeEntries, entriesOf] at h
  | cons i rest ih =>
    intro offset s k e hoff h
    have hhead : ∀ (t : List Event),
        (entriesOf (.fwrite (.entry (mkEntry (resolutions.getD i 0)
          (imageAt images.png i).size offset)) ICONDIRENTRYSIZE :: t))[k]? = some e →
        k = 0 →
        ∃ j, (i :: rest)[k]? = some j ∧
          e = mkEntry (resolutions.getD j 0) (imageAt images.png j).size
                (offset + sizesAt images ((i :: rest).take k)) ∧
          offset + sizesAt images ((i :: rest).take k) ≤ INT_MAX := by
      intro t ht hk
      subst hk
      rw [entriesOf_cons_entry] at ht
      simp only [List.getElem?_cons_zero, Option.some.injEq] at ht
      refine ⟨i, by simp, ?_, ?_⟩
      · simp [sizesAt, ← ht]
      · simpa [sizesAt] using hoff
    simp only [writeEntries] at h
    split at h
    · -- the write of this entry failed
      cases k with
      | zero => exact hhead _ h rfl
      | succ k => simp [entriesOf_cons_entry, entriesOf, Event.asEntry] at h
    · split at h
      · cases k with
        | zero => exact hhead _ h rfl
        | succ k => simp [entriesOf_cons_entry, entriesOf, Event.asEntry] at h
      · rename_i offset1 hadd
        cases k with
        | zero => exact hhead _ h rfl
        | succ k =>
          obtain ⟨h1, h2⟩ := intAdd_eq_some hadd
          rw [entriesOf_cons_entry] at h
          simp only [List.getElem?_cons_succ] at h
          obtain ⟨j, hj, he, hle⟩ := ih offset1 _ k e (by rw [h1]; exact h2) h
          refine ⟨j, by simpa using hj, ?_, ?_⟩
          · rw [he, h1]
            simp [sizesAt, add_assoc]
          · rw [h1] at hle
            simpa [sizesAt, add_assoc] using hle


/-! ## The shape of traces -/

theorem step_andThen_ok {α β : Type} {a : Step α} {f : α → Step β} {w : β}
    (h : (a.andThen f).result = .ok w) :
    ∃ v, a.result = .ok v ∧ (f v).result = .ok w ∧
      (a.andThen f).trace = a.trace ++ (f v).trace := by
  unfold Step.andThen at h ⊢
  cases hr : a.result with
  | error st => simp [hr] at h
  | ok v =>
    simp only [hr] at h ⊢
    exact ⟨v, rfl, h, rfl⟩

theorem step_andThen_mem {α β : Type} {a : Step α} {f : α → Step β} {ev : Event}
    (h : ev ∈ (a.andThen f).trace) :
    ev ∈ a.trace ∨ ∃ v, a.result = .ok v ∧ ev ∈ (f v).trace := by
  unfold Step.andThen at h
  cases hr : a.result with
  | error st =>
    simp only [hr] at h
    exact Or.inl h
  | ok v =>
    simp only [hr, List.mem_append] at h
    rcases h with h | h
    · exact Or.inl h
    · exact Or.inr ⟨v, rfl, h⟩

theorem wstep_andThen_ok {α β : Type} {a : WStep α} {f : α → Stream → WStep β} {w : β}
    (h : (a.andThen f).result = .ok w) :
    ∃ v, a.result = .ok v ∧ (f v a.stream).result = .ok w ∧
      (a.andThen f).trace = a.trace ++ (f v a.stream).trace ∧
      (a.andThen f).stream = (f v a.stream).stream := by
  unfold WStep.andThen at h ⊢
  cases hr : a.result with
  | error st => simp [hr] at h
  | ok v =>
    simp only [hr] at h ⊢
    exact ⟨v, rfl, h, rfl, rfl⟩

theorem loadPrimary_trace (env : Env) (f : String) (images : Images) :
    (loadPrimary env f images).trace = [.stbi_load f 0] := by
  unfold loadPrimary
  split
  · rfl
  · split <;> rfl

theorem loadSecondary_trace (env : Env) (f16 : Option String) (images : Images) :
    ∀ ev ∈ (loadSecondary env f16 images).trace, ∃ f, f16 = some f ∧ ev = .stbi_load f 0 := by
  intro ev h
  unfold loadSecondary at h
  split at h
  · simp at h
  · rename_i f
    refine ⟨f, rfl, ?_⟩
    split at h
    · simpa using h
    · split at h <;> simpa using h

theorem allocLoop_trace (env : Env) :
    ∀ (idxs : List Nat) (images : Images),
      ∀ ev ∈ (allocLoop env idxs images).trace, ∃ n, ev = .malloc n := by
  intro idxs
  induction idxs with
  | nil => intro images ev h; simp [allocLoop] at h
  | cons i rest ih =>
    intro images ev h
    simp only [allocLoop] at h
    split at h
    · split at h
      · exact ⟨_, by simpa using h⟩
      · simp only [List.mem_cons] at h
        rcases h with h | h
        · exact ⟨_, h⟩
        · exact ih _ ev h
    · exact ih _ ev h

theorem resizeLoop_trace (env : Env) (f16 : Option String) :
    ∀ (idxs : List Nat) (images : Images),
      ∀ ev ∈ (resizeLoop env f16 idxs images).trace,
        ∃ i c, i ∈ idxs ∧ (i ≠ lastImage ∨ f16 = none) ∧ ev = .stbir_resize i c := by
  intro idxs
  induction idxs with
  | nil => intro images ev h; simp [resizeLoop] at h
  | cons i rest ih =>
    intro images ev h
    simp only [resizeLoop] at h
    split at h
    · rename_i hc
      have hc2 : i ≠ lastImage ∨ f16 = none := by
        rcases hc with hc | hc
        · exact Or.inl hc
        · exact Or.inr (by simpa using hc)
      split at h
      · exact ⟨i, _, List.mem_cons_self _ _, hc2, by simpa using h⟩
      · simp only [List.mem_cons] at h
        rcases h with h | h
        · exact ⟨i, _, List.mem_cons_self _ _, hc2, h⟩
        · obtain ⟨j, c, hj, hcond, hev⟩ := ih _ ev h
          exact ⟨j, c, List.mem_cons_of_mem _ hj, hcond, hev⟩
    · obtain ⟨j, c, hj, hcond, hev⟩ := ih _ ev h
      exact ⟨j, c, List.mem_cons_of_mem _ hj, hcond, hev⟩

theorem encodeLoop_raw (env : Env) :
    ∀ (idxs : List Nat) (images out : Images),
      (encodeLoop env idxs images).result = .ok out → out.raw = images.raw := by
  intro idxs
  induction idxs with
  | nil =>
    intro images out h
    simp only [encodeLoop, Except.ok.injEq] at h
    rw [← h]
  | cons i rest ih =>
    intro images out h
    simp only [encodeLoop] at h
    split at h
    · simp at h
    · rename_i png _
      exact ih { raw := images.raw, png := images.png.set i { data := some png } } out h

theorem encodeLoop_trace (env : Env) :
    ∀ (idxs : List Nat) (images : Images),
      ∀ ev ∈ (encodeLoop env idxs images).trace,
        ∃ i, i ∈ idxs ∧ ev = .stbi_write_png i (bufferAt images.raw i) 0
          (resolutions.getD i 0) (resolutions.getD i 0) 4 := by
  intro idxs
  induction idxs with
  | nil => intro images ev h; simp [encodeLoop] at h
  | cons i rest ih =>
    intro images ev h
    simp only [encodeLoop] at h
    split at h
    · exact ⟨i, List.mem_cons_self _ _, by simpa using h⟩
    · simp only [List.mem_cons] at h
      rcases h with h | h
      · exact ⟨i, List.mem_cons_self _ _, h⟩
      · obtain ⟨j, hj, hev⟩ := ih _ ev h
        exact ⟨j, List.mem_cons_of_mem _ hj, hev⟩

/-- No call of the pipeline is a call on the destination. -/
theorem pipeline_noFileOp (env : Env) (f256 : String) (f16 : Option String) :
    ∀ ev ∈ (pipeline env f256 f16).trace, ev.isFileOp = false := by
  intro ev h
  unfold pipeline at h
  rcases step_andThen_mem h with h | ⟨im1, -, h⟩
  · rw [loadPrimary_trace] at h
    simp only [List.mem_singleton] at h
    rw [h]; rfl
  rcases step_andThen_mem h with h | ⟨im2, -, h⟩
  · obtain ⟨f, -, hev⟩ := loadSecondary_trace env f16 im1 ev h
    rw [hev]; rfl
  rcases step_andThen_mem h with h | ⟨im3, -, h⟩
  · obtain ⟨n, hev⟩ := allocLoop_trace env _ im2 ev h
    rw [hev]; rfl
  rcases step_andThen_mem h with h | ⟨im4, -, h⟩
  · obtain ⟨i, c, -, -, hev⟩ := resizeLoop_trace env f16 _ im3 ev h
    rw [hev]; rfl
  · obtain ⟨i, -, hev⟩ := encodeLoop_trace env _ im4 ev h
    rw [hev]; rfl

theorem asEntry_of_not_fileOp (ev : Event) (h : ev.isFileOp = false) : ev.asEntry = none := by
  cases ev <;> first | rfl | simp [Event.isFileOp] at h

theorem writePayloads_noEntry (env : Env) (images : Images) :
    ∀ (idxs : List Nat) (s : Stream),
      ∀ ev ∈ (writePayloads env images idxs s).trace, ev.asEntry = none := by
  intro idxs
  induction idxs with
  | nil => intro s ev h; simp [writePayloads] at h
  | cons i rest ih =>
    intro s ev h
    simp only [writePayloads] at h
    split at h
    · simp only [List.mem_cons, List.mem_singleton, List.not_mem_nil, or_false] at h
      rcases h with h | h <;> (rw [h]; rfl)
    · simp only [List.mem_cons] at h
      rcases h with h | h
      · rw [h]; rfl
      · exact ih _ ev h


theorem initialOffset_eq : initialOffset = 86 := by decide

theorem writeHeader_noEntry (env : Env) (s : Stream) :
    entriesOf (writeHeader env s).trace = [] := by
  unfold writeHeader
  split <;> rfl

/-- The entries in the trace of the write phase are those of the directory
loop, started at the initial offset. -/
theorem writeAll_entries (env : Env) (images : Images) (s : Stream) :
    entriesOf (writeAll env images s).trace = [] ∨
    ∃ s1, entriesOf (writeAll env images s).trace =
      entriesOf (writeEntries env images (loopIndices 0 numImages) initialOffset s1).trace := by
  unfold writeAll
  generalize hH : writeHeader env s = H
  have hHe : entriesOf H.trace = [] := by rw [← hH]; exact writeHeader_noEntry env s
  cases hr : H.result with
  | error st =>
    left
    simp only [WStep.andThen, hr]
    exact hHe
  | ok u =>
    right
    refine ⟨H.stream, ?_⟩
    generalize hE : writeEntries env images (loopIndices 0 numImages) initialOffset H.stream = E
    cases hre : E.result with
    | error st =>
      simp only [WStep.andThen, hr, hE, hre, entriesOf_append, hHe, List.nil_append]
    | ok off =>
      generalize hP : writePayloads env images (loopIndices 0 numImages) E.stream = P
      have hPe : entriesOf P.trace = [] := by
        rw [← hP]
        exact entriesOf_of_noEntry _ (writePayloads_noEntry env images _ _)
      cases hrp : P.result with
      | error st =>
        simp only [WStep.andThen, hr, hE, hre, hP, hrp, entriesOf_append, hHe, hPe,
          List.nil_append, List.append_nil]
      | ok u2 =>
        simp only [WStep.andThen, hr, hE, hre, hP, hrp, entriesOf_append, hHe, hPe,
          List.nil_append, List.append_nil]
        simp [entriesOf, Event.asEntry]

theorem assemble_entries (env : Env) (path : String) (images : Images) :
    entriesOf (assemble env path images).trace = [] ∨
    ∃ s1, entriesOf (assemble env path images).trace =
      entriesOf (writeEntries env images (loopIndices 0 numImages) initialOffset s1).trace := by
  unfold assemble
  split
  · left; rfl
  · split
    · left; rfl
    · rcases writeAll_entries env images { content := [], nwrites := 0 } with h | ⟨s1, h⟩
      · left
        simp only [entriesOf_append, h]
        rfl
      · right
        refine ⟨s1, ?_⟩
        simp only [entriesOf_append, h]
        rfl

/-- The entries in the trace of a run: none, or those of the directory loop run
on the images the pipeline produced. -/
theorem main_entries (env : Env) :
    entriesOf (main env).trace = [] ∨
    ∃ images s1, (pipeline env (filename256 env) (filename16 env)).result = .ok images ∧
      entriesOf (main env).trace =
        entriesOf (writeEntries env images (loopIndices 0 numImages) initialOffset s1).trace := by
  have hp : entriesOf (pipeline env (filename256 env) (filename16 env)).trace = [] :=
    entriesOf_of_noEntry _ fun ev hev =>
      asEntry_of_not_fileOp ev (pipeline_noFileOp env _ _ ev hev)
  unfold main
  split
  · left; rfl
  · split
    · left; exact hp
    · rename_i images hres
      rcases assemble_entries env (outputfile env) images with h | ⟨s1, h⟩
      · left
        simp only [entriesOf_append, hp, h, List.append_nil]
      · right
        exact ⟨images, s1, hres, by simp only [entriesOf_append, hp, h, List.nil_append]⟩


/-! ## Runs that complete a part of the write phase -/

/-- A directory loop that runs to its end has added every size exactly. -/
theorem writeEntries_ok (env : Env) (images : Images) :
    ∀ (idxs : List Nat) (offset : Int) (s : Stream) (last : Int),
      0 ≤ offset →
      (writeEntries env images idxs offset s).result = .ok last →
      last = offset + sizesAt images idxs ∧ last ≤ INT_MAX ∨ idxs = [] ∧ last = offset := by
  intro idxs
  induction idxs with
  | nil =>
    intro offset s last _ h
    right
    simp only [writeEntries, Except.ok.injEq] at h
    exact ⟨rfl, h.symm⟩
  | cons i rest ih =>
    intro offset s last h0 h
    left
    simp only [writeEntries] at h
    split at h
    · simp at h
    · split at h
      · simp at h
      · rename_i offset1 hadd
        obtain ⟨h1, h2⟩ := intAdd_eq_some hadd
        have hs := image_size_nonneg (imageAt images.png i)
        rcases ih offset1 _ last (by rw [h1]; omega) h with ⟨h3, h4⟩ | ⟨h3, h4⟩
        · refine ⟨?_, h4⟩
          rw [h3, h1]
          simp [sizesAt, add_assoc]
        · subst h3
          rw [h4, h1]
          exact ⟨by simp [sizesAt], h2⟩

theorem writeEntries_ok_stream (env : Env) (images : Images) :
    ∀ (idxs : List Nat) (offset : Int) (s : Stream) (last : Int),
      (writeEntries env images idxs offset s).result = .ok last →
      (writeEntries env images idxs offset s).trace =
        (entriesFrom images idxs offset).map (fun e => Event.fwrite (.entry e) ICONDIRENTRYSIZE) ∧
      (writeEntries env images idxs offset s).stream.content =
        s.content ++ ((entriesFrom images idxs offset).map ICONDIRENTRY.bytes).flatten := by
  intro idxs
  induction idxs with
  | nil =>
    intro offset s last _
    simp [writeEntries, entriesFrom]
  | cons i rest ih =>
    intro offset s last h
    simp only [writeEntries] at h ⊢
    split at h
    · simp at h
    · rename_i hw
      have hw1 := fwrite_eq_one (not_not.mp hw)
      rw [obj_bytes_entry] at hw1
      split at h
      · simp at h
      · rename_i offset1 hadd
        obtain ⟨h1, -⟩ := intAdd_eq_some hadd
        obtain ⟨i1, i2⟩ := ih offset1 _ last h
        simp only [hw, if_false, hadd]
        rw [i1, i2, hw1.2, h1]
        simp [entriesFrom]

theorem writePayloads_ok (env : Env) (images : Images) :
    ∀ (idxs : List Nat) (s : Stream),
      (writePayloads env images idxs s).result = .ok () →
      (∀ i ∈ idxs, 0 < (imageAt images.png i).size) ∧
      (writePayloads env images idxs s).trace =
        idxs.map (fun i => Event.fwrite (.buffer (bufferAt images.png i))
          (imageAt images.png i).size.toNat) ∧
      (writePayloads env images idxs s).stream.content =
        s.content ++ (idxs.map (bufferAt images.png)).flatten := by
  intro idxs
  induction idxs with
  | nil =>
    intro s _
    simp [writePayloads]
  | cons i rest ih =>
    intro s h
    simp only [writePayloads] at h ⊢
    split at h
    · simp at h
    · rename_i hw
      have hw1 := fwrite_eq_one (not_not.mp hw)
      obtain ⟨i0, i1, i2⟩ := ih _ h
      have hlen := bufferAt_length images.png i
      have hpos : 0 < (imageAt images.png i).size := by
        have := hw1.1
        have h0 := image_size_nonneg (imageAt images.png i)
        omega
      have hbytes : Obj.bytes (.buffer (bufferAt images.png i))
          (imageAt images.png i).size.toNat = bufferAt images.png i := by
        simp only [Obj.bytes]
        apply List.take_of_length_le
        omega
      simp only [hw, if_false]
      refine ⟨?_, ?_, ?_⟩
      · intro j hj
        simp only [List.mem_cons] at hj
        rcases hj with hj | hj
        · rw [hj]; exact hpos
        · exact i0 j hj
      · rw [i1]; simp
      · rw [i2, hw1.2, hbytes]; simp


/-- What a completed write phase has done: the sizes are positive and their
sum with the initial offset is an `int`; the calls are the header, the entries
built from exact sums, the payloads and `fclose`; the stream holds their bytes. -/
theorem writeAll_ok (env : Env) (images : Images) (s : Stream)
    (h : (writeAll env images s).result = .ok ()) :
    initialOffset + sizesAt images (loopIndices 0 numImages) ≤ INT_MAX ∧
    (∀ i ∈ loopIndices 0 numImages, 0 < (imageAt images.png i).size) ∧
    (writeAll env images s).trace =
      [Event.fwrite (.icondir mkHeader) ICONDIRSIZE] ++
      (entriesFrom images (loopIndices 0 numImages) initialOffset).map
        (fun e => Event.fwrite (.entry e) ICONDIRENTRYSIZE) ++
      (loopIndices 0 numImages).map (fun i => Event.fwrite (.buffer (bufferAt images.png i))
          (imageAt images.png i).size.toNat) ++
      [Event.fclose] ∧
    (writeAll env images s).stream.content =
      s.content ++ mkHeader.bytes ++
      ((entriesFrom images (loopIndices 0 numImages) initialOffset).map
        ICONDIRENTRY.bytes).flatten ++
      ((loopIndices 0 numImages).map (bufferAt images.png)).flatten := by
  unfold writeAll at h ⊢
  obtain ⟨u1, hH, h2, hT1, hS1⟩ := wstep_andThen_ok h
  obtain ⟨last, hE, h3, hT2, hS2⟩ := wstep_andThen_ok h2
  obtain ⟨u3, hP, -, hT3, hS3⟩ := wstep_andThen_ok h3
  rw [hT1, hT2, hT3, hS1, hS2, hS3]
  -- the header
  have hHt : (writeHeader env s).trace = [Event.fwrite (.icondir mkHeader) ICONDIRSIZE] ∧
      (writeHeader env s).stream.content = s.content ++ mkHeader.bytes := by
    unfold writeHeader at hH ⊢
    split at hH
    · simp at hH
    · rename_i hw
      have hw1 := fwrite_eq_one (not_not.mp hw)
      rw [obj_bytes_icondir] at hw1
      simp only [hw, if_false]
      exact ⟨trivial, hw1.2⟩
  obtain ⟨e1, e2⟩ := writeEntries_ok_stream env images _ _ _ _ hE
  obtain ⟨p0, p1, p2⟩ := writePayloads_ok env images _ _ hP
  have hsum : initialOffset + sizesAt images (loopIndices 0 numImages) ≤ INT_MAX := by
    rcases writeEntries_ok env images _ _ _ _ (by rw [initialOffset_eq]; norm_num) hE with
      ⟨h5, h6⟩ | ⟨h5, -⟩
    · rw [← h5]; exact h6
    · rw [loopIndices_zero] at h5
      exact absurd h5 (by simp)
  refine ⟨hsum, p0, ?_, ?_⟩
  · rw [hHt.1, e1, p1]
    simp
  · rw [p2, e2, hHt.2]

theorem step_andThen_error {α β : Type} {a : Step α} {f : α → Step β} {st : Status}
    (h : (a.andThen f).result = .error st) :
    a.result = .error st ∨ ∃ v, a.result = .ok v ∧ (f v).result = .error st := by
  unfold Step.andThen at h
  cases hr : a.result with
  | error st1 =>
    simp only [hr, Except.error.injEq] at h
    left; rw [h]
  | ok v =>
    simp only [hr] at h
    exact Or.inr ⟨v, rfl, h⟩

theorem loadPrimary_error (env : Env) (f : String) (images : Images) (st : Status)
    (h : (loadPrimary env f images).result = .error st) :
    ∃ fl, st = .failure fl ∧ fl.isPipeline = true := by
  unfold loadPrimary at h
  split at h
  · simp only [Except.error.injEq] at h
    exact ⟨_, h.symm, rfl⟩
  · split at h
    · simp only [Except.error.injEq] at h
      exact ⟨_, h.symm, rfl⟩
    · simp at h

theorem loadSecondary_error (env : Env) (f16 : Option String) (images : Images) (st : Status)
    (h : (loadSecondary env f16 images).result = .error st) :
    ∃ fl, st = .failure fl ∧ fl.isPipeline = true := by
  unfold loadSecondary at h
  split at h
  · simp at h
  · split at h
    · simp only [Except.error.injEq] at h
      exact ⟨_, h.symm, rfl⟩
    · split at h
      · simp only [Except.error.injEq] at h
        exact ⟨_, h.symm, rfl⟩
      · simp at h

theorem allocLoop_error (env : Env) :
    ∀ (idxs : List Nat) (images : Images) (st : Status),
      (allocLoop env idxs images).result = .error st →
      ∃ fl, st = .failure fl ∧ fl.isPipeline = true := by
  intro idxs
  induction idxs with
  | nil => intro images st h; simp [allocLoop] at h
  | cons i rest ih =>
    intro images st h
    simp only [allocLoop] at h
    split at h
    · split at h
      · simp only [Except.error.injEq] at h
        exact ⟨_, h.symm, rfl⟩
      · exact ih _ st h
    · exact ih _ st h

theorem resizeLoop_error (env : Env) (f16 : Option String) :
    ∀ (idxs : List Nat) (images : Images) (st : Status),
      (resizeLoop env f16 idxs images).result = .error st →
      ∃ fl, st = .failure fl ∧ fl.isPipeline = true := by
  intro idxs
  induction idxs with
  | nil => intro images st h; simp [resizeLoop] at h
  | cons i rest ih =>
    intro images st h
    simp only [resizeLoop] at h
    split at h
    · split at h
      · simp only [Except.error.injEq] at h
        exact ⟨_, h.symm, rfl⟩
      · exact ih _ st h
    · exact ih _ st h

theorem encodeLoop_error (env : Env) :
    ∀ (idxs : List Nat) (images : Images) (st : Status),
      (encodeLoop env idxs images).result = .error st →
      ∃ fl, st = .failure fl ∧ fl.isPipeline = true := by
  intro idxs
  induction idxs with
  | nil => intro images st h; simp [encodeLoop] at h
  | cons i rest ih =>
    intro images st h
    simp only [encodeLoop] at h
    split at h
    · simp only [Except.error.injEq] at h
      exact ⟨_, h.symm, rfl⟩
    · exact ih _ st h

/-- A pipeline that ends the run ends it with one of its own diagnostics. -/
theorem pipeline_error (env : Env) (f256 : String) (f16 : Option String) (st : Status)
    (h : (pipeline env f256 f16).result = .error st) :
    ∃ fl, st = .failure fl ∧ fl.isPipeline = true := by
  unfold pipeline at h
  rcases step_andThen_error h with h | ⟨im1, -, h⟩
  · exact loadPrimary_error env _ _ st h
  rcases step_andThen_error h with h | ⟨im2, -, h⟩
  · exact loadSecondary_error env _ _ st h
  rcases step_andThen_error h with h | ⟨im3, -, h⟩
  · exact allocLoop_error env _ _ st h
  rcases step_andThen_error h with h | ⟨im4, -, h⟩
  · exact resizeLoop_error env _ _ _ st h
  · exact encodeLoop_error env _ _ st h


theorem wstep_andThen_error {α β : Type} {a : WStep α} {f : α → Stream → WStep β}
    {st : Status} (h : (a.andThen f).result = .error st) :
    a.result = .error st ∨ ∃ v, a.result = .ok v ∧ (f v a.stream).result = .error st := by
  unfold WStep.andThen at h
  cases hr : a.result with
  | error st1 =>
    simp only [hr, Except.error.injEq] at h
    left; rw [h]
  | ok v =>
    simp only [hr] at h
    exact Or.inr ⟨v, rfl, h⟩

theorem writeEntries_error (env : Env) (images : Images) :
    ∀ (idxs : List Nat) (offset : Int) (s : Stream) (st : Status),
      (writeEntries env images idxs offset s).result = .error st → st ≠ .success := by
  intro idxs
  induction idxs with
  | nil => intro offset s st h; simp [writeEntries] at h
  | cons i rest ih =>
    intro offset s st h
    simp only [writeEntries] at h
    split at h
    · simp only [Except.error.injEq] at h
      rw [← h]; simp
    · split at h
      · simp only [Except.error.injEq] at h
        rw [← h]; simp
      · exact ih _ _ st h

theorem writePayloads_error (env : Env) (images : Images) :
    ∀ (idxs : List Nat) (s : Stream) (st : Status),
      (writePayloads env images idxs s).result = .error st → st ≠ .success := by
  intro idxs
  induction idxs with
  | nil => intro s st h; simp [writePayloads] at h
  | cons i rest ih =>
    intro s st h
    simp only [writePayloads] at h
    split at h
    · simp only [Except.error.injEq] at h
      rw [← h]; simp
    · exact ih _ st h

theorem writeAll_error (env : Env) (images : Images) (s : Stream) (st : Status)
    (h : (writeAll env images s).result = .error st) : st ≠ .success := by
  unfold writeAll at h
  rcases wstep_andThen_error h with h | ⟨u1, -, h⟩
  · unfold writeHeader at h
    split at h
    · simp only [Except.error.injEq] at h
      rw [← h]; simp
    · simp at h
  rcases wstep_andThen_error h with h | ⟨last, -, h⟩
  · exact writeEntries_error env images _ _ _ st h
  rcases wstep_andThen_error h with h | ⟨u3, -, h⟩
  · exact writePayloads_error env images _ _ st h
  · simp at h

/-- The anatomy of a successful run. -/
theorem main_success (env : Env) (h : (main env).status = .success) :
    ∃ images file,
      (pipeline env (filename256 env) (filename16 env)).result = .ok images ∧
      fopenRead env.fs (outputfile env) = false ∧
      fopenWrite env (outputfile env) = some file ∧
      (writeAll env images { content := [], nwrites := 0 }).result = .ok () ∧
      (main env).fs (outputfile env) = some { file with
        content := onDisk env (writeAll env images { content := [], nwrites := 0 }).stream } ∧
      (main env).trace = (pipeline env (filename256 env) (filename16 env)).trace ++
        ([Event.fopen (outputfile env) "r", Event.fopen (outputfile env) "wb"] ++
          (writeAll env images { content := [], nwrites := 0 }).trace) := by
  unfold main at h ⊢
  split at h
  · simp at h
  · rename_i hargs
    simp only [hargs, if_false]
    split at h
    · rename_i st hres
      obtain ⟨fl, hfl, -⟩ := pipeline_error env _ _ st hres
      simp only at h
      rw [hfl] at h
      simp at h
    · rename_i images hres
      simp only [hres]
      simp only at h
      unfold assemble at h ⊢
      split at h
      · simp at h
      · rename_i hrd
        simp only [hrd]
        split at h
        · simp at h
        · rename_i file hopen
          simp only at h
          cases hw : (writeAll env images { content := [], nwrites := 0 }).result with
          | error st =>
            rw [hw] at h
            simp only [finalStatus] at h
            exact absurd h (writeAll_error env images _ st hw)
          | ok u =>
            refine ⟨images, file, rfl, by simp [hrd], hopen, hw, ?_, ?_⟩
            · simp [hopen]
            · simp [hopen]


/-! ## The directory entries of a run -/

theorem sizesBefore_succ (images : Images) (i : Nat) :
    sizesBefore images (i + 1) = sizesBefore images i + (imageAt images.png i).size := by
  simp [sizesBefore, List.range_succ]

theorem sizesBefore_nonneg (images : Images) (i : Nat) : 0 ≤ sizesBefore images i := by
  induction i with
  | zero => simp [sizesBefore]
  | succ n ih =>
    rw [sizesBefore_succ]
    have := image_size_nonneg (imageAt images.png n)
    omega

theorem sizesBefore_mono (images : Images) {i j : Nat} (h : i ≤ j) :
    sizesBefore images i ≤ sizesBefore images j := by
  induction h with
  | refl => exact le_refl _
  | step _ ih =>
    rw [sizesBefore_succ]
    rename_i m _
    have := image_size_nonneg (imageAt images.png m)
    omega

theorem sizesAt_take (images : Images) (k : Nat) (hk : k ≤ 5) :
    sizesAt images ([0, 1, 2, 3, 4].take k) = sizesBefore images k := by
  have h5 : [0, 1, 2, 3, 4] = List.range 5 := by decide
  rw [h5, List.take_range, min_eq_left hk]
  rfl

/-- The i-th directory entry a run hands to `fwrite` is built from the
resolution and the size of image i and from the exact sum of the sizes before
it, which is an `int`. -/
theorem main_entry_get (env : Env) (i : Nat) (e : ICONDIRENTRY)
    (h : (entriesOf (main env).trace)[i]? = some e) :
    ∃ images, (pipeline env (filename256 env) (filename16 env)).result = .ok images ∧
      i < 5 ∧
      e = mkEntry (resolutions.getD i 0) (imageAt images.png i).size
            (86 + sizesBefore images i) ∧
      86 + sizesBefore images i ≤ INT_MAX := by
  rcases main_entries env with h0 | ⟨images, s1, hp, h1⟩
  · rw [h0] at h
    simp at h
  · rw [h1] at h
    obtain ⟨j, hj, he, hle⟩ := writeEntries_get env images _ _ s1 i e
      (by rw [initialOffset_eq]; decide) h
    rw [loopIndices_zero] at hj he hle
    have hi : i < 5 := by
      by_contra hc
      have : ([0, 1, 2, 3, 4] : List Nat)[i]? = none := by
        apply List.getElem?_eq_none
        simp only [List.length_cons, List.length_nil]
        omega
      rw [this] at hj
      simp at hj
    have hji : j = i := by
      have h5 : ([0, 1, 2, 3, 4] : List Nat) = List.range 5 := by decide
      rw [h5, List.getElem?_range hi] at hj
      exact (Option.some.inj hj).symm
    subst hji
    rw [sizesAt_take images j (le_of_lt hi), initialOffset_eq] at he hle
    exact ⟨images, hp, hi, he, hle⟩

theorem mkEntry_offset (res : Nat) (size offset : Int) (h0 : 0 ≤ offset)
    (h1 : offset ≤ INT_MAX) : ((mkEntry res size offset).offset : Int) = offset :=
  toUInt32_of_int_range offset h0 h1

theorem mkEntry_size (res : Nat) (size offset : Int) (h0 : 0 ≤ size)
    (h1 : size ≤ INT_MAX) : ((mkEntry res size offset).size : Int) = size :=
  toUInt32_of_int_range size h0 h1


/-! ## Claims on the directory -/

/-- C1: for the encoded images the write phase of `main` receives from the
pipeline, the offset field of the i-th directory entry handed to `fwrite`
equals `6 + 16*5 + (s_0 + ... + s_{i-1})`, the `s_j` being the sizes of the
encoded images; the offset of entry 0 is 86. -/
theorem C1_directory_offsets (env : Env) (images : Images)
    (hp : (pipeline env (filename256 env) (filename16 env)).result = .ok images)
    (i : Nat) (e : ICONDIRENTRY) (h : (entriesOf (main env).trace)[i]? = some e) :
    (e.offset : Int) = 6 + 16 * 5 + sizesBefore images i ∧ (i = 0 → e.offset = 86) := by
  obtain ⟨images1, hp1, -, he, hle⟩ := main_entry_get env i e h
  rw [hp] at hp1
  have him : images = images1 := Except.ok.inj hp1
  subst him
  have h0 := sizesBefore_nonneg images i
  have hoff : (e.offset : Int) = 86 + sizesBefore images i := by
    rw [he]
    exact mkEntry_offset _ _ _ (by omega) hle
  refine ⟨by rw [hoff]; norm_num, ?_⟩
  intro hi
  subst hi
  have : (e.offset : Int) = 86 := by rw [hoff]; simp [sizesBefore]
  exact_mod_cast this

theorem C1_directory_offsets_witness :
    (entriesOf (main sampleEnv).trace)[2]? = some (mkEntry 48 5 98) ∧
    (((mkEntry 48 5 98).offset : Int) = 6 + 16 * 5 + sizesBefore sampleImages 2 ∧
      (2 = 0 → (mkEntry 48 5 98).offset = 86)) :=
  ⟨by decide, C1_directory_offsets sampleEnv sampleImages rfl 2 (mkEntry 48 5 98) (by decide)⟩

/-- C4: every directory entry handed to `fwrite` has width byte and height
byte 0 when its resolution is 256 and the resolution itself otherwise; in a
successful run the five entries carry 0, 72, 48, 32, 16 in that order, in both
members. -/
theorem C4_dimension_bytes (env : Env) :
    (∀ (i : Nat) (e : ICONDIRENTRY), (entriesOf (main env).trace)[i]? = some e →
      e.width = (if resolutions.getD i 0 = 256 then 0 else resolutions.getD i 0) ∧
      e.height = (if resolutions.getD i 0 = 256 then 0 else resolutions.getD i 0)) ∧
    ((main env).status = .success →
      (entriesOf (main env).trace).map (fun e => e.width) = [0, 72, 48, 32, 16] ∧
      (entriesOf (main env).trace).map (fun e => e.height) = [0, 72, 48, 32, 16]) := by
  constructor
  · intro i e h
    obtain ⟨images, -, hi, he, -⟩ := main_entry_get env i e h
    rw [he]
    interval_cases i <;> simp [mkEntry, toUInt8, resolutions]
  · intro hs
    obtain ⟨images, file, -, -, -, hw, -, ht⟩ := main_success env hs
    obtain ⟨-, -, hwt, -⟩ := writeAll_ok env images _ hw
    have hp : entriesOf (pipeline env (filename256 env) (filename16 env)).trace = [] :=
      entriesOf_of_noEntry _ fun ev hev =>
        asEntry_of_not_fileOp ev (pipeline_noFileOp env _ _ ev hev)
    rw [ht, hwt, loopIndices_zero]
    simp only [entriesOf_append, hp, List.nil_append]
    simp [entriesOf, Event.asEntry, entriesFrom, mkEntry, toUInt8, resolutions]

theorem C4_dimension_bytes_witness :
    ((mkEntry 48 5 98).width = (if resolutions.getD 2 0 = 256 then 0 else resolutions.getD 2 0) ∧
      (mkEntry 48 5 98).height =
        (if resolutions.getD 2 0 = 256 then 0 else resolutions.getD 2 0)) ∧
    ((entriesOf (main sampleEnv).trace).map (fun e => e.width) = [0, 72, 48, 32, 16] ∧
      (entriesOf (main sampleEnv).trace).map (fun e => e.height) = [0, 72, 48, 32, 16]) :=
  ⟨(C4_dimension_bytes sampleEnv).1 2 (mkEntry 48 5 98) (by decide),
   (C4_dimension_bytes sampleEnv).2 (by decide)⟩

/-- C6: in every run, consecutive directory entries handed to `fwrite` satisfy
`entry[i+1].offset = entry[i].offset + entry[i].size`, and for `i < j` the byte
range of entry i ends no later than the range of entry j begins; a successful
run writes five entries and their offsets increase strictly. -/
theorem C6_offsets_contiguous (env : Env) :
    (∀ (i : Nat) (e e1 : ICONDIRENTRY),
      (entriesOf (main env).trace)[i]? = some e →
      (entriesOf (main env).trace)[i + 1]? = some e1 →
      e1.offset = e.offset + e.size) ∧
    (∀ (i j : Nat) (e e1 : ICONDIRENTRY), i < j →
      (entriesOf (main env).trace)[i]? = some e →
      (entriesOf (main env).trace)[j]? = some e1 →
      e.offset + e.size ≤ e1.offset) ∧
    ((main env).status = .success →
      (entriesOf (main env).trace).length = 5 ∧
      ∀ (i : Nat) (e e1 : ICONDIRENTRY),
        (entriesOf (main env).trace)[i]? = some e →
        (entriesOf (main env).trace)[i + 1]? = some e1 →
        e.offset < e1.offset) := by
  -- the range of entry i ends at the exact sum up to i+1, if a later entry exists
  have key : ∀ (i j : Nat) (e e1 : ICONDIRENTRY), i < j →
      (entriesOf (main env).trace)[i]? = some e →
      (entriesOf (main env).trace)[j]? = some e1 →
      ∃ images, (pipeline env (filename256 env) (filename16 env)).result = .ok images ∧
        (e.offset : Int) = 86 + sizesBefore images i ∧
        (e.size : Int) = (imageAt images.png i).size ∧
        (e1.offset : Int) = 86 + sizesBefore images j := by
    intro i j e e1 hij h h1
    obtain ⟨images, hp, -, he, hle⟩ := main_entry_get env i e h
    obtain ⟨images1, hp1, -, he1, hle1⟩ := main_entry_get env j e1 h1
    rw [hp] at hp1
    have him : images = images1 := Except.ok.inj hp1
    subst him
    have h0 := sizesBefore_nonneg images i
    have h0j := sizesBefore_nonneg images j
    have hs := image_size_nonneg (imageAt images.png i)
    have hm := sizesBefore_mono images (Nat.succ_le_of_lt hij)
    rw [sizesBefore_succ] at hm
    refine ⟨images, hp, ?_, ?_, ?_⟩
    · rw [he]; exact mkEntry_offset _ _ _ (by omega) hle
    · rw [he]; exact mkEntry_size _ _ _ hs (by omega)
    · rw [he1]; exact mkEntry_offset _ _ _ (by omega) hle1
  refine ⟨?_, ?_, ?_⟩
  · intro i e e1 h h1
    obtain ⟨images, -, k1, k2, k3⟩ := key i (i + 1) e e1 (Nat.lt_succ_self i) h h1
    rw [sizesBefore_succ] at k3
    have : (e1.offset : Int) = ((e.offset + e.size : Nat) : Int) := by
      push_cast
      omega
    exact_mod_cast this
  · intro i j e e1 hij h h1
    obtain ⟨images, -, k1, k2, k3⟩ := key i j e e1 hij h h1
    have hm := sizesBefore_mono images (Nat.succ_le_of_lt hij)
    rw [sizesBefore_succ] at hm
    have : ((e.offset + e.size : Nat) : Int) ≤ (e1.offset : Int) := by
      push_cast
      omega
    exact_mod_cast this
  · intro hs
    obtain ⟨images, file, hp, -, -, hw, -, ht⟩ := main_success env hs
    obtain ⟨-, hpos, hwt, -⟩ := writeAll_ok env images _ hw
    have hpe : entriesOf (pipeline env (filename256 env) (filename16 env)).trace = [] :=
      entriesOf_of_noEntry _ fun ev hev =>
        asEntry_of_not_fileOp ev (pipeline_noFileOp env _ _ ev hev)
    constructor
    · rw [ht, hwt, loopIndices_zero]
      simp only [entriesOf_append, hpe, List.nil_append]
      simp [entriesOf, Event.asEntry, entriesFrom]
    · intro i e e1 h h1
      obtain ⟨images1, hp1, k1, k2, k3⟩ := key i (i + 1) e e1 (Nat.lt_succ_self i) h h1
      rw [hp] at hp1
      have him : images = images1 := Except.ok.inj hp1
      subst him
      obtain ⟨-, -, hi, -, -⟩ := main_entry_get env i e h
      have hi5 : i ∈ loopIndices 0 numImages := by
        rw [loopIndices_zero]
        have h5 : ([0, 1, 2, 3, 4] : List Nat) = List.range 5 := by decide
        rw [h5]
        exact List.mem_range.mpr hi
      have := hpos i hi5
      rw [sizesBefore_succ] at k3
      have : (e.offset : Int) < (e1.offset : Int) := by omega
      exact_mod_cast this

theorem C6_offsets_contiguous_witness :
    (mkEntry 32 5 103).offset = (mkEntry 48 5 98).offset + (mkEntry 48 5 98).size ∧
    (mkEntry 72 5 93).offset + (mkEntry 72 5 93).size ≤ (mkEntry 16 5 108).offset ∧
    ((entriesOf (main sampleEnv).trace).length = 5 ∧
      (mkEntry 48 5 98).offset < (mkEntry 32 5 103).offset) :=
  ⟨(C6_offsets_contiguous sampleEnv).1 2 (mkEntry 48 5 98) (mkEntry 32 5 103)
      (by decide) (by decide),
   (C6_offsets_contiguous sampleEnv).2.1 1 4 (mkEntry 72 5 93) (mkEntry 16 5 108)
      (by decide) (by decide) (by decide),
   ((C6_offsets_contiguous sampleEnv).2.2 (by decide)).1,
   ((C6_offsets_contiguous sampleEnv).2.2 (by decide)).2 2 (mkEntry 48 5 98) (mkEntry 32 5 103)
      (by decide) (by decide)⟩


/-! ## The file a successful run leaves -/

theorem drop_take_flatten {α : Type} (L : List (List α)) :
    ∀ (i : Nat) (h : i < L.length),
      (L.flatten.drop ((L.take i).map List.length).sum).take (L[i]).length = L[i] := by
  induction L with
  | nil => intro i h; simp at h
  | cons l L ih =>
    intro i h
    cases i with
    | zero => simp
    | succ i =>
      simp only [List.take_succ_cons, List.map_cons, List.sum_cons, List.flatten_cons,
        List.getElem_cons_succ]
      rw [List.drop_append]
      exact ih i (by simpa using h)

theorem payloads_eq (images : Images) :
    payloads images = [bufferAt images.png 0, bufferAt images.png 1, bufferAt images.png 2,
      bufferAt images.png 3, bufferAt images.png 4] := by
  simp [payloads, loopIndices_zero]

theorem payloads_take_sum (images : Images) (i : Nat) (hi : i ≤ 5) :
    ((((payloads images).take i).map List.length).sum : Int) = sizesBefore images i := by
  rw [payloads_eq]
  interval_cases i <;>
    simp [sizesBefore, List.range_succ, ← bufferAt_length, add_assoc]

theorem entriesFrom_length (images : Images) :
    ∀ (idxs : List Nat) (offset : Int), (entriesFrom images idxs offset).length = idxs.length := by
  intro idxs
  induction idxs with
  | nil => intro offset; rfl
  | cons i rest ih => intro offset; simp [entriesFrom, ih]

/-- The file and the trace of a successful run: the stream has accepted 86
bytes of header and directory followed by the payloads, and the destination
holds the initial part of them that was flushed; the sizes are positive, their
sum with 86 is an `int`, and five entries were written. -/
theorem success_layout (env : Env) (hs : (main env).status = .success) :
    ∃ images file pre,
      (pipeline env (filename256 env) (filename16 env)).result = .ok images ∧
      (main env).fs (outputfile env) = some file ∧
      file.content = (pre ++ (payloads images).flatten).take
        (env.flushed (pre ++ (payloads images).flatten).length) ∧
      pre = mkHeader.bytes ++
        ((entriesFrom images (loopIndices 0 numImages) initialOffset).map
          ICONDIRENTRY.bytes).flatten ∧
      pre.length = 86 ∧
      86 + sizesBefore images 5 ≤ INT_MAX ∧
      (∀ i, i < 5 → 0 < (imageAt images.png i).size) ∧
      (entriesOf (main env).trace).length = 5 := by
  obtain ⟨images, file, hp, -, -, hw, hfs, ht⟩ := main_success env hs
  obtain ⟨hsum, hpos, hwt, hwc⟩ := writeAll_ok env images _ hw
  have hpe : entriesOf (pipeline env (filename256 env) (filename16 env)).trace = [] :=
    entriesOf_of_noEntry _ fun ev hev =>
      asEntry_of_not_fileOp ev (pipeline_noFileOp env _ _ ev hev)
  refine ⟨images, _, _, hp, hfs, ?_, rfl, ?_, ?_, ?_, ?_⟩
  · simp only [onDisk, hwc, payloads, List.nil_append]
  · rw [List.length_append, icondir_bytes_length, List.length_flatten, List.map_map]
    have : (List.length ∘ ICONDIRENTRY.bytes) = fun _ => 16 := by
      funext e
      exact entry_bytes_length e
    rw [this]
    simp [entriesFrom_length, loopIndices_zero]
  · have h5 := sizesAt_take images 5 (le_refl 5)
    rw [List.take_of_length_le (by simp)] at h5
    rw [initialOffset_eq, loopIndices_zero, h5] at hsum
    exact hsum
  · intro i hi
    apply hpos
    rw [loopIndices_zero]
    have h5 : ([0, 1, 2, 3, 4] : List Nat) = List.range 5 := by decide
    rw [h5]
    exact List.mem_range.mpr hi
  · rw [ht, hwt, loopIndices_zero]
    simp only [entriesOf_append, hpe, List.nil_append]
    simp [entriesOf, Event.asEntry, entriesFrom]

/-- The file and the trace of a successful run all of whose bytes were flushed:
the destination holds 86 bytes of header and directory followed by the
payloads. -/
theorem flushed_layout (env : Env) (hs : (main env).status = .success)
    (hflush : ∀ n, n ≤ env.flushed n) :
    ∃ images file pre,
      (pipeline env (filename256 env) (filename16 env)).result = .ok images ∧
      (main env).fs (outputfile env) = some file ∧
      file.content = pre ++ (payloads images).flatten ∧
      pre = mkHeader.bytes ++
        ((entriesFrom images (loopIndices 0 numImages) initialOffset).map
          ICONDIRENTRY.bytes).flatten ∧
      pre.length = 86 ∧
      86 + sizesBefore images 5 ≤ INT_MAX ∧
      (∀ i, i < 5 → 0 < (imageAt images.png i).size) ∧
      (entriesOf (main env).trace).length = 5 := by
  obtain ⟨images, file, pre, hp, hfs, hc, hpre, hlen, hsum, hpos, h5⟩ := success_layout env hs
  refine ⟨images, file, pre, hp, hfs, ?_, hpre, hlen, hsum, hpos, h5⟩
  rw [hc]
  exact List.take_of_length_le (hflush _)

/-- After a successful run all of whose bytes were flushed, the destination
file has `6 + 16*5 + (s_0 + ... + s_4)` bytes, the `s_i` being the sizes of the
five encoded images. -/
theorem flushed_file_length (env : Env) (hs : (main env).status = .success)
    (hflush : ∀ n, n ≤ env.flushed n) :
    ∃ images file,
      (pipeline env (filename256 env) (filename16 env)).result = .ok images ∧
      (main env).fs (outputfile env) = some file ∧
      (file.content.length : Int) = 6 + 16 * 5 + sizesBefore images 5 := by
  obtain ⟨images, file, pre, hp, hfs, hc, -, hlen, -, -, -⟩ := flushed_layout env hs hflush
  refine ⟨images, file, hp, hfs, ?_⟩
  rw [hc, List.length_append, hlen, List.length_flatten]
  have := payloads_take_sum images 5 (le_refl 5)
  rw [List.take_of_length_le (by rw [payloads_eq]; simp)] at this
  rw [← this]
  push_cast
  norm_num

theorem flushed_file_length_witness :
    ∃ images file,
      (pipeline sampleEnv (filename256 sampleEnv) (filename16 sampleEnv)).result = .ok images ∧
      (main sampleEnv).fs (outputfile sampleEnv) = some file ∧
      (file.content.length : Int) = 6 + 16 * 5 + sizesBefore images 5 :=
  flushed_file_length sampleEnv (by decide) (fun n => le_refl n)


/-- C3 (the code at the failing input): the sources are valid and the
destination does not exist, on a device without free space.  The pipeline
succeeds, the run makes its fourteen calls on the destination (two `fopen`,
eleven `fwrite`, none of which fails, and `fclose` last) and `main` ends with
status success; the claim's length `6 + 16*5 + (s_0 + ... + s_4)` is 113, and
the destination file has 0 bytes: the result of `fclose` (line 185), which
reports the failed flush, is dropped. -/
theorem C3_success_with_empty_file :
    fullDiskEnv.fs (outputfile fullDiskEnv) = none ∧
    (main fullDiskEnv).status = .success ∧
    ((main fullDiskEnv).trace.filter Event.isFileOp).length = 14 ∧
    (main fullDiskEnv).trace.getLast? = some .fclose ∧
    ∃ images file,
      (pipeline fullDiskEnv (filename256 fullDiskEnv) (filename16 fullDiskEnv)).result =
        .ok images ∧
      (main fullDiskEnv).fs (outputfile fullDiskEnv) = some file ∧
      6 + 16 * 5 + sizesBefore images 5 = 113 ∧
      file.content.length = 0 ∧
      (file.content.length : Int) ≠ 6 + 16 * 5 + sizesBefore images 5 :=
  ⟨by decide, by decide, by decide, by decide, sampleImages,
    { readable := true, writable := true, content := [] }, rfl, by decide, by decide,
    by decide, by decide⟩

theorem toUInt32_natCast (n : Nat) (h : (n : Int) ≤ INT_MAX) : toUInt32 (n : Int) = n := by
  have := toUInt32_of_int_range (n : Int) (Int.natCast_nonneg n) h
  exact_mod_cast this

theorem u32Bytes_eq_leBytes (v : Nat) : u32Bytes v = leBytes 4 v := by
  have h2 : v / 256 / 256 = v / 65536 := by omega
  have h3 : v / 65536 / 256 = v / 16777216 := by omega
  simp only [u32Bytes, leBytes, h2, h3]

theorem u16Bytes_eq_leBytes (v : Nat) : u16Bytes v = leBytes 2 v := by
  simp only [u16Bytes, leBytes]

/-- The object representation of an entry built by `mkEntry` is the layout of
the specification, when the resolution fits the width byte (or is 256) and the
size and the offset are `int` values that are not negative. -/
theorem mkEntry_bytes (res n m : Nat) (hres : res ≤ 256) (hn : (n : Int) ≤ INT_MAX)
    (hm : (m : Int) ≤ INT_MAX) :
    (mkEntry res (n : Int) (m : Int)).bytes = layoutEntry res n m := by
  have hw : toUInt8 (if res = 256 then 0 else toUInt8 res) % 256 =
      (if res = 256 then 0 else res) := by
    unfold toUInt8
    by_cases h : res = 256
    · simp [h]
    · simp only [h, if_false]
      omega
  simp only [ICONDIRENTRY.bytes, mkEntry, layoutEntry, u8Bytes, toUInt32_natCast n hn,
    toUInt32_natCast m hm, hw, u32Bytes_eq_leBytes, u16Bytes_eq_leBytes]
  simp [toUInt16, leBytes]

theorem entriesFrom_eq_map (images : Images) :
    entriesFrom images (loopIndices 0 numImages) initialOffset =
      (List.range 5).map fun i =>
        mkEntry (resolutions.getD i 0) (imageAt images.png i).size (86 + sizesBefore images i) := by
  rw [loopIndices_zero, initialOffset_eq]
  simp [entriesFrom, sizesBefore, List.range_succ, add_assoc]

theorem payloads_getD (images : Images) (i : Nat) (hi : i < 5) :
    (payloads images).getD i [] = bufferAt images.png i := by
  rw [payloads_eq]
  interval_cases i <;> rfl

theorem resolutions_le (i : Nat) : resolutions.getD i 0 ≤ 256 := by
  by_cases hi : i < 5
  · interval_cases i <;> decide
  · have : resolutions.getD i 0 = 0 := by
      rw [List.getD_eq_getElem?_getD, List.getElem?_eq_none (by simp [resolutions]; omega)]
      rfl
    omega

/-- After a successful run all of whose bytes were flushed, the destination
file is, byte for byte, the 6-byte header (reserved=0, type=1, count=5,
16-bit little-endian), the five 16-byte entries in the order of the resolution list (width byte, height byte,
numColors=0, reserved=0, colorPlanes=1 and bitsPerPixel=32 on 16 bits, size
and offset on 32 bits, little-endian) and the five encoded payloads in the
same order; its length is below `2^31`, so no field is truncated. -/
theorem flushed_container_layout (env : Env) (hs : (main env).status = .success)
    (hflush : ∀ n, n ≤ env.flushed n) :
    ∃ images file,
      (pipeline env (filename256 env) (filename16 env)).result = .ok images ∧
      (main env).fs (outputfile env) = some file ∧
      file.content = layoutContainer (payloads images) ∧
      (payloads images).length = 5 ∧
      file.content.length < 2 ^ 31 := by
  obtain ⟨images, file, pre, hp, hfs, hc, hpre, hlen, hsum, hpos, -⟩ :=
    flushed_layout env hs hflush
  have hlenP : ((payloads images).flatten.length : Int) = sizesBefore images 5 := by
    have := payloads_take_sum images 5 (le_refl 5)
    rw [List.take_of_length_le (by rw [payloads_eq]; simp)] at this
    rw [List.length_flatten]
    exact this
  refine ⟨images, file, hp, hfs, ?_, by rw [payloads_eq]; rfl, ?_⟩
  · rw [hc, hpre, entriesFrom_eq_map, List.map_map]
    unfold layoutContainer
    congr 2
    apply congrArg
    apply List.map_congr_left
    intro i hi
    have hi5 : i < 5 := List.mem_range.mp hi
    have hsz := bufferAt_length images.png i
    have hoff := payloads_take_sum images i (le_of_lt hi5)
    have hm1 := sizesBefore_mono images (Nat.succ_le_of_lt hi5)
    rw [sizesBefore_succ] at hm1
    have h0 := sizesBefore_nonneg images i
    have hs0 := image_size_nonneg (imageAt images.png i)
    simp only [Function.comp]
    rw [payloads_getD images i hi5]
    have e1 : (imageAt images.png i).size = (((bufferAt images.png i).length : Nat) : Int) :=
      hsz.symm
    have e2 : 86 + sizesBefore images i =
        (((6 + 16 * 5 + (((payloads images).take i).map List.length).sum : Nat)) : Int) := by
      push_cast
      rw [← hoff]
      push_cast
      norm_num
    rw [e1, e2]
    apply mkEntry_bytes _ _ _ (resolutions_le i)
    · rw [← e1]; omega
    · rw [← e2]; omega
  · have : (file.content.length : Int) < 2 ^ 31 := by
      rw [hc, List.length_append, hlen]
      push_cast
      rw [hlenP]
      unfold INT_MAX at hsum
      omega
    exact_mod_cast this

theorem flushed_container_layout_witness :
    ∃ images file,
      (pipeline sampleEnv (filename256 sampleEnv) (filename16 sampleEnv)).result = .ok images ∧
      (main sampleEnv).fs (outputfile sampleEnv) = some file ∧
      file.content = layoutContainer (payloads images) ∧
      (payloads images).length = 5 ∧
      file.content.length < 2 ^ 31 :=
  flushed_container_layout sampleEnv (by decide) (fun n => le_refl n)

/-- C5 (the code at the failing input): the sources are valid and the
destination does not exist, on a device without free space.  The pipeline
succeeds and `main` ends with status success; the container the claim
describes (header, five entries, five payloads) has 113 bytes and begins with
the header bytes 0, 0, 1, 0, 5, 0, and the destination file is empty, hence
not that container: the result of `fclose` (line 185) is dropped. -/
theorem C5_success_without_container :
    fullDiskEnv.fs (outputfile fullDiskEnv) = none ∧
    (main fullDiskEnv).status = .success ∧
    ∃ images file,
      (pipeline fullDiskEnv (filename256 fullDiskEnv) (filename16 fullDiskEnv)).result =
        .ok images ∧
      (main fullDiskEnv).fs (outputfile fullDiskEnv) = some file ∧
      (layoutContainer (payloads images)).length = 113 ∧
      (layoutContainer (payloads images)).take 6 = [0, 0, 1, 0, 5, 0] ∧
      file.content = [] ∧
      file.content ≠ layoutContainer (payloads images) :=
  ⟨by decide, by decide, sampleImages,
    { readable := true, writable := true, content := [] }, rfl, by decide, by decide,
    by decide, by decide, by decide⟩

/-- After a successful run all of whose bytes were flushed, for every index i
in 0..4 the i-th directory entry written has as size the byte length of encoded
image i, and the bytes of the destination file in the range
`[offset, offset + size)` of that entry are exactly the bytes of encoded image
i. -/
theorem flushed_entries_point_at_payloads (env : Env) (hs : (main env).status = .success)
    (hflush : ∀ n, n ≤ env.flushed n) :
    ∃ images file,
      (pipeline env (filename256 env) (filename16 env)).result = .ok images ∧
      (main env).fs (outputfile env) = some file ∧
      ∀ i, i < 5 → ∃ e b,
        (entriesOf (main env).trace)[i]? = some e ∧
        (imageAt images.png i).data = some b ∧
        e.size = b.length ∧
        (file.content.drop e.offset).take e.size = b := by
  obtain ⟨images, file, pre, hp, hfs, hc, -, hlen, hsum, hpos, hlen5⟩ :=
    flushed_layout env hs hflush
  refine ⟨images, file, hp, hfs, ?_⟩
  intro i hi
  have hex : ∃ e, (entriesOf (main env).trace)[i]? = some e := by
    refine ⟨(entriesOf (main env).trace)[i], ?_⟩
    exact List.getElem?_eq_getElem (by omega)
  obtain ⟨e, he⟩ := hex
  obtain ⟨images1, hp1, -, hform, hle⟩ := main_entry_get env i e he
  rw [hp] at hp1
  have him : images = images1 := Except.ok.inj hp1
  subst him
  -- the buffer of image i
  have hposi := hpos i hi
  have hdata : ∃ b, (imageAt images.png i).data = some b ∧ bufferAt images.png i = b := by
    unfold bufferAt
    cases hd : (imageAt images.png i).data with
    | none =>
      unfold Image.size at hposi
      rw [hd] at hposi
      exact absurd hposi (lt_irrefl 0)
    | some b => exact ⟨b, rfl, rfl⟩
  obtain ⟨b, hb, hbuf⟩ := hdata
  have hsz := bufferAt_length images.png i
  have h0 := sizesBefore_nonneg images i
  have hm1 := sizesBefore_mono images (Nat.succ_le_of_lt hi)
  have hm5 := sizesBefore_mono images (Nat.succ_le_of_lt hi : i + 1 ≤ 5)
  rw [sizesBefore_succ] at hm1 hm5
  have hesize : e.size = b.length := by
    have : (e.size : Int) = (b.length : Int) := by
      rw [hform, mkEntry_size _ _ _ (le_of_lt hposi) (by omega), ← hbuf, hsz]
    exact_mod_cast this
  have heoff : e.offset = pre.length + (((payloads images).take i).map List.length).sum := by
    have : (e.offset : Int) =
        ((pre.length + (((payloads images).take i).map List.length).sum : Nat) : Int) := by
      rw [hform, mkEntry_offset _ _ _ (by omega) hle, hlen, Nat.cast_add,
        payloads_take_sum images i (le_of_lt hi)]
      rfl
    exact_mod_cast this
  refine ⟨e, b, he, hb, hesize, ?_⟩
  have hPlen : i < (payloads images).length := by rw [payloads_eq]; simpa using hi
  have hPi : (payloads images)[i] = b := by
    have := payloads_getD images i hi
    rw [List.getD_eq_getElem?_getD, List.getElem?_eq_getElem hPlen] at this
    simpa [hbuf] using this
  rw [hc, heoff, List.drop_append, hesize, ← hPi]
  exact drop_take_flatten (payloads images) i hPlen

theorem flushed_entries_point_at_payloads_witness :
    ∃ images file,
      (pipeline sampleEnv (filename256 sampleEnv) (filename16 sampleEnv)).result = .ok images ∧
      (main sampleEnv).fs (outputfile sampleEnv) = some file ∧
      ∀ i, i < 5 → ∃ e b,
        (entriesOf (main sampleEnv).trace)[i]? = some e ∧
        (imageAt images.png i).data = some b ∧
        e.size = b.length ∧
        (file.content.drop e.offset).take e.size = b :=
  flushed_entries_point_at_payloads sampleEnv (by decide) (fun n => le_refl n)

/-- C2 (the code at the failing input): the sources are valid and the
destination does not exist, on a device without free space.  The pipeline
succeeds and `main` ends with status success; the first directory entry handed
to `fwrite` has the size 7 of encoded image 0 and the offset 86, the last one
the size 5 of encoded image 4 and the offset 108, and the ranges
`[offset, offset + size)` of the destination file hold no byte at all, not the
encoded images: the result of `fclose` (line 185) is dropped. -/
theorem C2_success_with_dangling_entries :
    fullDiskEnv.fs (outputfile fullDiskEnv) = none ∧
    (main fullDiskEnv).status = .success ∧
    ∃ images file e0 b0 e4 b4,
      (pipeline fullDiskEnv (filename256 fullDiskEnv) (filename16 fullDiskEnv)).result =
        .ok images ∧
      (main fullDiskEnv).fs (outputfile fullDiskEnv) = some file ∧
      (entriesOf (main fullDiskEnv).trace)[0]? = some e0 ∧
      (imageAt images.png 0).data = some b0 ∧
      (e0.size = b0.length ∧ e0.size = 7 ∧ e0.offset = 86) ∧
      (file.content.drop e0.offset).take e0.size = [] ∧
      (file.content.drop e0.offset).take e0.size ≠ b0 ∧
      (entriesOf (main fullDiskEnv).trace)[4]? = some e4 ∧
      (imageAt images.png 4).data = some b4 ∧
      (e4.size = b4.length ∧ e4.size = 5 ∧ e4.offset = 108) ∧
      (file.content.drop e4.offset).take e4.size ≠ b4 :=
  ⟨by decide, by decide, sampleImages,
    { readable := true, writable := true, content := [] },
    mkEntry 256 7 86, [137, 80, 0, 10, 20, 30, 40], mkEntry 16 5 108, [137, 80, 16, 16, 10],
    rfl, by decide, by decide, by decide, by decide, by decide, by decide, by decide, by decide,
    by decide, by decide⟩


/-! ## Failures and the destination -/

theorem writeEntries_fileOps (env : Env) (images : Images) :
    ∀ (idxs : List Nat) (offset : Int) (s : Stream),
      ∀ ev ∈ (writeEntries env images idxs offset s).trace, ev.isFileOp = true := by
  intro idxs
  induction idxs with
  | nil => intro offset s ev h; simp [writeEntries] at h
  | cons i rest ih =>
    intro offset s ev h
    simp only [writeEntries] at h
    split at h
    · simp only [List.mem_cons, List.mem_singleton, List.not_mem_nil, or_false] at h
      rcases h with h | h <;> (rw [h]; rfl)
    · split at h
      · simp only [List.mem_singleton] at h
        rw [h]; rfl
      · simp only [List.mem_cons] at h
        rcases h with h | h
        · rw [h]; rfl
        · exact ih _ _ ev h

theorem writePayloads_fileOps (env : Env) (images : Images) :
    ∀ (idxs : List Nat) (s : Stream),
      ∀ ev ∈ (writePayloads env images idxs s).trace, ev.isFileOp = true := by
  intro idxs
  induction idxs with
  | nil => intro s ev h; simp [writePayloads] at h
  | cons i rest ih =>
    intro s ev h
    simp only [writePayloads] at h
    split at h
    · simp only [List.mem_cons, List.mem_singleton, List.not_mem_nil, or_false] at h
      rcases h with h | h <;> (rw [h]; rfl)
    · simp only [List.mem_cons] at h
      rcases h with h | h
      · rw [h]; rfl
      · exact ih _ ev h

theorem wstep_andThen_mem {α β : Type} {a : WStep α} {f : α → Stream → WStep β} {ev : Event}
    (h : ev ∈ (a.andThen f).trace) :
    ev ∈ a.trace ∨ ∃ v, a.result = .ok v ∧ ev ∈ (f v a.stream).trace := by
  unfold WStep.andThen at h
  cases hr : a.result with
  | error st =>
    simp only [hr] at h
    exact Or.inl h
  | ok v =>
    simp only [hr, List.mem_append] at h
    rcases h with h | h
    · exact Or.inl h
    · exact Or.inr ⟨v, rfl, h⟩

theorem writeAll_fileOps (env : Env) (images : Images) (s : Stream) :
    ∀ ev ∈ (writeAll env images s).trace, ev.isFileOp = true := by
  intro ev h
  unfold writeAll at h
  rcases wstep_andThen_mem h with h | ⟨u1, -, h⟩
  · unfold writeHeader at h
    split at h
    · simp only [List.mem_cons, List.mem_singleton, List.not_mem_nil, or_false] at h
      rcases h with h | h <;> (rw [h]; rfl)
    · simp only [List.mem_singleton] at h
      rw [h]; rfl
  rcases wstep_andThen_mem h with h | ⟨last, -, h⟩
  · exact writeEntries_fileOps env images _ _ _ ev h
  rcases wstep_andThen_mem h with h | ⟨u3, -, h⟩
  · exact writePayloads_fileOps env images _ _ ev h
  · simp only [List.mem_singleton] at h
    rw [h]; rfl

/-- Every call of the part of `main` after the pipeline is a call on the
destination. -/
theorem assemble_fileOps (env : Env) (path : String) (images : Images) :
    ∀ ev ∈ (assemble env path images).trace, ev.isFileOp = true := by
  intro ev h
  unfold assemble at h
  split at h
  · simp only [List.mem_singleton] at h
    rw [h]; rfl
  · split at h
    · simp only [List.mem_cons, List.mem_singleton, List.not_mem_nil, or_false] at h
      rcases h with h | h <;> (rw [h]; rfl)
    · simp only [List.mem_append, List.mem_cons, List.mem_singleton, List.not_mem_nil,
        or_false] at h
      rcases h with (h | h) | h
      · rw [h]; rfl
      · rw [h]; rfl
      · exact writeAll_fileOps env images _ ev h

theorem writeEntries_error_kind (env : Env) (images : Images) :
    ∀ (idxs : List Nat) (offset : Int) (s : Stream) (fl : Failure),
      (writeEntries env images idxs offset s).result = .error (.failure fl) →
      fl.isPipeline = false := by
  intro idxs
  induction idxs with
  | nil => intro offset s fl h; simp [writeEntries] at h
  | cons i rest ih =>
    intro offset s fl h
    simp only [writeEntries] at h
    split at h
    · simp only [Except.error.injEq, Status.failure.injEq] at h
      rw [← h]; rfl
    · split at h
      · simp at h
      · exact ih _ _ fl h

theorem writePayloads_error_kind (env : Env) (images : Images) :
    ∀ (idxs : List Nat) (s : Stream) (fl : Failure),
      (writePayloads env images idxs s).result = .error (.failure fl) →
      fl.isPipeline = false := by
  intro idxs
  induction idxs with
  | nil => intro s fl h; simp [writePayloads] at h
  | cons i rest ih =>
    intro s fl h
    simp only [writePayloads] at h
    split at h
    · simp only [Except.error.injEq, Status.failure.injEq] at h
      rw [← h]; rfl
    · exact ih _ fl h

theorem writeAll_error_kind (env : Env) (images : Images) (s : Stream) (fl : Failure)
    (h : (writeAll env images s).result = .error (.failure fl)) : fl.isPipeline = false := by
  unfold writeAll at h
  rcases wstep_andThen_error h with h | ⟨u1, -, h⟩
  · unfold writeHeader at h
    split at h
    · simp only [Except.error.injEq, Status.failure.injEq] at h
      rw [← h]; rfl
    · simp at h
  rcases wstep_andThen_error h with h | ⟨last, -, h⟩
  · exact writeEntries_error_kind env images _ _ _ fl h
  rcases wstep_andThen_error h with h | ⟨u3, -, h⟩
  · exact writePayloads_error_kind env images _ _ fl h
  · simp at h

/-- The part of `main` after the pipeline never ends with a diagnostic of the
pipeline. -/
theorem assemble_status_kind (env : Env) (path : String) (images : Images) (fl : Failure)
    (h : (assemble env path images).status = .failure fl) : fl.isPipeline = false := by
  unfold assemble at h
  split at h
  · simp only [Status.failure.injEq] at h
    rw [← h]; rfl
  · split at h
    · simp only [Status.failure.injEq] at h
      rw [← h]; rfl
    · simp only at h
      cases hw : (writeAll env images { content := [], nwrites := 0 }).result with
      | error st =>
        rw [hw] at h
        simp only [finalStatus] at h
        rw [h] at hw
        exact writeAll_error_kind env images _ fl hw
      | ok u =>
        rw [hw] at h
        simp [finalStatus] at h

/-- C7: when the decoder returns a primary image whose width is not 256, or
whose height is not 256, or whose channel count is not 4, the run ends with the
"not suitable image format" diagnostic (DimensionError); the file system is as
before, and the only library call made is the decoding of the primary source,
so the destination is neither tested, opened nor written. -/
theorem C7_wrong_primary_rejected (env : Env) (d : Decoded)
    (hargs : 3 ≤ env.argv.length ∧ env.argv.length ≤ 4)
    (hd : env.stbi_load (filename256 env) 0 = some d)
    (hbad : d.x ≠ 256 ∨ d.y ≠ 256 ∨ d.comp ≠ 4) :
    (main env).status = .failure (.notSuitable (filename256 env) d.x d.y d.comp) ∧
    (main env).fs = env.fs ∧
    (main env).trace = [.stbi_load (filename256 env) 0] ∧
    ∀ ev ∈ (main env).trace, ev.isFileOp = false := by
  have hnot : ¬ (env.argv.length < 3 ∨ env.argv.length > 4) := by omega
  have hres : (pipeline env (filename256 env) (filename16 env)).result =
      .error (.failure (.notSuitable (filename256 env) d.x d.y d.comp)) := by
    simp [pipeline, Step.andThen, loadPrimary, hd, hbad]
  have htr : (pipeline env (filename256 env) (filename16 env)).trace =
      [.stbi_load (filename256 env) 0] := by
    simp [pipeline, Step.andThen, loadPrimary, hd, hbad]
  have hmain : (main env).status = .failure (.notSuitable (filename256 env) d.x d.y d.comp) ∧
      (main env).fs = env.fs ∧ (main env).trace = [.stbi_load (filename256 env) 0] := by
    unfold main
    simp only [hnot, if_false, hres, htr]
    exact ⟨trivial, trivial, trivial⟩
  refine ⟨hmain.1, hmain.2.1, hmain.2.2, ?_⟩
  intro ev hev
  rw [hmain.2.2] at hev
  simp only [List.mem_singleton] at hev
  rw [hev]; rfl

theorem C7_wrong_primary_rejected_witness :
    (main rgbEnv).status = .failure (.notSuitable (filename256 rgbEnv) 256 256 3) ∧
    (main rgbEnv).fs = rgbEnv.fs ∧
    (main rgbEnv).trace = [.stbi_load (filename256 rgbEnv) 0] ∧
    ∀ ev ∈ (main rgbEnv).trace, ev.isFileOp = false :=
  C7_wrong_primary_rejected rgbEnv { data := [1, 2, 3], x := 256, y := 256, comp := 3 }
    (by decide) (by decide) (by decide)


/-- C9: in a run whose pipeline fails (a decode, the dimension and channel
check, an allocation, a resampling or an encoding), the run ends with that
diagnostic, the file system is as before and no call on the destination is
made; conversely a run that ends with a pipeline diagnostic has left the file
system as it was.  In every run all pipeline calls precede all calls on the
destination. -/
theorem C9_pipeline_failure_leaves_no_output (env : Env)
    (hargs : 3 ≤ env.argv.length ∧ env.argv.length ≤ 4) :
    (∀ st, (pipeline env (filename256 env) (filename16 env)).result = .error st →
      (∃ fl, st = .failure fl ∧ fl.isPipeline = true) ∧
      (main env).status = st ∧
      (main env).fs = env.fs ∧
      ∀ ev ∈ (main env).trace, ev.isFileOp = false) ∧
    (∀ fl, (main env).status = .failure fl → fl.isPipeline = true →
      (main env).fs = env.fs ∧ ∀ ev ∈ (main env).trace, ev.isFileOp = false) ∧
    (∃ p q, (main env).trace = p ++ q ∧
      (∀ ev ∈ p, ev.isFileOp = false) ∧ (∀ ev ∈ q, ev.isFileOp = true)) := by
  have hnot : ¬ (env.argv.length < 3 ∨ env.argv.length > 4) := by omega
  have hfail : ∀ st, (pipeline env (filename256 env) (filename16 env)).result = .error st →
      (main env).status = st ∧ (main env).fs = env.fs ∧
      (main env).trace = (pipeline env (filename256 env) (filename16 env)).trace := by
    intro st hst
    unfold main
    simp only [hnot, if_false, hst]
    exact ⟨trivial, trivial, trivial⟩
  have hok : ∀ images, (pipeline env (filename256 env) (filename16 env)).result = .ok images →
      (main env).status = (assemble env (outputfile env) images).status ∧
      (main env).trace = (pipeline env (filename256 env) (filename16 env)).trace ++
        (assemble env (outputfile env) images).trace := by
    intro images him
    unfold main
    simp only [hnot, if_false, him]
    exact ⟨trivial, trivial⟩
  refine ⟨?_, ?_, ?_⟩
  · intro st hst
    obtain ⟨h1, h2, h3⟩ := hfail st hst
    refine ⟨pipeline_error env _ _ st hst, h1, h2, ?_⟩
    rw [h3]
    exact pipeline_noFileOp env _ _
  · intro fl hfl hkind
    cases hres : (pipeline env (filename256 env) (filename16 env)).result with
    | error st =>
      obtain ⟨-, h2, h3⟩ := hfail st hres
      refine ⟨h2, ?_⟩
      rw [h3]
      exact pipeline_noFileOp env _ _
    | ok images =>
      obtain ⟨h1, -⟩ := hok images hres
      rw [h1] at hfl
      have := assemble_status_kind env _ images fl hfl
      rw [this] at hkind
      exact absurd hkind (by simp)
  · cases hres : (pipeline env (filename256 env) (filename16 env)).result with
    | error st =>
      obtain ⟨-, -, h3⟩ := hfail st hres
      refine ⟨_, [], by rw [List.append_nil]; exact h3, pipeline_noFileOp env _ _, ?_⟩
      intro ev hev
      simp at hev
    | ok images =>
      obtain ⟨-, h2⟩ := hok images hres
      exact ⟨_, _, h2, pipeline_noFileOp env _ _, assemble_fileOps env _ images⟩

theorem C9_pipeline_failure_leaves_no_output_witness :
    ((∃ fl, Status.failure (.encodeFailed 32) = .failure fl ∧ fl.isPipeline = true) ∧
      (main encodeFailEnv).status = .failure (.encodeFailed 32) ∧
      (main encodeFailEnv).fs = encodeFailEnv.fs ∧
      ∀ ev ∈ (main encodeFailEnv).trace, ev.isFileOp = false) ∧
    ((main encodeFailEnv).fs = encodeFailEnv.fs ∧
      ∀ ev ∈ (main encodeFailEnv).trace, ev.isFileOp = false) :=
  ⟨(C9_pipeline_failure_leaves_no_output encodeFailEnv (by decide)).1
      (.failure (.encodeFailed 32)) rfl,
   (C9_pipeline_failure_leaves_no_output encodeFailEnv (by decide)).2.1
      (.encodeFailed 32) (by decide) rfl⟩

/-- A destination that can be opened for reading is refused: the run ends with
the "file already exists" diagnostic, the file system is as before, and the
only call on the destination is the `fopen` for reading. -/
theorem readable_destination_refused (env : Env) (images : Images) (f : File)
    (hargs : 3 ≤ env.argv.length ∧ env.argv.length ≤ 4)
    (hp : (pipeline env (filename256 env) (filename16 env)).result = .ok images)
    (hf : env.fs (outputfile env) = some f) (hr : f.readable = true) :
    (main env).status = .failure (.alreadyExists (outputfile env)) ∧
    (main env).fs = env.fs ∧
    (main env).trace = (pipeline env (filename256 env) (filename16 env)).trace ++
      [.fopen (outputfile env) "r"] := by
  have hnot : ¬ (env.argv.length < 3 ∨ env.argv.length > 4) := by omega
  have hrd : fopenRead env.fs (outputfile env) = true := by
    unfold fopenRead
    rw [hf]
    exact hr
  unfold main
  simp only [hnot, if_false, hp, assemble, hrd, if_true]
  exact ⟨trivial, trivial, trivial⟩

theorem readable_destination_refused_witness :
    (main existingEnv).status = .failure (.alreadyExists (outputfile existingEnv)) ∧
    (main existingEnv).fs = existingEnv.fs ∧
    (main existingEnv).trace =
      (pipeline existingEnv (filename256 existingEnv) (filename16 existingEnv)).trace ++
        [.fopen (outputfile existingEnv) "r"] :=
  readable_destination_refused existingEnv sampleImages
    { readable := true, writable := true, content := [7, 7, 7] } (by decide) rfl (by decide) rfl

/-- C8 (the code at the failing input): the destination `out.ico` exists,
holds the bytes 7, 7, 7 and can be written but not read; the pipeline
succeeds; `main` opens the destination for writing, ends with status success
and leaves the container in place of the three bytes. -/
theorem C8_unreadable_destination_overwritten :
    writeOnlyEnv.fs (outputfile writeOnlyEnv) =
      some { readable := false, writable := true, content := [7, 7, 7] } ∧
    (pipeline writeOnlyEnv (filename256 writeOnlyEnv) (filename16 writeOnlyEnv)).result =
      .ok sampleImages ∧
    (main writeOnlyEnv).status = .success ∧
    (main writeOnlyEnv).status ≠ .failure (.alreadyExists (outputfile writeOnlyEnv)) ∧
    Event.fopen "out.ico" "wb" ∈ (main writeOnlyEnv).trace ∧
    (main writeOnlyEnv).fs (outputfile writeOnlyEnv) =
      some { readable := false, writable := true,
             content := layoutContainer (payloads sampleImages) } ∧
    layoutContainer (payloads sampleImages) ≠ [7, 7, 7] :=
  ⟨by decide, rfl, by decide, by decide, by decide, by decide, by decide⟩


/-! ## The buffers handed to the encoder -/

theorem imageAt_set_ne (v : List Image) (i j : Nat) (x : Image) (h : i ≠ j) :
    imageAt (v.set i x) j = imageAt v j := by
  simp [imageAt, List.getElem?_set_ne h]

theorem imageAt_set_self (v : List Image) (i : Nat) (x : Image) (h : i < v.length) :
    imageAt (v.set i x) i = x := by
  simp [imageAt, List.getElem?_set_self h]

theorem loadPrimary_ok (env : Env) (f : String) (images im1 : Images)
    (h : (loadPrimary env f images).result = .ok im1) :
    ∃ d, env.stbi_load f 0 = some d ∧ d.x = 256 ∧ d.y = 256 ∧ d.comp = 4 ∧
      im1.raw = images.raw.set firstImage { data := some d.data } := by
  unfold loadPrimary at h
  split at h
  · simp at h
  · rename_i d hd
    split at h
    · simp at h
    · rename_i hdim
      simp only [not_or, not_not] at hdim
      simp only [Except.ok.injEq] at h
      exact ⟨d, hd, hdim.1, hdim.2.1, hdim.2.2, by rw [← h]⟩

theorem loadSecondary_ok (env : Env) (f16 : Option String) (images im2 : Images)
    (h : (loadSecondary env f16 images).result = .ok im2) :
    (f16 = none ∧ im2.raw = images.raw.set lastImage { data := none }) ∨
    (∃ f d, f16 = some f ∧ env.stbi_load f 0 = some d ∧ d.x = 16 ∧ d.y = 16 ∧ d.comp = 4 ∧
      im2.raw = images.raw.set lastImage { data := some d.data }) := by
  unfold loadSecondary at h
  split at h
  · left
    simp only [Except.ok.injEq] at h
    exact ⟨rfl, by rw [← h]⟩
  · rename_i f
    right
    split at h
    · simp at h
    · rename_i d hd
      split at h
      · simp at h
      · rename_i hdim
        simp only [not_or, not_not] at hdim
        simp only [Except.ok.injEq] at h
        exact ⟨f, d, rfl, hd, hdim.1, hdim.2.1, hdim.2.2, by rw [← h]⟩

/-- The allocation loop leaves every non-null buffer alone. -/
theorem allocLoop_frame (env : Env) :
    ∀ (idxs : List Nat) (images out : Images),
      (allocLoop env idxs images).result = .ok out →
      ∀ j, (imageAt images.raw j).data ≠ none → imageAt out.raw j = imageAt images.raw j := by
  intro idxs
  induction idxs with
  | nil =>
    intro images out h j _
    simp only [allocLoop, Except.ok.injEq] at h
    rw [← h]
  | cons i rest ih =>
    intro images out h j hj
    simp only [allocLoop] at h
    split at h
    · rename_i hnull
      split at h
      · simp at h
      · rename_i buf hbuf
        have hij : i ≠ j := by
          intro hij
          subst hij
          rw [Option.isNone_iff_eq_none] at hnull
          exact hj hnull
        have hset := imageAt_set_ne images.raw i j { data := some buf } hij
        have := ih { raw := images.raw.set i { data := some buf }, png := images.png } out h j
          (by rw [hset]; exact hj)
        rw [this, hset]
    · exact ih images out h j hj

/-- The resampling loop writes only to the buffers of the indices it visits,
and not to the last one when a 16x16 source was given. -/
theorem resizeLoop_frame (env : Env) (f16 : Option String) :
    ∀ (idxs : List Nat) (images out : Images),
      (resizeLoop env f16 idxs images).result = .ok out →
      ∀ j, (j ∉ idxs ∨ (j = lastImage ∧ f16 ≠ none)) →
        imageAt out.raw j = imageAt images.raw j := by
  intro idxs
  induction idxs with
  | nil =>
    intro images out h j _
    simp only [resizeLoop, Except.ok.injEq] at h
    rw [← h]
  | cons i rest ih =>
    intro images out h j hj
    have hj2 : j ∉ rest ∨ (j = lastImage ∧ f16 ≠ none) := by
      rcases hj with hj | hj
      · exact Or.inl fun hmem => hj (List.mem_cons_of_mem _ hmem)
      · exact Or.inr hj
    simp only [resizeLoop] at h
    split at h
    · rename_i hcond
      split at h
      · simp at h
      · rename_i buf hbuf
        have hij : i ≠ j := by
          intro hij
          subst hij
          rcases hj with hj | ⟨hj, hf⟩
          · exact hj (List.mem_cons_self _ _)
          · rcases hcond with hc | hc
            · exact hc hj
            · rw [Option.isNone_iff_eq_none] at hc
              exact hf hc
        have hset := imageAt_set_ne images.raw i j { data := some buf } hij
        have := ih { raw := images.raw.set i { data := some buf }, png := images.png } out h j hj2
        rw [this, hset]
    · exact ih images out h j hj2

theorem encodeLoop_ok_mem (env : Env) :
    ∀ (idxs : List Nat) (images out : Images),
      (encodeLoop env idxs images).result = .ok out →
      ∀ i ∈ idxs, Event.stbi_write_png i (bufferAt images.raw i) 0
        (resolutions.getD i 0) (resolutions.getD i 0) 4 ∈ (encodeLoop env idxs images).trace := by
  intro idxs
  induction idxs with
  | nil => intro images out _ i hi; simp at hi
  | cons k rest ih =>
    intro images out h i hi
    simp only [encodeLoop] at h ⊢
    split at h
    · simp at h
    · rename_i png hpng
      simp only [hpng]
      simp only [List.mem_cons] at hi ⊢
      rcases hi with hi | hi
      · left; rw [hi]
      · right
        exact ih { raw := images.raw, png := images.png.set k { data := some png } } out h i hi

/-- The anatomy of a pipeline that runs to its end. -/
theorem pipeline_ok_inv (env : Env) (f256 : String) (f16 : Option String) (images : Images)
    (h : (pipeline env f256 f16).result = .ok images) :
    ∃ im1 im2 im3 im4,
      (loadPrimary env f256 (Images.init numImages)).result = .ok im1 ∧
      (loadSecondary env f16 im1).result = .ok im2 ∧
      (allocLoop env (loopIndices 1 numImages) im2).result = .ok im3 ∧
      (resizeLoop env f16 (loopIndices 1 numImages) im3).result = .ok im4 ∧
      (encodeLoop env (loopIndices 0 numImages) im4).result = .ok images ∧
      (pipeline env f256 f16).trace =
        (loadPrimary env f256 (Images.init numImages)).trace ++
        ((loadSecondary env f16 im1).trace ++
        ((allocLoop env (loopIndices 1 numImages) im2).trace ++
        ((resizeLoop env f16 (loopIndices 1 numImages) im3).trace ++
        (encodeLoop env (loopIndices 0 numImages) im4).trace))) := by
  unfold pipeline at h ⊢
  obtain ⟨im1, h1, h, t1⟩ := step_andThen_ok h
  obtain ⟨im2, h2, h, t2⟩ := step_andThen_ok h
  obtain ⟨im3, h3, h, t3⟩ := step_andThen_ok h
  obtain ⟨im4, h4, h, t4⟩ := step_andThen_ok h
  exact ⟨im1, im2, im3, im4, h1, h2, h3, h4, h, by rw [t1, t2, t3, t4]⟩


/-- What the encoder and the resampler are given in a pipeline that runs to its
end: the encoder receives, for each index, the raw buffer of that index, which
for the first index is the decoded primary image and, when a 16x16 source was
given, for the last index the decoded secondary image; the resampler writes to
no other index than 1, 2, 3 and, without a 16x16 source, 4. -/
theorem pipeline_sources (env : Env) (f256 : String) (f16 : Option String) (images : Images)
    (h : (pipeline env f256 f16).result = .ok images) :
    ∃ d raw,
      env.stbi_load f256 0 = some d ∧
      bufferAt raw firstImage = d.data ∧
      (∀ f, f16 = some f → ∃ d16, env.stbi_load f 0 = some d16 ∧
        bufferAt raw lastImage = d16.data) ∧
      (∀ i px s x y n, Event.stbi_write_png i px s x y n ∈ (pipeline env f256 f16).trace →
        px = bufferAt raw i) ∧
      (∀ i, i < numImages → Event.stbi_write_png i (bufferAt raw i) 0
        (resolutions.getD i 0) (resolutions.getD i 0) 4 ∈ (pipeline env f256 f16).trace) ∧
      (∀ i c, Event.stbir_resize i c ∈ (pipeline env f256 f16).trace →
        i ≠ firstImage ∧ (i ≠ lastImage ∨ f16 = none)) := by
  obtain ⟨im1, im2, im3, im4, h1, h2, h3, h4, h5, ht⟩ := pipeline_ok_inv env f256 f16 images h
  obtain ⟨d, hd, -, -, -, hraw1⟩ := loadPrimary_ok env f256 _ im1 h1
  have hlen0 : (Images.init numImages).raw.length = 5 := by
    simp [Images.init, numImages, resolutions]
  have hlen1 : im1.raw.length = 5 := by rw [hraw1, List.length_set, hlen0]
  have him1 : imageAt im1.raw firstImage = { data := some d.data } := by
    rw [hraw1]
    exact imageAt_set_self _ _ _ (by rw [hlen0]; decide)
  have hlast : lastImage ≠ firstImage := by decide
  -- the raw vector after the optional second decode
  have him2 : imageAt im2.raw firstImage = { data := some d.data } ∧
      (∀ f, f16 = some f → ∃ d16, env.stbi_load f 0 = some d16 ∧
        imageAt im2.raw lastImage = { data := some d16.data }) := by
    rcases loadSecondary_ok env f16 im1 im2 h2 with ⟨hn, hraw2⟩ | ⟨f, d16, hf, hd16, -, -, -, hraw2⟩
    · refine ⟨by rw [hraw2, imageAt_set_ne _ _ _ _ hlast]; exact him1, ?_⟩
      intro f hf
      rw [hn] at hf
      simp at hf
    · refine ⟨by rw [hraw2, imageAt_set_ne _ _ _ _ hlast]; exact him1, ?_⟩
      intro f1 hf1
      rw [hf] at hf1
      have : f = f1 := Option.some.inj hf1
      subst this
      exact ⟨d16, hd16, by rw [hraw2]; exact imageAt_set_self _ _ _ (by rw [hlen1]; decide)⟩
  have hfirst4 : imageAt im4.raw firstImage = { data := some d.data } := by
    rw [resizeLoop_frame env f16 _ im3 im4 h4 firstImage (Or.inl (by decide)),
      allocLoop_frame env _ im2 im3 h3 firstImage (by rw [him2.1]; simp), him2.1]
  refine ⟨d, im4.raw, hd, ?_, ?_, ?_, ?_, ?_⟩
  · unfold bufferAt
    rw [hfirst4]
    rfl
  · intro f hf
    obtain ⟨d16, hd16, h16⟩ := him2.2 f hf
    refine ⟨d16, hd16, ?_⟩
    unfold bufferAt
    rw [resizeLoop_frame env f16 _ im3 im4 h4 lastImage (Or.inr ⟨rfl, by rw [hf]; simp⟩),
      allocLoop_frame env _ im2 im3 h3 lastImage (by rw [h16]; simp), h16]
    rfl
  · intro i px s x y n hmem
    rw [ht] at hmem
    simp only [List.mem_append] at hmem
    rcases hmem with hmem | hmem | hmem | hmem | hmem
    · rw [loadPrimary_trace] at hmem
      simp at hmem
    · obtain ⟨f, -, hev⟩ := loadSecondary_trace env f16 im1 _ hmem
      simp at hev
    · obtain ⟨k, hev⟩ := allocLoop_trace env _ im2 _ hmem
      simp at hev
    · obtain ⟨k, c, -, -, hev⟩ := resizeLoop_trace env f16 _ im3 _ hmem
      simp at hev
    · obtain ⟨k, -, hev⟩ := encodeLoop_trace env _ im4 _ hmem
      simp only [Event.stbi_write_png.injEq] at hev
      rw [hev.2.1, hev.1]
  · intro i hi
    rw [ht]
    simp only [List.mem_append]
    right; right; right; right
    apply encodeLoop_ok_mem env _ im4 images h5 i
    rw [loopIndices_zero]
    have h5 : ([0, 1, 2, 3, 4] : List Nat) = List.range 5 := by decide
    rw [h5]
    exact List.mem_range.mpr hi
  · intro i c hmem
    rw [ht] at hmem
    simp only [List.mem_append] at hmem
    rcases hmem with hmem | hmem | hmem | hmem | hmem
    · rw [loadPrimary_trace] at hmem
      simp at hmem
    · obtain ⟨f, -, hev⟩ := loadSecondary_trace env f16 im1 _ hmem
      simp at hev
    · obtain ⟨k, hev⟩ := allocLoop_trace env _ im2 _ hmem
      simp at hev
    · obtain ⟨k, c1, hk, hcond, hev⟩ := resizeLoop_trace env f16 _ im3 _ hmem
      simp only [Event.stbir_resize.injEq] at hev
      rw [hev.1]
      refine ⟨?_, hcond⟩
      rw [loopIndices_one] at hk
      intro hk0
      rw [hk0] at hk
      revert hk
      decide
    · obtain ⟨k, -, hev⟩ := encodeLoop_trace env _ im4 _ hmem
      simp at hev

/-- C10: in a successful run the buffer handed to the encoder for index 0 is
the decoded primary image, byte for byte (the call is made, and every encoder
call for index 0 carries that buffer), and no call of the resampler has index 0
as its destination; when a 16x16 source is given, the same holds for the last
index and the decoded secondary image: its buffer is the one encoded, and the
resampler is never called with the last index as destination. -/
theorem C10_sources_encoded_as_decoded (env : Env) (hs : (main env).status = .success) :
    ∃ d, env.stbi_load (filename256 env) 0 = some d ∧
      Event.stbi_write_png firstImage d.data 0 256 256 4 ∈ (main env).trace ∧
      (∀ px s x y n, Event.stbi_write_png firstImage px s x y n ∈ (main env).trace →
        px = d.data) ∧
      (∀ c, Event.stbir_resize firstImage c ∉ (main env).trace) ∧
      (∀ f, filename16 env = some f →
        ∃ d16, env.stbi_load f 0 = some d16 ∧
          Event.stbi_write_png lastImage d16.data 0 16 16 4 ∈ (main env).trace ∧
          (∀ px s x y n, Event.stbi_write_png lastImage px s x y n ∈ (main env).trace →
            px = d16.data) ∧
          (∀ c, Event.stbir_resize lastImage c ∉ (main env).trace)) := by
  obtain ⟨images, file, hp, -, -, -, -, ht⟩ := main_success env hs
  obtain ⟨d, raw, hd, hfirst, hsecond, henc, hencmem, hres⟩ :=
    pipeline_sources env _ _ images hp
  -- an encoder or resampler call of the run is a call of the pipeline
  have hin : ∀ ev, ev.isFileOp = false → ev ∈ (main env).trace →
      ev ∈ (pipeline env (filename256 env) (filename16 env)).trace := by
    intro ev hev hmem
    rw [ht] at hmem
    simp only [List.mem_append, List.mem_cons, List.mem_singleton, List.not_mem_nil,
      or_false] at hmem
    rcases hmem with hmem | (hmem | hmem) | hmem
    · exact hmem
    · rw [hmem] at hev; simp [Event.isFileOp] at hev
    · rw [hmem] at hev; simp [Event.isFileOp] at hev
    · rw [writeAll_fileOps env images _ ev hmem] at hev
      simp at hev
  have hsub : ∀ ev, ev ∈ (pipeline env (filename256 env) (filename16 env)).trace →
      ev ∈ (main env).trace := by
    intro ev hmem
    rw [ht]
    exact List.mem_append_left _ hmem
  refine ⟨d, hd, ?_, ?_, ?_, ?_⟩
  · have := hencmem firstImage (by decide)
    rw [hfirst] at this
    exact hsub _ this
  · intro px s x y n hmem
    rw [henc _ px s x y n (hin _ rfl hmem), hfirst]
  · intro c hmem
    exact (hres _ c (hin _ rfl hmem)).1 rfl
  · intro f hf
    obtain ⟨d16, hd16, hlast⟩ := hsecond f hf
    refine ⟨d16, hd16, ?_, ?_, ?_⟩
    · have := hencmem lastImage (by decide)
      rw [hlast] at this
      exact hsub _ this
    · intro px s x y n hmem
      rw [henc _ px s x y n (hin _ rfl hmem), hlast]
    · intro c hmem
      rcases (hres _ c (hin _ rfl hmem)).2 with h1 | h1
      · exact h1 rfl
      · rw [hf] at h1
        simp at h1

theorem C10_sources_encoded_as_decoded_witness :
    ∃ d, sampleEnv16.stbi_load (filename256 sampleEnv16) 0 = some d ∧
      Event.stbi_write_png firstImage d.data 0 256 256 4 ∈ (main sampleEnv16).trace ∧
      (∀ px s x y n, Event.stbi_write_png firstImage px s x y n ∈ (main sampleEnv16).trace →
        px = d.data) ∧
      (∀ c, Event.stbir_resize firstImage c ∉ (main sampleEnv16).trace) ∧
      (∀ f, filename16 sampleEnv16 = some f →
        ∃ d16, sampleEnv16.stbi_load f 0 = some d16 ∧
          Event.stbi_write_png lastImage d16.data 0 16 16 4 ∈ (main sampleEnv16).trace ∧
          (∀ px s x y n, Event.stbi_write_png lastImage px s x y n ∈ (main sampleEnv16).trace →
            px = d16.data) ∧
          (∀ c, Event.stbir_resize lastImage c ∉ (main sampleEnv16).trace)) :=
  C10_sources_encoded_as_decoded sampleEnv16 (by decide)


/-! ## The dimension bytes -/

/-- C17: for every resolution r with 1 <= r <= 256 the width byte and the
height byte `mkEntry` stores (0 for 256, else r cut to 8 bits) read back as r
under the convention "0 means 256"; so the byte determines the resolution on
1..256, and the bytes of the five resolutions of the list are distinct. -/
theorem C17_dimension_byte_roundtrip :
    (∀ (r : Nat) (size offset : Int), 1 ≤ r → r ≤ 256 →
      decodeDimension (mkEntry r size offset).width = r ∧
      decodeDimension (mkEntry r size offset).height = r) ∧
    (∀ (r1 r2 : Nat) (size offset : Int), 1 ≤ r1 → r1 ≤ 256 → 1 ≤ r2 → r2 ≤ 256 →
      (mkEntry r1 size offset).width = (mkEntry r2 size offset).width → r1 = r2) ∧
    (resolutions.map fun r => (mkEntry r 0 0).width).Nodup ∧
    (resolutions.map fun r => (mkEntry r 0 0).height).Nodup := by
  have round : ∀ (r : Nat) (size offset : Int), 1 ≤ r → r ≤ 256 →
      decodeDimension (mkEntry r size offset).width = r ∧
      decodeDimension (mkEntry r size offset).height = r := by
    intro r size offset h1 h2
    simp only [mkEntry, toUInt8, decodeDimension]
    by_cases h : r = 256
    · simp [h]
    · have hlt : r < 256 := by omega
      have hmod : r % 256 % 256 = r := by omega
      simp only [h, if_false, hmod]
      have hne : r ≠ 0 := by omega
      simp [hne]
  refine ⟨round, ?_, by decide, by decide⟩
  intro r1 r2 size offset a1 a2 b1 b2 heq
  have e1 := (round r1 size offset a1 a2).1
  have e2 := (round r2 size offset b1 b2).1
  rw [heq] at e1
  rw [← e1, e2]

theorem C17_dimension_byte_roundtrip_witness :
    (decodeDimension (mkEntry 256 7 86).width = 256 ∧
      decodeDimension (mkEntry 256 7 86).height = 256) ∧
    (72 = 72) :=
  ⟨C17_dimension_byte_roundtrip.1 256 7 86 (by decide) (by decide),
   C17_dimension_byte_roundtrip.2.1 72 72 5 93 (by decide) (by decide) (by decide) (by decide)
     rfl⟩


/-! ## The offset accumulator -/

/-- A run whose pipeline runs to its end continues with the write phase. -/
theorem main_of_pipeline_ok (env : Env) (images : Images)
    (hargs : 3 ≤ env.argv.length ∧ env.argv.length ≤ 4)
    (hp : (pipeline env (filename256 env) (filename16 env)).result = .ok images) :
    (main env).status = (assemble env (outputfile env) images).status ∧
    (main env).fs = (assemble env (outputfile env) images).fs ∧
    (main env).trace = (pipeline env (filename256 env) (filename16 env)).trace ++
      (assemble env (outputfile env) images).trace := by
  have hnot : ¬ (env.argv.length < 3 ∨ env.argv.length > 4) := by omega
  unfold main
  simp only [hnot, if_false, hp]
  exact ⟨trivial, trivial, trivial⟩

/-- A run whose pipeline ends it. -/
theorem main_of_pipeline_error (env : Env) (st : Status)
    (hargs : 3 ≤ env.argv.length ∧ env.argv.length ≤ 4)
    (hp : (pipeline env (filename256 env) (filename16 env)).result = .error st) :
    (main env).status = st ∧
    (main env).fs = env.fs ∧
    (main env).trace = (pipeline env (filename256 env) (filename16 env)).trace := by
  have hnot : ¬ (env.argv.length < 3 ∨ env.argv.length > 4) := by omega
  unfold main
  simp only [hnot, if_false, hp]
  exact ⟨trivial, trivial, trivial⟩

/-- A run with a wrong argument count. -/
theorem main_of_usage (env : Env) (hargs : env.argv.length < 3 ∨ env.argv.length > 4) :
    (main env).status = .failure .usage ∧ (main env).fs = env.fs ∧ (main env).trace = [] := by
  unfold main
  simp only [hargs, if_true]
  exact ⟨trivial, trivial, trivial⟩

/-- Under the bound no addition of the directory loop leaves the `int` range. -/
theorem writeEntries_defined (env : Env) (images : Images) :
    ∀ (idxs : List Nat) (offset : Int) (s : Stream),
      0 ≤ offset → offset + sizesAt images idxs ≤ INT_MAX →
      (writeEntries env images idxs offset s).result ≠ .error .undefined := by
  intro idxs
  induction idxs with
  | nil => intro offset s _ _; simp [writeEntries]
  | cons i rest ih =>
    intro offset s h0 hb
    have hs := image_size_nonneg (imageAt images.png i)
    have hrest : 0 ≤ sizesAt images rest := by
      unfold sizesAt
      apply List.sum_nonneg
      intro x hx
      simp only [List.mem_map] at hx
      obtain ⟨j, -, hj⟩ := hx
      rw [← hj]
      exact image_size_nonneg _
    have hsplit : sizesAt images (i :: rest) = (imageAt images.png i).size + sizesAt images rest := by
      simp [sizesAt]
    rw [hsplit] at hb
    have hadd : intAdd offset (imageAt images.png i).size =
        some (offset + (imageAt images.png i).size) := by
      unfold intAdd
      have : INT_MIN ≤ offset + (imageAt images.png i).size ∧
          offset + (imageAt images.png i).size ≤ INT_MAX := by
        unfold INT_MIN
        constructor <;> omega
      simp [this]
    simp only [writeEntries]
    split
    · simp
    · simp only [hadd]
      exact ih _ _ (by omega) (by omega)

theorem writePayloads_defined (env : Env) (images : Images) :
    ∀ (idxs : List Nat) (s : Stream),
      (writePayloads env images idxs s).result ≠ .error .undefined := by
  intro idxs
  induction idxs with
  | nil => intro s; simp [writePayloads]
  | cons i rest ih =>
    intro s
    simp only [writePayloads]
    split
    · simp
    · exact ih _

/-- The only way a run becomes undefined: the directory loop, run on the
images of a completed pipeline, meets an overflow. -/
theorem main_undefined_inv (env : Env) (h : (main env).status = .undefined) :
    ∃ images s1, (pipeline env (filename256 env) (filename16 env)).result = .ok images ∧
      (writeEntries env images (loopIndices 0 numImages) initialOffset s1).result =
        .error .undefined := by
  by_cases hargs : env.argv.length < 3 ∨ env.argv.length > 4
  · rw [(main_of_usage env hargs).1] at h
    simp at h
  · have hargs2 : 3 ≤ env.argv.length ∧ env.argv.length ≤ 4 := by omega
    cases hp : (pipeline env (filename256 env) (filename16 env)).result with
    | error st =>
      rw [(main_of_pipeline_error env st hargs2 hp).1] at h
      obtain ⟨fl, hfl, -⟩ := pipeline_error env _ _ st hp
      rw [h] at hfl
      simp at hfl
    | ok images =>
      rw [(main_of_pipeline_ok env images hargs2 hp).1] at h
      refine ⟨images, ?_⟩
      unfold assemble at h
      split at h
      · simp at h
      · split at h
        · simp at h
        · simp only at h
          cases hw : (writeAll env images { content := [], nwrites := 0 }).result with
          | ok u =>
            rw [hw] at h
            simp [finalStatus] at h
          | error st =>
            rw [hw] at h
            simp only [finalStatus] at h
            rw [h] at hw
            unfold writeAll at hw
            rcases wstep_andThen_error hw with hw | ⟨u1, -, hw⟩
            · unfold writeHeader at hw
              split at hw <;> simp at hw
            rcases wstep_andThen_error hw with hw | ⟨last, -, hw⟩
            · exact ⟨_, rfl, hw⟩
            rcases wstep_andThen_error hw with hw | ⟨u3, -, hw⟩
            · exact absurd hw (writePayloads_defined env images _ _)
            · simp at hw

/-- C18: when every encoded size is non-negative and `86 + (s_0 + ... + s_4)`
is below `2^31`, the run is not undefined (no addition of the `int` accumulator
overflows: each one yields the exact next partial sum), and every directory
entry written carries in its 32-bit size and offset members the exact size of
its image and the exact sum `86 + (s_0 + ... + s_{i-1})`. -/
theorem C18_no_overflow_exact_fields (env : Env) (images : Images)
    (hp : (pipeline env (filename256 env) (filename16 env)).result = .ok images)
    (hn : ∀ i, i < 5 → 0 ≤ (imageAt images.png i).size)
    (hb : 86 + sizesBefore images 5 < 2 ^ 31) :
    (main env).status ≠ .undefined ∧
    (∀ i, i < 5 → intAdd (86 + sizesBefore images i) (imageAt images.png i).size =
      some (86 + sizesBefore images (i + 1))) ∧
    (∀ (i : Nat) (e : ICONDIRENTRY), (entriesOf (main env).trace)[i]? = some e →
      (e.size : Int) = (imageAt images.png i).size ∧
      (e.offset : Int) = 86 + sizesBefore images i) := by
  have hb2 : 86 + sizesBefore images 5 ≤ INT_MAX := by
    unfold INT_MAX
    omega
  refine ⟨?_, ?_, ?_⟩
  · intro hu
    obtain ⟨images1, s1, hp1, hw⟩ := main_undefined_inv env hu
    rw [hp] at hp1
    have him : images = images1 := Except.ok.inj hp1
    subst him
    refine writeEntries_defined env images _ _ s1 (by rw [initialOffset_eq]; norm_num) ?_ hw
    have h5 := sizesAt_take images 5 (le_refl 5)
    rw [List.take_of_length_le (by simp)] at h5
    rw [initialOffset_eq, loopIndices_zero, h5]
    exact hb2
  · intro i hi
    have h0 := sizesBefore_nonneg images i
    have hs := hn i hi
    have hm := sizesBefore_mono images (Nat.succ_le_of_lt hi)
    rw [sizesBefore_succ] at hm ⊢
    unfold intAdd
    have : INT_MIN ≤ 86 + sizesBefore images i + (imageAt images.png i).size ∧
        86 + sizesBefore images i + (imageAt images.png i).size ≤ INT_MAX := by
      unfold INT_MIN
      constructor <;> omega
    simp only [this, and_self, if_true]
    rw [add_assoc]
  · intro i e h
    obtain ⟨images1, hp1, hi, he, hle⟩ := main_entry_get env i e h
    rw [hp] at hp1
    have him : images = images1 := Except.ok.inj hp1
    subst him
    have h0 := sizesBefore_nonneg images i
    have hs := hn i hi
    have hm := sizesBefore_mono images (Nat.succ_le_of_lt hi)
    rw [sizesBefore_succ] at hm
    rw [he]
    exact ⟨mkEntry_size _ _ _ hs (by omega), mkEntry_offset _ _ _ (by omega) hle⟩

theorem C18_no_overflow_exact_fields_witness :
    (main sampleEnv).status ≠ .undefined ∧
    (∀ i, i < 5 → intAdd (86 + sizesBefore sampleImages i) (imageAt sampleImages.png i).size =
      some (86 + sizesBefore sampleImages (i + 1))) ∧
    (∀ (i : Nat) (e : ICONDIRENTRY), (entriesOf (main sampleEnv).trace)[i]? = some e →
      (e.size : Int) = (imageAt sampleImages.png i).size ∧
      (e.offset : Int) = 86 + sizesBefore sampleImages i) :=
  C18_no_overflow_exact_fields sampleEnv sampleImages rfl
    (fun i _ => image_size_nonneg (imageAt sampleImages.png i)) (by decide)


/-! ## The images of a completed pipeline, in closed form -/

theorem resizeCall_eq_sourceCall (env : Env) (images : Images) (res : Nat) :
    resizeCall env images res = sourceCall env (bufferAt images.raw firstImage) res := rfl

theorem loadPrimary_ok_png (env : Env) (f : String) (images im1 : Images)
    (h : (loadPrimary env f images).result = .ok im1) : im1.png = images.png := by
  unfold loadPrimary at h
  split at h
  · simp at h
  · split at h
    · simp at h
    · simp only [Except.ok.injEq] at h
      rw [← h]

theorem loadSecondary_ok_png (env : Env) (f16 : Option String) (images im2 : Images)
    (h : (loadSecondary env f16 images).result = .ok im2) : im2.png = images.png := by
  unfold loadSecondary at h
  split at h
  · simp only [Except.ok.injEq] at h
    rw [← h]
  · split at h
    · simp at h
    · split at h
      · simp at h
      · simp only [Except.ok.injEq] at h
        rw [← h]

theorem allocLoop_shape (env : Env) :
    ∀ (idxs : List Nat) (images out : Images),
      (allocLoop env idxs images).result = .ok out →
      out.png = images.png ∧ out.raw.length = images.raw.length := by
  intro idxs
  induction idxs with
  | nil =>
    intro images out h
    simp only [allocLoop, Except.ok.injEq] at h
    rw [← h]
    exact ⟨rfl, rfl⟩
  | cons i rest ih =>
    intro images out h
    simp only [allocLoop] at h
    split at h
    · split at h
      · simp at h
      · rename_i buf _
        have := ih { raw := images.raw.set i { data := some buf }, png := images.png } out h
        simpa using this
    · exact ih images out h

theorem resizeLoop_shape (env : Env) (f16 : Option String) :
    ∀ (idxs : List Nat) (images out : Images),
      (resizeLoop env f16 idxs images).result = .ok out →
      out.png = images.png ∧ out.raw.length = images.raw.length := by
  intro idxs
  induction idxs with
  | nil =>
    intro images out h
    simp only [resizeLoop, Except.ok.injEq] at h
    rw [← h]
    exact ⟨rfl, rfl⟩
  | cons i rest ih =>
    intro images out h
    simp only [resizeLoop] at h
    split at h
    · split at h
      · simp at h
      · rename_i buf _
        have := ih { raw := images.raw.set i { data := some buf }, png := images.png } out h
        simpa using this
    · exact ih images out h

/-- After the resampling loop every buffer it resampled holds what the
resampler returned for the call with the first raw buffer as source. -/
theorem resizeLoop_visited (env : Env) (f16 : Option String) :
    ∀ (idxs : List Nat) (images out : Images),
      idxs.Nodup → firstImage ∉ idxs → (∀ i ∈ idxs, i < images.raw.length) →
      (resizeLoop env f16 idxs images).result = .ok out →
      ∀ i ∈ idxs, (i ≠ lastImage ∨ f16 = none) →
        (imageAt out.raw i).data =
          env.stbir_resize_uint8_srgb (resizeCall env images (resolutions.getD i 0)) ∧
        (imageAt out.raw i).data ≠ none := by
  intro idxs
  induction idxs with
  | nil => intro images out _ _ _ _ i hi; simp at hi
  | cons k rest ih =>
    intro images out hnd hfirst hlen h i hi hcond
    have hk : k ∉ rest := (List.nodup_cons.mp hnd).1
    have hnd2 : rest.Nodup := (List.nodup_cons.mp hnd).2
    have hfirst2 : firstImage ∉ rest := fun hm => hfirst (List.mem_cons_of_mem _ hm)
    have hkf : k ≠ firstImage := fun hkf => hfirst (by rw [hkf]; exact List.mem_cons_self _ _)
    simp only [resizeLoop] at h
    split at h
    · split at h
      · simp at h
      · rename_i buf hbuf
        have hcall : ∀ res, resizeCall env
            { raw := images.raw.set k { data := some buf }, png := images.png } res =
            resizeCall env images res := by
          intro res
          simp only [resizeCall, bufferAt]
          rw [imageAt_set_ne _ _ _ _ hkf]
        simp only [List.mem_cons] at hi
        rcases hi with hi | hi
        · subst hi
          have hfr := resizeLoop_frame env f16 rest _ out h i (Or.inl hk)
          rw [hfr, imageAt_set_self _ _ _ (hlen i (List.mem_cons_self _ _)), hbuf]
          simp
        · have := ih { raw := images.raw.set k { data := some buf }, png := images.png } out
            hnd2 hfirst2
            (by intro j hj; rw [List.length_set]; exact hlen j (List.mem_cons_of_mem _ hj))
            h i hi hcond
          rw [hcall] at this
          exact this
    · rename_i hc
      simp only [List.mem_cons] at hi
      rcases hi with hi | hi
      · subst hi
        exfalso
        apply hc
        rcases hcond with h1 | h1
        · exact Or.inl h1
        · exact Or.inr (by rw [h1]; rfl)
      · exact ih images out hnd2 hfirst2
          (fun j hj => hlen j (List.mem_cons_of_mem _ hj)) h i hi hcond

theorem encodeLoop_frame (env : Env) :
    ∀ (idxs : List Nat) (images out : Images),
      (encodeLoop env idxs images).result = .ok out →
      out.png.length = images.png.length ∧
      ∀ j, j ∉ idxs → imageAt out.png j = imageAt images.png j := by
  intro idxs
  induction idxs with
  | nil =>
    intro images out h
    simp only [encodeLoop, Except.ok.injEq] at h
    rw [← h]
    exact ⟨rfl, fun _ _ => rfl⟩
  | cons k rest ih =>
    intro images out h
    simp only [encodeLoop] at h
    split at h
    · simp at h
    · rename_i png _
      obtain ⟨h1, h2⟩ :=
        ih { raw := images.raw, png := images.png.set k { data := some png } } out h
      refine ⟨by simpa using h1, ?_⟩
      intro j hj
      have hjk : k ≠ j := fun hjk => hj (by rw [hjk]; exact List.mem_cons_self _ _)
      rw [h2 j (fun hm => hj (List.mem_cons_of_mem _ hm))]
      exact imageAt_set_ne _ _ _ _ hjk

/-- After the encoding loop every encoded image holds what the encoder
returned for the raw buffer of its index, and that is not null. -/
theorem encodeLoop_png (env : Env) :
    ∀ (idxs : List Nat) (images out : Images),
      idxs.Nodup → (∀ i ∈ idxs, i < images.png.length) →
      (encodeLoop env idxs images).result = .ok out →
      ∀ i ∈ idxs,
        (imageAt out.png i).data =
          env.stbi_write_png_to_mem (bufferAt images.raw i) 0
            (resolutions.getD i 0) (resolutions.getD i 0) 4 ∧
        (imageAt out.png i).data ≠ none := by
  intro idxs
  induction idxs with
  | nil => intro images out _ _ _ i hi; simp at hi
  | cons k rest ih =>
    intro images out hnd hlen h i hi
    have hk : k ∉ rest := (List.nodup_cons.mp hnd).1
    have hnd2 : rest.Nodup := (List.nodup_cons.mp hnd).2
    simp only [encodeLoop] at h
    split at h
    · simp at h
    · rename_i png hpng
      simp only [List.mem_cons] at hi
      rcases hi with hi | hi
      · subst hi
        have hfr := (encodeLoop_frame env rest _ out h).2 i hk
        rw [hfr, imageAt_set_self _ _ _ (hlen i (List.mem_cons_self _ _)), hpng]
        simp
      · exact ih { raw := images.raw, png := images.png.set k { data := some png } } out hnd2
          (by intro j hj; rw [List.length_set]; exact hlen j (List.mem_cons_of_mem _ hj))
          h i hi


/-- The images of a pipeline that runs to its end: both vectors have five
elements, no buffer is null, every raw buffer is the decoded source or the
resampler's output for it, and every encoded buffer is the encoder's output
for the raw buffer of its index. -/
theorem pipeline_closed (env : Env) (f256 : String) (f16 : Option String) (images : Images)
    (h : (pipeline env f256 f16).result = .ok images) :
    ∃ d, env.stbi_load f256 0 = some d ∧ d.x = 256 ∧ d.y = 256 ∧ d.comp = 4 ∧
      (∀ f, f16 = some f →
        ∃ d16, env.stbi_load f 0 = some d16 ∧ d16.x = 16 ∧ d16.y = 16 ∧ d16.comp = 4) ∧
      images.raw.length = 5 ∧ images.png.length = 5 ∧
      ∀ i, i < 5 →
        (imageAt images.raw i).data = rawBuffer env d.data (secondaryOf env f16) i ∧
        (imageAt images.raw i).data ≠ none ∧
        (imageAt images.png i).data = encodedBuffer env d.data (secondaryOf env f16) i ∧
        (imageAt images.png i).data ≠ none := by
  obtain ⟨im1, im2, im3, im4, h1, h2, h3, h4, h5, -⟩ := pipeline_ok_inv env f256 f16 images h
  obtain ⟨d, hd, hx, hy, hc, hraw1⟩ := loadPrimary_ok env f256 _ im1 h1
  have hpng1 := loadPrimary_ok_png env f256 _ im1 h1
  have hpng2 := loadSecondary_ok_png env f16 im1 im2 h2
  obtain ⟨hpng3, hlen3⟩ := allocLoop_shape env _ im2 im3 h3
  obtain ⟨hpng4, hlen4⟩ := resizeLoop_shape env f16 _ im3 im4 h4
  have hraw5 := encodeLoop_raw env _ im4 images h5
  have hlen0 : (Images.init numImages).raw.length = 5 := by
    simp [Images.init, numImages, resolutions]
  have hplen0 : (Images.init numImages).png.length = 5 := by
    simp [Images.init, numImages, resolutions]
  have hlen1 : im1.raw.length = 5 := by rw [hraw1, List.length_set, hlen0]
  have hlast : lastImage ≠ firstImage := by decide
  have him1 : imageAt im1.raw firstImage = { data := some d.data } := by
    rw [hraw1]
    exact imageAt_set_self _ _ _ (by rw [hlen0]; decide)
  -- the second decode
  have hsec : imageAt im2.raw firstImage = { data := some d.data } ∧ im2.raw.length = 5 ∧
      ((f16 = none ∧ secondaryOf env f16 = none) ∨
       (∃ f d16, f16 = some f ∧ env.stbi_load f 0 = some d16 ∧ d16.x = 16 ∧ d16.y = 16 ∧
          d16.comp = 4 ∧ secondaryOf env f16 = some d16.data ∧
          imageAt im2.raw lastImage = { data := some d16.data })) := by
    rcases loadSecondary_ok env f16 im1 im2 h2 with
      ⟨hn, hraw2⟩ | ⟨f, d16, hf, hd16, a, b, c, hraw2⟩
    · refine ⟨by rw [hraw2, imageAt_set_ne _ _ _ _ hlast]; exact him1,
        by rw [hraw2, List.length_set, hlen1], Or.inl ⟨hn, by rw [hn]; rfl⟩⟩
    · refine ⟨by rw [hraw2, imageAt_set_ne _ _ _ _ hlast]; exact him1,
        by rw [hraw2, List.length_set, hlen1], Or.inr ⟨f, d16, hf, hd16, a, b, c, ?_, ?_⟩⟩
      · simp [secondaryOf, hf, hd16]
      · rw [hraw2]
        exact imageAt_set_self _ _ _ (by rw [hlen1]; decide)
  obtain ⟨him2, hlen2, hsec2⟩ := hsec
  have him3 : imageAt im3.raw firstImage = { data := some d.data } := by
    rw [allocLoop_frame env _ im2 im3 h3 firstImage (by rw [him2]; simp), him2]
  have hbuf3 : bufferAt im3.raw firstImage = d.data := by
    unfold bufferAt
    rw [him3]
    rfl
  have hl3 : im3.raw.length = 5 := by rw [hlen3, hlen2]
  have hl4 : im4.raw.length = 5 := by rw [hlen4, hl3]
  have hp4 : im4.png.length = 5 := by rw [hpng4, hpng3, hpng2, hpng1, hplen0]
  -- the raw buffers after the resampling loop
  have hrawi : ∀ i, i < 5 →
      (imageAt im4.raw i).data = rawBuffer env d.data (secondaryOf env f16) i ∧
      (imageAt im4.raw i).data ≠ none := by
    intro i hi
    by_cases hi0 : i = firstImage
    · rw [hi0, resizeLoop_frame env f16 _ im3 im4 h4 firstImage (Or.inl (by decide)), him3]
      simp [rawBuffer]
    · by_cases hkeep : i = lastImage ∧ f16 ≠ none
      · rcases hsec2 with ⟨hn, -⟩ | ⟨f, d16, hf, -, -, -, -, hso, h16⟩
        · exact absurd hn hkeep.2
        · rw [hkeep.1, resizeLoop_frame env f16 _ im3 im4 h4 lastImage (Or.inr ⟨rfl, hkeep.2⟩),
            allocLoop_frame env _ im2 im3 h3 lastImage (by rw [h16]; simp), h16]
          simp [rawBuffer, hso, hlast]
      · have hcond : i ≠ lastImage ∨ f16 = none := by
          by_cases hl : i = lastImage
          · right
            by_contra hne
            exact hkeep ⟨hl, hne⟩
          · exact Or.inl hl
        have hmem : i ∈ loopIndices 1 numImages := by
          rw [loopIndices_one]
          have : i ≠ 0 := hi0
          interval_cases i <;> simp at this ⊢
        have hv := resizeLoop_visited env f16 _ im3 im4
          (by rw [loopIndices_one]; decide) (by rw [loopIndices_one]; decide)
          (by
            intro j hj
            rw [loopIndices_one] at hj
            rw [hl3]
            simp only [List.mem_cons, List.mem_singleton, List.not_mem_nil, or_false] at hj
            omega)
          h4 i hmem hcond
        rw [resizeCall_eq_sourceCall, hbuf3] at hv
        refine ⟨?_, hv.2⟩
        rw [hv.1]
        have hnot : ¬ (i = lastImage ∧ (secondaryOf env f16).isSome = true) := by
          intro hboth
          rcases hcond with hc1 | hc1
          · exact hc1 hboth.1
          · rw [hc1] at hboth
            simp [secondaryOf] at hboth
        simp only [rawBuffer, hi0, if_false, hnot]
  refine ⟨d, hd, hx, hy, hc, ?_, by rw [hraw5, hl4],
    by rw [(encodeLoop_frame env _ im4 images h5).1, hp4], ?_⟩
  · intro f hf
    rcases hsec2 with ⟨hn, -⟩ | ⟨f1, d16, hf1, hd16, a, b, c, -, -⟩
    · rw [hn] at hf
      simp at hf
    · rw [hf1] at hf
      have : f1 = f := Option.some.inj hf
      subst this
      exact ⟨d16, hd16, a, b, c⟩
  · intro i hi
    obtain ⟨r1, r2⟩ := hrawi i hi
    have hmem : i ∈ loopIndices 0 numImages := by
      rw [loopIndices_zero]
      have h5 : ([0, 1, 2, 3, 4] : List Nat) = List.range 5 := by decide
      rw [h5]
      exact List.mem_range.mpr hi
    have he := encodeLoop_png env _ im4 images (by rw [loopIndices_zero]; decide)
      (by
        intro j hj
        rw [loopIndices_zero] at hj
        rw [hp4]
        simp only [List.mem_cons, List.mem_singleton, List.not_mem_nil, or_false] at hj
        omega)
      h5 i hmem
    rw [hraw5]
    refine ⟨r1, r2, ?_, he.2⟩
    rw [he.1]
    unfold encodedBuffer bufferAt
    rw [r1]


/-! ## What the pipeline yields -/

/-- C11: with an encoder that, as `stbi_write_png_to_mem` does, never returns
a buffer of length 0 (a result that is not null holds at least the signature
and the chunks of a PNG file), a pipeline that succeeds yields five raw and
five encoded images, index-aligned with the resolution list: for every i below
5 neither buffer is null, the encoded buffer is what the encoder returned for
raw buffer i as a square image of resolution i with 4 channels and stride 0,
that call is in the trace, and the encoded image is non-empty: its byte length
is greater than 0. -/
theorem C11_pipeline_yields_five_pairs (env : Env) (images : Images)
    (henc : ∀ px s x y n p, env.stbi_write_png_to_mem px s x y n = some p → p ≠ [])
    (hp : (pipeline env (filename256 env) (filename16 env)).result = .ok images) :
    images.raw.length = 5 ∧ images.png.length = 5 ∧
    (∀ i, i < 5 → ∃ r p,
      (imageAt images.raw i).data = some r ∧
      (imageAt images.png i).data = some p ∧
      env.stbi_write_png_to_mem r 0 (resolutions.getD i 0) (resolutions.getD i 0) 4 = some p ∧
      Event.stbi_write_png i r 0 (resolutions.getD i 0) (resolutions.getD i 0) 4 ∈
        (pipeline env (filename256 env) (filename16 env)).trace ∧
      0 < p.length) ∧
    (∀ i, i < 5 → 0 < (imageAt images.png i).size) := by
  obtain ⟨d, -, -, -, -, -, hrl, hpl, hall⟩ := pipeline_closed env _ _ images hp
  obtain ⟨im1, im2, im3, im4, -, -, -, -, h5, ht⟩ := pipeline_ok_inv env _ _ images hp
  have hraw5 := encodeLoop_raw env _ im4 images h5
  have hpairs : ∀ i, i < 5 → ∃ r p,
      (imageAt images.raw i).data = some r ∧
      (imageAt images.png i).data = some p ∧
      env.stbi_write_png_to_mem r 0 (resolutions.getD i 0) (resolutions.getD i 0) 4 = some p ∧
      Event.stbi_write_png i r 0 (resolutions.getD i 0) (resolutions.getD i 0) 4 ∈
        (pipeline env (filename256 env) (filename16 env)).trace := by
    intro i hi
    obtain ⟨r1, r2, p1, p2⟩ := hall i hi
    cases hr : (imageAt images.raw i).data with
    | none => exact absurd hr r2
    | some r =>
      cases hpd : (imageAt images.png i).data with
      | none => exact absurd hpd p2
      | some p =>
        have hbuf : bufferAt im4.raw i = r := by
          unfold bufferAt
          rw [← hraw5, hr]
          rfl
        refine ⟨r, p, rfl, rfl, ?_, ?_⟩
        · rw [← hpd, p1]
          unfold encodedBuffer
          rw [← r1, hr]
          rfl
        · have hmem : i ∈ loopIndices 0 numImages := by
            rw [loopIndices_zero]
            have h5 : ([0, 1, 2, 3, 4] : List Nat) = List.range 5 := by decide
            rw [h5]
            exact List.mem_range.mpr hi
          have := encodeLoop_ok_mem env _ im4 images h5 i hmem
          rw [hbuf] at this
          rw [ht]
          simp only [List.mem_append]
          right; right; right; right
          exact this
  refine ⟨hrl, hpl, ?_, ?_⟩
  · intro i hi
    obtain ⟨r, p, hr, hpd, he, hev⟩ := hpairs i hi
    exact ⟨r, p, hr, hpd, he, hev, List.length_pos.mpr (henc _ _ _ _ _ _ he)⟩
  · intro i hi
    obtain ⟨r, p, -, hpd, he, -⟩ := hpairs i hi
    have hne := henc _ _ _ _ _ _ he
    unfold Image.size
    rw [hpd]
    have : 0 < p.length := List.length_pos.mpr hne
    show (0 : Int) < (p.length : Int)
    exact_mod_cast this

theorem C11_pipeline_yields_five_pairs_witness :
    sampleImages.raw.length = 5 ∧ sampleImages.png.length = 5 ∧
    (∀ i, i < 5 → ∃ r p,
      (imageAt sampleImages.raw i).data = some r ∧
      (imageAt sampleImages.png i).data = some p ∧
      sampleEnv.stbi_write_png_to_mem r 0 (resolutions.getD i 0) (resolutions.getD i 0) 4 =
        some p ∧
      Event.stbi_write_png i r 0 (resolutions.getD i 0) (resolutions.getD i 0) 4 ∈
        (pipeline sampleEnv (filename256 sampleEnv) (filename16 sampleEnv)).trace ∧
      0 < p.length) ∧
    (∀ i, i < 5 → 0 < (imageAt sampleImages.png i).size) :=
  C11_pipeline_yields_five_pairs sampleEnv sampleImages
    (by intro px s x y n p h; simp only [sampleEnv, Option.some.injEq] at h; rw [← h]; simp)
    rfl

/-! ## Where a pipeline stops -/

theorem pipeline_at_primary (env : Env) (f256 : String) (f16 : Option String) (st : Status)
    (h1 : (loadPrimary env f256 (Images.init numImages)).result = .error st) :
    (pipeline env f256 f16).result = .error st ∧
    (pipeline env f256 f16).trace = [.stbi_load f256 0] := by
  unfold pipeline
  simp only [Step.andThen, h1, loadPrimary_trace]
  exact ⟨trivial, trivial⟩

theorem pipeline_at_secondary (env : Env) (f256 : String) (f16 : Option String) (st : Status)
    (im1 : Images)
    (h1 : (loadPrimary env f256 (Images.init numImages)).result = .ok im1)
    (h2 : (loadSecondary env f16 im1).result = .error st) :
    (pipeline env f256 f16).result = .error st ∧
    (pipeline env f256 f16).trace = .stbi_load f256 0 :: (loadSecondary env f16 im1).trace := by
  unfold pipeline
  simp only [Step.andThen, h1, h2, loadPrimary_trace]
  exact ⟨trivial, rfl⟩

theorem pipeline_at_alloc (env : Env) (f256 : String) (f16 : Option String) (st : Status)
    (im1 im2 : Images)
    (h1 : (loadPrimary env f256 (Images.init numImages)).result = .ok im1)
    (h2 : (loadSecondary env f16 im1).result = .ok im2)
    (h3 : (allocLoop env (loopIndices 1 numImages) im2).result = .error st) :
    (pipeline env f256 f16).result = .error st ∧
    (pipeline env f256 f16).trace = .stbi_load f256 0 :: ((loadSecondary env f16 im1).trace ++
      (allocLoop env (loopIndices 1 numImages) im2).trace) := by
  unfold pipeline
  simp only [Step.andThen, h1, h2, h3, loadPrimary_trace]
  exact ⟨trivial, rfl⟩

theorem pipeline_at_resize (env : Env) (f256 : String) (f16 : Option String) (st : Status)
    (im1 im2 im3 : Images)
    (h1 : (loadPrimary env f256 (Images.init numImages)).result = .ok im1)
    (h2 : (loadSecondary env f16 im1).result = .ok im2)
    (h3 : (allocLoop env (loopIndices 1 numImages) im2).result = .ok im3)
    (h4 : (resizeLoop env f16 (loopIndices 1 numImages) im3).result = .error st) :
    (pipeline env f256 f16).result = .error st ∧
    (pipeline env f256 f16).trace = .stbi_load f256 0 :: ((loadSecondary env f16 im1).trace ++
      ((allocLoop env (loopIndices 1 numImages) im2).trace ++
       (resizeLoop env f16 (loopIndices 1 numImages) im3).trace)) := by
  unfold pipeline
  simp only [Step.andThen, h1, h2, h3, h4, loadPrimary_trace]
  exact ⟨trivial, rfl⟩

theorem pipeline_at_encode (env : Env) (f256 : String) (f16 : Option String)
    (im1 im2 im3 im4 : Images)
    (h1 : (loadPrimary env f256 (Images.init numImages)).result = .ok im1)
    (h2 : (loadSecondary env f16 im1).result = .ok im2)
    (h3 : (allocLoop env (loopIndices 1 numImages) im2).result = .ok im3)
    (h4 : (resizeLoop env f16 (loopIndices 1 numImages) im3).result = .ok im4) :
    (pipeline env f256 f16).result = (encodeLoop env (loopIndices 0 numImages) im4).result ∧
    (pipeline env f256 f16).trace = .stbi_load f256 0 :: ((loadSecondary env f16 im1).trace ++
      ((allocLoop env (loopIndices 1 numImages) im2).trace ++
       ((resizeLoop env f16 (loopIndices 1 numImages) im3).trace ++
        (encodeLoop env (loopIndices 0 numImages) im4).trace))) := by
  unfold pipeline
  simp only [Step.andThen, h1, h2, h3, h4, loadPrimary_trace]
  exact ⟨trivial, rfl⟩

theorem loadSecondary_trace_some (env : Env) (f : String) (images : Images) :
    (loadSecondary env (some f) images).trace = [.stbi_load f 0] := by
  unfold loadSecondary
  simp only
  split
  · rfl
  · split <;> rfl

theorem loadSecondary_none (env : Env) (images : Images) :
    (loadSecondary env none images).trace = [] ∧
    ∃ im2, (loadSecondary env none images).result = .ok im2 := by
  unfold loadSecondary
  exact ⟨rfl, _, rfl⟩

theorem loadPrimary_valid (env : Env) (f : String) (images : Images) (d : Decoded)
    (hd : env.stbi_load f 0 = some d) (hx : d.x = 256) (hy : d.y = 256) (hc : d.comp = 4) :
    ∃ im1, (loadPrimary env f images).result = .ok im1 := by
  unfold loadPrimary
  simp [hd, hx, hy, hc]

theorem allocLoop_error_source (env : Env) :
    ∀ (idxs : List Nat) (images : Images) (fl : Failure),
      (allocLoop env idxs images).result = .error (.failure fl) → fl.isSource = false := by
  intro idxs
  induction idxs with
  | nil => intro images fl h; simp [allocLoop] at h
  | cons i rest ih =>
    intro images fl h
    simp only [allocLoop] at h
    split at h
    · split at h
      · simp only [Except.error.injEq, Status.failure.injEq] at h
        rw [← h]; rfl
      · exact ih _ fl h
    · exact ih _ fl h

theorem resizeLoop_error_source (env : Env) (f16 : Option String) :
    ∀ (idxs : List Nat) (images : Images) (fl : Failure),
      (resizeLoop env f16 idxs images).result = .error (.failure fl) → fl.isSource = false := by
  intro idxs
  induction idxs with
  | nil => intro images fl h; simp [resizeLoop] at h
  | cons i rest ih =>
    intro images fl h
    simp only [resizeLoop] at h
    split at h
    · split at h
      · simp only [Except.error.injEq, Status.failure.injEq] at h
        rw [← h]; rfl
      · exact ih _ fl h
    · exact ih _ fl h

theorem encodeLoop_error_source (env : Env) :
    ∀ (idxs : List Nat) (images : Images) (fl : Failure),
      (encodeLoop env idxs images).result = .error (.failure fl) → fl.isSource = false := by
  intro idxs
  induction idxs with
  | nil => intro images fl h; simp [encodeLoop] at h
  | cons i rest ih =>
    intro images fl h
    simp only [encodeLoop] at h
    split at h
    · simp only [Except.error.injEq, Status.failure.injEq] at h
      rw [← h]; rfl
    · exact ih _ fl h

theorem isPipeline_of_isSource (fl : Failure) (h : fl.isSource = true) : fl.isPipeline = true := by
  cases fl <;> first | rfl | simp [Failure.isSource] at h


/-- The trace of the pipeline: the decoding of the primary source; then, if
that was accepted, the trace of the secondary acquisition followed by calls of
the allocator, the resampler and the encoder only. -/
theorem pipeline_trace_shape (env : Env) (f256 : String) (f16 : Option String) :
    (∀ st, (loadPrimary env f256 (Images.init numImages)).result = .error st →
      (pipeline env f256 f16).trace = [.stbi_load f256 0]) ∧
    (∀ im1, (loadPrimary env f256 (Images.init numImages)).result = .ok im1 →
      ∃ t2, (pipeline env f256 f16).trace =
          .stbi_load f256 0 :: ((loadSecondary env f16 im1).trace ++ t2) ∧
        ∀ ev ∈ t2, ev.asLoad = none ∧ ev.isFileOp = false) := by
  constructor
  · intro st h1
    exact (pipeline_at_primary env f256 f16 st h1).2
  · intro im1 h1
    have hAL : ∀ im2, ∀ ev ∈ (allocLoop env (loopIndices 1 numImages) im2).trace,
        ev.asLoad = none ∧ ev.isFileOp = false := by
      intro im2 ev hev
      obtain ⟨n, hn⟩ := allocLoop_trace env _ im2 ev hev
      rw [hn]; exact ⟨rfl, rfl⟩
    have hRL : ∀ im3, ∀ ev ∈ (resizeLoop env f16 (loopIndices 1 numImages) im3).trace,
        ev.asLoad = none ∧ ev.isFileOp = false := by
      intro im3 ev hev
      obtain ⟨i, c, -, -, hn⟩ := resizeLoop_trace env f16 _ im3 ev hev
      rw [hn]; exact ⟨rfl, rfl⟩
    have hEL : ∀ im4, ∀ ev ∈ (encodeLoop env (loopIndices 0 numImages) im4).trace,
        ev.asLoad = none ∧ ev.isFileOp = false := by
      intro im4 ev hev
      obtain ⟨i, -, hn⟩ := encodeLoop_trace env _ im4 ev hev
      rw [hn]; exact ⟨rfl, rfl⟩
    cases h2 : (loadSecondary env f16 im1).result with
    | error st =>
      refine ⟨[], ?_, by intro ev hev; simp at hev⟩
      rw [(pipeline_at_secondary env f256 f16 st im1 h1 h2).2, List.append_nil]
    | ok im2 =>
      cases h3 : (allocLoop env (loopIndices 1 numImages) im2).result with
      | error st =>
        exact ⟨_, (pipeline_at_alloc env f256 f16 st im1 im2 h1 h2 h3).2, hAL im2⟩
      | ok im3 =>
        cases h4 : (resizeLoop env f16 (loopIndices 1 numImages) im3).result with
        | error st =>
          refine ⟨_, (pipeline_at_resize env f256 f16 st im1 im2 im3 h1 h2 h3 h4).2, ?_⟩
          intro ev hev
          simp only [List.mem_append] at hev
          rcases hev with hev | hev
          · exact hAL im2 ev hev
          · exact hRL im3 ev hev
        | ok im4 =>
          refine ⟨_, (pipeline_at_encode env f256 f16 im1 im2 im3 im4 h1 h2 h3 h4).2, ?_⟩
          intro ev hev
          simp only [List.mem_append] at hev
          rcases hev with hev | hev | hev
          · exact hAL im2 ev hev
          · exact hRL im3 ev hev
          · exact hEL im4 ev hev

/-- Once both sources are accepted, the run does not end with a diagnostic of
the source acquisition steps. -/
theorem status_after_sources (env : Env) (im1 im2 : Images)
    (hargs : 3 ≤ env.argv.length ∧ env.argv.length ≤ 4)
    (h1 : (loadPrimary env (filename256 env) (Images.init numImages)).result = .ok im1)
    (h2 : (loadSecondary env (filename16 env) im1).result = .ok im2) :
    ¬ ∃ fl, (main env).status = .failure fl ∧ fl.isSource = true := by
  rintro ⟨fl, hst, hsrc⟩
  have hfalse : fl.isSource = false → False := fun hf => by rw [hf] at hsrc; simp at hsrc
  cases hp : (pipeline env (filename256 env) (filename16 env)).result with
  | ok images =>
    rw [(main_of_pipeline_ok env images hargs hp).1] at hst
    have := assemble_status_kind env _ images fl hst
    rw [isPipeline_of_isSource fl hsrc] at this
    simp at this
  | error st =>
    rw [(main_of_pipeline_error env st hargs hp).1] at hst
    subst hst
    cases h3 : (allocLoop env (loopIndices 1 numImages) im2).result with
    | error st3 =>
      rw [(pipeline_at_alloc env _ _ st3 im1 im2 h1 h2 h3).1] at hp
      have : st3 = .failure fl := Except.error.inj hp
      rw [this] at h3
      exact hfalse (allocLoop_error_source env _ im2 fl h3)
    | ok im3 =>
      cases h4 : (resizeLoop env (filename16 env) (loopIndices 1 numImages) im3).result with
      | error st4 =>
        rw [(pipeline_at_resize env _ _ st4 im1 im2 im3 h1 h2 h3 h4).1] at hp
        have : st4 = .failure fl := Except.error.inj hp
        rw [this] at h4
        exact hfalse (resizeLoop_error_source env _ _ im3 fl h4)
      | ok im4 =>
        rw [(pipeline_at_encode env _ _ im1 im2 im3 im4 h1 h2 h3 h4).1] at hp
        exact hfalse (encodeLoop_error_source env _ im4 fl hp)

theorem loadsOf_of_noLoad (t : List Event) (h : ∀ ev ∈ t, ev.asLoad = none) : loadsOf t = [] := by
  unfold loadsOf
  exact List.filterMap_eq_nil_iff.mpr h

theorem asLoad_of_fileOp (ev : Event) (h : ev.isFileOp = true) : ev.asLoad = none := by
  cases ev <;> first | rfl | simp [Event.isFileOp] at h

/-- The trace of a run with a right argument count: the trace of the pipeline,
followed by calls on the destination only. -/
theorem main_trace_split (env : Env) (hargs : 3 ≤ env.argv.length ∧ env.argv.length ≤ 4) :
    ∃ q, (main env).trace = (pipeline env (filename256 env) (filename16 env)).trace ++ q ∧
      ∀ ev ∈ q, ev.isFileOp = true := by
  cases hp : (pipeline env (filename256 env) (filename16 env)).result with
  | error st =>
    refine ⟨[], ?_, by intro ev hev; simp at hev⟩
    rw [(main_of_pipeline_error env st hargs hp).2.2, List.append_nil]
  | ok images =>
    exact ⟨_, (main_of_pipeline_ok env images hargs hp).2.2, assemble_fileOps env _ images⟩


/-! ## The decoder calls -/

/-- C12 (the claim fails here): in the run `createico out.ico in.png
small.png` the decoder is called twice, both times with a requested channel
count of 0, and never with 4. -/
theorem C12_decoder_called_with_zero_not_four :
    loadsOf (main sampleEnv16).trace = [("in.png", 0), ("small.png", 0)] ∧
    ("in.png", 4) ∉ loadsOf (main sampleEnv16).trace ∧
    ("small.png", 4) ∉ loadsOf (main sampleEnv16).trace ∧
    (main sampleEnv16).status = .success :=
  ⟨by decide, by decide, by decide, by decide⟩

/-- C12 (amended): in every run with a right argument count the decoder is
called for the primary source, and for the secondary source when one is given
and the primary was accepted, always with a requested channel count of 0 (the
image as stored); a pipeline that succeeds has checked that the decoder
reported 4 channels for each source. -/
theorem C12_decoder_requests (env : Env)
    (hargs : 3 ≤ env.argv.length ∧ env.argv.length ≤ 4) :
    (∀ f n, Event.stbi_load f n ∈ (main env).trace → n = 0) ∧
    Event.stbi_load (filename256 env) 0 ∈ (main env).trace ∧
    (∀ f d, filename16 env = some f → env.stbi_load (filename256 env) 0 = some d →
      d.x = 256 → d.y = 256 → d.comp = 4 → Event.stbi_load f 0 ∈ (main env).trace) ∧
    (∀ images, (pipeline env (filename256 env) (filename16 env)).result = .ok images →
      ∃ d, env.stbi_load (filename256 env) 0 = some d ∧ d.comp = 4 ∧
        ∀ f, filename16 env = some f →
          ∃ d16, env.stbi_load f 0 = some d16 ∧ d16.comp = 4) := by
  obtain ⟨q, hq, hfile⟩ := main_trace_split env hargs
  obtain ⟨sh1, sh2⟩ := pipeline_trace_shape env (filename256 env) (filename16 env)
  have hhead : Event.stbi_load (filename256 env) 0 ∈
      (pipeline env (filename256 env) (filename16 env)).trace := by
    cases h1 : (loadPrimary env (filename256 env) (Images.init numImages)).result with
    | error st => rw [sh1 st h1]; simp
    | ok im1 =>
      obtain ⟨t2, ht2, -⟩ := sh2 im1 h1
      rw [ht2]; simp
  refine ⟨?_, ?_, ?_, ?_⟩
  · intro f n hmem
    rw [hq, List.mem_append] at hmem
    rcases hmem with hmem | hmem
    · cases h1 : (loadPrimary env (filename256 env) (Images.init numImages)).result with
      | error st =>
        rw [sh1 st h1] at hmem
        simp only [List.mem_singleton, Event.stbi_load.injEq] at hmem
        exact hmem.2
      | ok im1 =>
        obtain ⟨t2, ht2, hno⟩ := sh2 im1 h1
        rw [ht2] at hmem
        simp only [List.mem_cons, List.mem_append, Event.stbi_load.injEq] at hmem
        rcases hmem with hmem | hmem | hmem
        · exact hmem.2
        · obtain ⟨g, -, hev⟩ := loadSecondary_trace env _ im1 _ hmem
          simp only [Event.stbi_load.injEq] at hev
          exact hev.2
        · have := (hno _ hmem).1
          simp [Event.asLoad] at this
    · have := hfile _ hmem
      simp [Event.isFileOp] at this
  · rw [hq]
    exact List.mem_append_left _ hhead
  · intro f d hf hd hx hy hc
    obtain ⟨im1, h1⟩ := loadPrimary_valid env (filename256 env) (Images.init numImages) d hd hx hy hc
    obtain ⟨t2, ht2, -⟩ := sh2 im1 h1
    rw [hq, ht2, hf, loadSecondary_trace_some]
    simp
  · intro images hp
    obtain ⟨d, hd, -, -, hc, hsec, -⟩ := pipeline_closed env _ _ images hp
    refine ⟨d, hd, hc, ?_⟩
    intro f hf
    obtain ⟨d16, hd16, -, -, hc16⟩ := hsec f hf
    exact ⟨d16, hd16, hc16⟩

theorem C12_decoder_requests_witness :
    (∀ f n, Event.stbi_load f n ∈ (main sampleEnv16).trace → n = 0) ∧
    Event.stbi_load (filename256 sampleEnv16) 0 ∈ (main sampleEnv16).trace ∧
    Event.stbi_load "small.png" 0 ∈ (main sampleEnv16).trace :=
  ⟨(C12_decoder_requests sampleEnv16 (by decide)).1,
   (C12_decoder_requests sampleEnv16 (by decide)).2.1,
   (C12_decoder_requests sampleEnv16 (by decide)).2.2.1 "small.png"
     { data := [10, 20, 30, 40], x := 256, y := 256, comp := 4 }
     (by decide) (by decide) (by decide) (by decide) (by decide)⟩

/-! ## The secondary source -/

/-- C13 (the claim fails here): in the run `createico out.ico in.png
small.png` on a destination that exists, both sources decode and have the
right dimensions and channel count, yet the run fails, and writes nothing. -/
theorem C13_run_fails_with_valid_secondary :
    filename16 existingEnv16 = some "small.png" ∧
    existingEnv16.stbi_load "in.png" 0 =
      some { data := [10, 20, 30, 40], x := 256, y := 256, comp := 4 } ∧
    existingEnv16.stbi_load "small.png" 0 =
      some { data := [50, 60, 70, 80], x := 16, y := 16, comp := 4 } ∧
    (main existingEnv16).status = .failure (.alreadyExists "out.ico") ∧
    (main existingEnv16).fs "out.ico" = existingEnv16.fs "out.ico" :=
  ⟨by decide, by decide, by decide, by decide, by decide⟩

/-- C13 (amended): given a valid primary image.  When a secondary input is
supplied, the run fails at the secondary acquisition step, that is with the
"Failed to load/decode" or the "not suitable image format" diagnostic, if and
only if the secondary fails to decode or its decoded width is not 16, or its
height is not 16, or its channel count is not 4; it then names the secondary
file, leaves the file system as it was and has made the two decoder calls
only.  When no secondary input is supplied, the only decoder call is the one
for the primary and the run does not end with either diagnostic. -/
theorem C13_secondary_step (env : Env) (d : Decoded)
    (hargs : 3 ≤ env.argv.length ∧ env.argv.length ≤ 4)
    (hd : env.stbi_load (filename256 env) 0 = some d)
    (hx : d.x = 256) (hy : d.y = 256) (hc : d.comp = 4) :
    (∀ f, filename16 env = some f →
      ((env.stbi_load f 0 = none ∨
          ∃ d16, env.stbi_load f 0 = some d16 ∧ (d16.x ≠ 16 ∨ d16.y ≠ 16 ∨ d16.comp ≠ 4)) ↔
        ∃ fl, (main env).status = .failure fl ∧ fl.isSource = true) ∧
      (env.stbi_load f 0 = none → (main env).status = .failure (.loadFailed f)) ∧
      (∀ d16, env.stbi_load f 0 = some d16 → (d16.x ≠ 16 ∨ d16.y ≠ 16 ∨ d16.comp ≠ 4) →
        (main env).status = .failure (.notSuitable f d16.x d16.y d16.comp)) ∧
      ((∃ fl, (main env).status = .failure fl ∧ fl.isSource = true) →
        (main env).fs = env.fs ∧
        (main env).trace = [.stbi_load (filename256 env) 0, .stbi_load f 0])) ∧
    (filename16 env = none →
      loadsOf (main env).trace = [(filename256 env, 0)] ∧
      ¬ ∃ fl, (main env).status = .failure fl ∧ fl.isSource = true) := by
  obtain ⟨im1, h1⟩ := loadPrimary_valid env (filename256 env) (Images.init numImages) d hd hx hy hc
  constructor
  · intro f hf
    -- a refused secondary ends the run
    have hstop : ∀ st, (loadSecondary env (some f) im1).result = .error st →
        (main env).status = st ∧ (main env).fs = env.fs ∧
        (main env).trace = [.stbi_load (filename256 env) 0, .stbi_load f 0] := by
      intro st h2
      rw [← hf] at h2
      obtain ⟨p1, p2⟩ := pipeline_at_secondary env _ _ st im1 h1 h2
      obtain ⟨m1, m2, m3⟩ := main_of_pipeline_error env st hargs p1
      refine ⟨m1, m2, ?_⟩
      rw [m3, p2, hf, loadSecondary_trace_some]
    have hnone : env.stbi_load f 0 = none →
        (loadSecondary env (some f) im1).result = .error (.failure (.loadFailed f)) := by
      intro hl
      simp [loadSecondary, hl]
    have hbad : ∀ d16, env.stbi_load f 0 = some d16 →
        (d16.x ≠ 16 ∨ d16.y ≠ 16 ∨ d16.comp ≠ 4) →
        (loadSecondary env (some f) im1).result =
          .error (.failure (.notSuitable f d16.x d16.y d16.comp)) := by
      intro d16 hl hdim
      simp [loadSecondary, hl, hdim]
    have hgood : ∀ d16, env.stbi_load f 0 = some d16 →
        ¬ (d16.x ≠ 16 ∨ d16.y ≠ 16 ∨ d16.comp ≠ 4) →
        ∃ im2, (loadSecondary env (some f) im1).result = .ok im2 := by
      intro d16 hl hdim
      simp [loadSecondary, hl, hdim]
    have hback : (∃ fl, (main env).status = .failure fl ∧ fl.isSource = true) →
        (env.stbi_load f 0 = none ∨
          ∃ d16, env.stbi_load f 0 = some d16 ∧ (d16.x ≠ 16 ∨ d16.y ≠ 16 ∨ d16.comp ≠ 4)) := by
      intro hsrc
      cases hl : env.stbi_load f 0 with
      | none => exact Or.inl rfl
      | some d16 =>
        right
        refine ⟨d16, rfl, ?_⟩
        by_contra hdim
        obtain ⟨im2, h2⟩ := hgood d16 hl hdim
        rw [← hf] at h2
        exact status_after_sources env im1 im2 hargs h1 h2 hsrc
    refine ⟨⟨?_, hback⟩, ?_, ?_, ?_⟩
    · rintro (hl | ⟨d16, hl, hdim⟩)
      · exact ⟨_, (hstop _ (hnone hl)).1, rfl⟩
      · exact ⟨_, (hstop _ (hbad d16 hl hdim)).1, rfl⟩
    · intro hl
      exact (hstop _ (hnone hl)).1
    · intro d16 hl hdim
      exact (hstop _ (hbad d16 hl hdim)).1
    · intro hsrc
      rcases hback hsrc with hl | ⟨d16, hl, hdim⟩
      · exact (hstop _ (hnone hl)).2
      · exact (hstop _ (hbad d16 hl hdim)).2
  · intro hf
    obtain ⟨hnil, im2, h2⟩ := loadSecondary_none env im1
    rw [← hf] at h2 hnil
    refine ⟨?_, status_after_sources env im1 im2 hargs h1 h2⟩
    obtain ⟨q, hq, hfile⟩ := main_trace_split env hargs
    obtain ⟨t2, ht2, hno⟩ := (pipeline_trace_shape env (filename256 env) (filename16 env)).2 im1 h1
    rw [hq, ht2, hnil]
    have e1 : loadsOf t2 = [] := loadsOf_of_noLoad t2 fun ev hev => (hno ev hev).1
    have e2 : loadsOf q = [] :=
      loadsOf_of_noLoad q fun ev hev => asLoad_of_fileOp ev (hfile ev hev)
    simp only [loadsOf] at e1 e2 ⊢
    simp [List.filterMap_append, e1, e2, Event.asLoad]

theorem C13_secondary_step_witness :
    (main badSecondaryEnv).status = .failure (.notSuitable "in.png" 256 256 4) ∧
    ((main badSecondaryEnv).fs = badSecondaryEnv.fs ∧
      (main badSecondaryEnv).trace =
        [.stbi_load (filename256 badSecondaryEnv) 0, .stbi_load "in.png" 0]) ∧
    (loadsOf (main sampleEnv).trace = [(filename256 sampleEnv, 0)] ∧
      ¬ ∃ fl, (main sampleEnv).status = .failure fl ∧ fl.isSource = true) :=
  ⟨((C13_secondary_step badSecondaryEnv
      { data := [10, 20, 30, 40], x := 256, y := 256, comp := 4 }
      (by decide) (by decide) rfl rfl rfl).1 "in.png" (by decide)).2.2.1
      { data := [10, 20, 30, 40], x := 256, y := 256, comp := 4 } (by decide) (by decide),
   ((C13_secondary_step badSecondaryEnv
      { data := [10, 20, 30, 40], x := 256, y := 256, comp := 4 }
      (by decide) (by decide) rfl rfl rfl).1 "in.png" (by decide)).2.2.2
      ⟨.notSuitable "in.png" 256 256 4, by decide, rfl⟩,
   (C13_secondary_step sampleEnv { data := [10, 20, 30, 40], x := 256, y := 256, comp := 4 }
      (by decide) (by decide) rfl rfl rfl).2 (by decide)⟩

/-! ## Determinism -/

theorem entriesFrom_congr (a b : Images) (h : a.png = b.png) :
    ∀ (idxs : List Nat) (offset : Int), entriesFrom a idxs offset = entriesFrom b idxs offset := by
  intro idxs
  induction idxs with
  | nil => intro offset; rfl
  | cons i rest ih =>
    intro offset
    simp only [entriesFrom, h, ih]

theorem images_eq_of_imageAt (a b : List Image) (ha : a.length = 5) (hb : b.length = 5)
    (h : ∀ i, i < 5 → imageAt a i = imageAt b i) : a = b := by
  apply List.ext_getElem (by rw [ha, hb])
  intro i h1 h2
  have hi : i < 5 := by rw [ha] at h1; exact h1
  have := h i hi
  simp only [imageAt, List.getD_eq_getElem?_getD, List.getElem?_eq_getElem h1,
    List.getElem?_eq_getElem h2, Option.getD_some] at this
  exact this

theorem secondaryOf_eq (env : Env) (f16 : Option String) :
    secondaryOf env f16 =
      ((f16.map fun f => env.stbi_load f 0).bind id).map fun d => d.data := by
  cases f16 with
  | none => rfl
  | some f => simp [secondaryOf]

/-- The encoded images of a completed pipeline depend only on the decoded
sources, the resampler, the encoder and the resampler flag. -/
theorem pipeline_png_deterministic (env1 env2 : Env) (fa fb : String)
    (sa sb : Option String) (images1 images2 : Images)
    (hprim : env1.stbi_load fa 0 = env2.stbi_load fb 0)
    (hsec : (sa.map fun f => env1.stbi_load f 0) = (sb.map fun f => env2.stbi_load f 0))
    (hres : env1.stbir_resize_uint8_srgb = env2.stbir_resize_uint8_srgb)
    (henc : env1.stbi_write_png_to_mem = env2.stbi_write_png_to_mem)
    (hflag : env1.STBIR_FLAG_ALPHA_USES_COLORSPACE = env2.STBIR_FLAG_ALPHA_USES_COLORSPACE)
    (h1 : (pipeline env1 fa sa).result = .ok images1)
    (h2 : (pipeline env2 fb sb).result = .ok images2) :
    images1.png = images2.png ∧ images1.raw = images2.raw := by
  obtain ⟨d1, hd1, -, -, -, -, hr1, hp1, hall1⟩ := pipeline_closed env1 fa sa images1 h1
  obtain ⟨d2, hd2, -, -, -, -, hr2, hp2, hall2⟩ := pipeline_closed env2 fb sb images2 h2
  have hd : d1 = d2 := by
    rw [hd1, hd2] at hprim
    exact Option.some.inj hprim
  subst hd
  have hs : secondaryOf env1 sa = secondaryOf env2 sb := by
    rw [secondaryOf_eq, secondaryOf_eq, hsec]
  have hraw : ∀ i, rawBuffer env1 d1.data (secondaryOf env1 sa) i =
      rawBuffer env2 d1.data (secondaryOf env2 sb) i := by
    intro i
    simp only [rawBuffer, sourceCall, hs, hres, hflag]
  have hpng : ∀ i, encodedBuffer env1 d1.data (secondaryOf env1 sa) i =
      encodedBuffer env2 d1.data (secondaryOf env2 sb) i := by
    intro i
    simp only [encodedBuffer, hraw, henc]
  constructor
  · apply images_eq_of_imageAt _ _ hp1 hp2
    intro i hi
    have a := (hall1 i hi).2.2.1
    have b := (hall2 i hi).2.2.1
    rw [hpng] at a
    rw [← b] at a
    cases hx : imageAt images1.png i
    cases hy : imageAt images2.png i
    rw [hx, hy] at a
    simp only at a
    rw [a]
  · apply images_eq_of_imageAt _ _ hr1 hr2
    intro i hi
    have a := (hall1 i hi).1
    have b := (hall2 i hi).1
    rw [hraw] at a
    rw [← b] at a
    cases hx : imageAt images1.raw i
    cases hy : imageAt images2.raw i
    rw [hx, hy] at a
    simp only at a
    rw [a]

/-- Two successful runs whose decoder returns the same primary image, which
agree on the presence of a secondary source and on what the decoder returns
for it, which use the same resampler, encoder and resampler flag, and whose
output is flushed alike, leave byte-identical files at their destinations. -/
theorem successful_runs_same_container (env1 env2 : Env)
    (hprim : env1.stbi_load (filename256 env1) 0 = env2.stbi_load (filename256 env2) 0)
    (hsec : ((filename16 env1).map fun f => env1.stbi_load f 0) =
      ((filename16 env2).map fun f => env2.stbi_load f 0))
    (hres : env1.stbir_resize_uint8_srgb = env2.stbir_resize_uint8_srgb)
    (henc : env1.stbi_write_png_to_mem = env2.stbi_write_png_to_mem)
    (hflag : env1.STBIR_FLAG_ALPHA_USES_COLORSPACE = env2.STBIR_FLAG_ALPHA_USES_COLORSPACE)
    (hstore : env1.flushed = env2.flushed)
    (hs1 : (main env1).status = .success) (hs2 : (main env2).status = .success) :
    ∃ file1 file2,
      (main env1).fs (outputfile env1) = some file1 ∧
      (main env2).fs (outputfile env2) = some file2 ∧
      file1.content = file2.content := by
  obtain ⟨images1, file1, pre1, hp1, hfs1, hc1, hpre1, -⟩ := success_layout env1 hs1
  obtain ⟨images2, file2, pre2, hp2, hfs2, hc2, hpre2, -⟩ := success_layout env2 hs2
  obtain ⟨hpng, -⟩ := pipeline_png_deterministic env1 env2 _ _ _ _ images1 images2
    hprim hsec hres henc hflag hp1 hp2
  refine ⟨file1, file2, hfs1, hfs2, ?_⟩
  rw [hc1, hc2, hpre1, hpre2, entriesFrom_congr images1 images2 hpng, hstore]
  simp only [payloads, hpng]

theorem resizesOf_map (l : List Nat) (c : Nat → ResizeCall) :
    resizesOf (l.map fun i => Event.stbir_resize i (c i)) = l.map fun i => (i, c i) := by
  induction l with
  | nil => rfl
  | cons a l ih =>
    simp only [resizesOf, List.map_cons, List.filterMap_cons, Event.asResize] at ih ⊢
    rw [ih]

theorem resizesOf_of_noResize (t : List Event) (h : ∀ ev ∈ t, ev.asResize = none) :
    resizesOf t = [] := by
  unfold resizesOf
  exact List.filterMap_eq_nil_iff.mpr h

theorem resizesOf_append (t u : List Event) :
    resizesOf (t ++ u) = resizesOf t ++ resizesOf u := by
  simp [resizesOf]

/-- The calls of the resampling loop are, in order, those for an initial
segment of the indices that pass the test of line 119, each with the first raw
buffer as source; the segment is the whole list when the loop runs to its end. -/
theorem resizeLoop_calls (env : Env) (f16 : Option String) :
    ∀ (idxs : List Nat) (images : Images), firstImage ∉ idxs →
      (∃ k, (resizeLoop env f16 idxs images).trace =
        ((idxs.filter fun i => decide (i ≠ lastImage ∨ f16.isNone)).take k).map
          fun i => Event.stbir_resize i (resizeCall env images (resolutions.getD i 0))) ∧
      (∀ out, (resizeLoop env f16 idxs images).result = .ok out →
        (resizeLoop env f16 idxs images).trace =
          (idxs.filter fun i => decide (i ≠ lastImage ∨ f16.isNone)).map
            fun i => Event.stbir_resize i (resizeCall env images (resolutions.getD i 0))) := by
  intro idxs
  induction idxs with
  | nil =>
    intro images _
    exact ⟨⟨0, rfl⟩, fun _ _ => rfl⟩
  | cons j rest ih =>
    intro images hfirst
    have hfirst2 : firstImage ∉ rest := fun hm => hfirst (List.mem_cons_of_mem _ hm)
    have hjf : j ≠ firstImage := fun hjf => hfirst (by rw [hjf]; exact List.mem_cons_self _ _)
    by_cases hc : j ≠ lastImage ∨ f16.isNone
    · have hfilter : ((j :: rest).filter fun i => decide (i ≠ lastImage ∨ f16.isNone)) =
          j :: rest.filter fun i => decide (i ≠ lastImage ∨ f16.isNone) :=
        List.filter_cons_of_pos (by simpa using hc)
      rw [hfilter]
      cases hr : env.stbir_resize_uint8_srgb (resizeCall env images (resolutions.getD j 0)) with
      | none =>
        simp only [resizeLoop, hc, if_true, hr]
        exact ⟨⟨1, by simp⟩, fun out h => by simp at h⟩
      | some buf =>
        have hcall : ∀ res, resizeCall env
            { raw := images.raw.set j { data := some buf }, png := images.png } res =
            resizeCall env images res := by
          intro res
          simp only [resizeCall, bufferAt]
          rw [imageAt_set_ne _ _ _ _ hjf]
        obtain ⟨⟨k, hk⟩, hfull⟩ :=
          ih { raw := images.raw.set j { data := some buf }, png := images.png } hfirst2
        simp only [hcall] at hk hfull
        simp only [resizeLoop, hc, if_true, hr]
        refine ⟨⟨k + 1, ?_⟩, ?_⟩
        · rw [hk]
          simp
        · intro out h
          rw [hfull out h]
          simp
    · have hfilter : ((j :: rest).filter fun i => decide (i ≠ lastImage ∨ f16.isNone)) =
          rest.filter fun i => decide (i ≠ lastImage ∨ f16.isNone) :=
        List.filter_cons_of_neg (by simpa using hc)
      rw [hfilter]
      simp only [resizeLoop, hc, if_false]
      exact ih images hfirst2

/-- The first raw buffer is the decoded primary image from its decoding up to
the resampling loop. -/
theorem primary_buffer_kept (env : Env) (f256 : String) (f16 : Option String) (d : Decoded)
    (im1 im2 im3 : Images)
    (hd : env.stbi_load f256 0 = some d)
    (h1 : (loadPrimary env f256 (Images.init numImages)).result = .ok im1)
    (h2 : (loadSecondary env f16 im1).result = .ok im2)
    (h3 : (allocLoop env (loopIndices 1 numImages) im2).result = .ok im3) :
    bufferAt im3.raw firstImage = d.data := by
  obtain ⟨d1, hd1, -, -, -, hraw1⟩ := loadPrimary_ok env f256 _ im1 h1
  rw [hd] at hd1
  have hdd : d = d1 := Option.some.inj hd1
  subst hdd
  have hlen0 : (Images.init numImages).raw.length = 5 := by
    simp [Images.init, numImages, resolutions]
  have hlast : lastImage ≠ firstImage := by decide
  have him1 : imageAt im1.raw firstImage = { data := some d.data } := by
    rw [hraw1]
    exact imageAt_set_self _ _ _ (by rw [hlen0]; decide)
  have him2 : imageAt im2.raw firstImage = { data := some d.data } := by
    rcases loadSecondary_ok env f16 im1 im2 h2 with ⟨-, hraw2⟩ | ⟨f, d16, -, -, -, -, -, hraw2⟩
    · rw [hraw2, imageAt_set_ne _ _ _ _ hlast]; exact him1
    · rw [hraw2, imageAt_set_ne _ _ _ _ hlast]; exact him1
  unfold bufferAt
  rw [allocLoop_frame env _ im2 im3 h3 firstImage (by rw [him2]; simp), him2]
  rfl


/-- The resampler calls of the pipeline: an initial segment of the calls for
the target indices, each with the decoded primary image as source; all of them
once an encoder call has been made. -/
theorem pipeline_resizes (env : Env) (f256 : String) (f16 : Option String) :
    (env.stbi_load f256 0 = none → resizesOf (pipeline env f256 f16).trace = []) ∧
    (∀ d, env.stbi_load f256 0 = some d →
      (∃ k, resizesOf (pipeline env f256 f16).trace =
        ((resizeTargets f16).take k).map fun i =>
          (i, sourceCall env d.data (resolutions.getD i 0))) ∧
      ((∃ ev ∈ (pipeline env f256 f16).trace, ev.isEncode = true) →
        resizesOf (pipeline env f256 f16).trace =
          (resizeTargets f16).map fun i =>
            (i, sourceCall env d.data (resolutions.getD i 0)))) := by
  have hLS : ∀ im1, ∀ ev ∈ (loadSecondary env f16 im1).trace,
      ev.asResize = none ∧ ev.isEncode = false := by
    intro im1 ev hev
    obtain ⟨f, -, hn⟩ := loadSecondary_trace env f16 im1 ev hev
    rw [hn]; exact ⟨rfl, rfl⟩
  have hAL : ∀ im2, ∀ ev ∈ (allocLoop env (loopIndices 1 numImages) im2).trace,
      ev.asResize = none ∧ ev.isEncode = false := by
    intro im2 ev hev
    obtain ⟨n, hn⟩ := allocLoop_trace env _ im2 ev hev
    rw [hn]; exact ⟨rfl, rfl⟩
  have hRL : ∀ im3, ∀ ev ∈ (resizeLoop env f16 (loopIndices 1 numImages) im3).trace,
      ev.isEncode = false := by
    intro im3 ev hev
    obtain ⟨i, c, -, -, hn⟩ := resizeLoop_trace env f16 _ im3 ev hev
    rw [hn]; rfl
  have hEL : ∀ im4, ∀ ev ∈ (encodeLoop env (loopIndices 0 numImages) im4).trace,
      ev.asResize = none := by
    intro im4 ev hev
    obtain ⟨i, -, hn⟩ := encodeLoop_trace env _ im4 ev hev
    rw [hn]; rfl
  have hhead : ∀ t, resizesOf (Event.stbi_load f256 0 :: t) = resizesOf t := by
    intro t
    simp [resizesOf, Event.asResize]
  have hnoenc : ∀ t : List Event, (∀ ev ∈ t, ev.isEncode = false) →
      ¬ ∃ ev ∈ Event.stbi_load f256 0 :: t, ev.isEncode = true := by
    rintro t ht ⟨ev, hev, henc⟩
    simp only [List.mem_cons] at hev
    rcases hev with hev | hev
    · rw [hev] at henc; simp [Event.isEncode] at henc
    · rw [ht ev hev] at henc; simp at henc
  constructor
  · intro hnone
    have h1 : (loadPrimary env f256 (Images.init numImages)).result =
        .error (.failure (.loadFailed f256)) := by
      simp [loadPrimary, hnone]
    rw [(pipeline_at_primary env f256 f16 _ h1).2]
    rfl
  · intro d hd
    cases h1 : (loadPrimary env f256 (Images.init numImages)).result with
    | error st =>
      rw [(pipeline_at_primary env f256 f16 st h1).2]
      refine ⟨⟨0, by simp [resizesOf, Event.asResize]⟩, ?_⟩
      intro hex
      exact absurd hex (hnoenc [] (by intro ev hev; simp at hev))
    | ok im1 =>
      cases h2 : (loadSecondary env f16 im1).result with
      | error st =>
        rw [(pipeline_at_secondary env f256 f16 st im1 h1 h2).2, hhead,
          resizesOf_of_noResize _ fun ev hev => (hLS im1 ev hev).1]
        refine ⟨⟨0, by simp⟩, ?_⟩
        intro hex
        exact absurd hex (hnoenc _ fun ev hev => (hLS im1 ev hev).2)
      | ok im2 =>
        cases h3 : (allocLoop env (loopIndices 1 numImages) im2).result with
        | error st =>
          rw [(pipeline_at_alloc env f256 f16 st im1 im2 h1 h2 h3).2, hhead, resizesOf_append,
            resizesOf_of_noResize _ fun ev hev => (hLS im1 ev hev).1,
            resizesOf_of_noResize _ fun ev hev => (hAL im2 ev hev).1]
          refine ⟨⟨0, by simp⟩, ?_⟩
          intro hex
          refine absurd hex (hnoenc _ ?_)
          intro ev hev
          simp only [List.mem_append] at hev
          rcases hev with hev | hev
          · exact (hLS im1 ev hev).2
          · exact (hAL im2 ev hev).2
        | ok im3 =>
          have hbuf := primary_buffer_kept env f256 f16 d im1 im2 im3 hd h1 h2 h3
          obtain ⟨⟨k, hk⟩, hfull⟩ := resizeLoop_calls env f16 (loopIndices 1 numImages) im3
            (by rw [loopIndices_one]; decide)
          simp only [resizeCall_eq_sourceCall, hbuf] at hk hfull
          cases h4 : (resizeLoop env f16 (loopIndices 1 numImages) im3).result with
          | error st =>
            rw [(pipeline_at_resize env f256 f16 st im1 im2 im3 h1 h2 h3 h4).2, hhead,
              resizesOf_append, resizesOf_append,
              resizesOf_of_noResize _ fun ev hev => (hLS im1 ev hev).1,
              resizesOf_of_noResize _ fun ev hev => (hAL im2 ev hev).1, hk, resizesOf_map]
            refine ⟨⟨k, rfl⟩, ?_⟩
            intro hex
            refine absurd hex (hnoenc _ ?_)
            intro ev hev
            simp only [List.mem_append] at hev
            rcases hev with hev | hev | hev
            · exact (hLS im1 ev hev).2
            · exact (hAL im2 ev hev).2
            · rw [← hk] at hev
              exact hRL im3 ev hev
          | ok im4 =>
            have hall : resizesOf (pipeline env f256 f16).trace =
                (resizeTargets f16).map fun i =>
                  (i, sourceCall env d.data (resolutions.getD i 0)) := by
              rw [(pipeline_at_encode env f256 f16 im1 im2 im3 im4 h1 h2 h3 h4).2, hhead,
                resizesOf_append, resizesOf_append, resizesOf_append,
                resizesOf_of_noResize _ fun ev hev => (hLS im1 ev hev).1,
                resizesOf_of_noResize _ fun ev hev => (hAL im2 ev hev).1,
                resizesOf_of_noResize _ (hEL im4), hfull im4 h4, resizesOf_map]
              simp [resizeTargets]
            refine ⟨⟨(resizeTargets f16).length, ?_⟩, fun _ => hall⟩
            rw [hall, List.take_length]


theorem asResize_of_fileOp (ev : Event) (h : ev.isFileOp = true) : ev.asResize = none := by
  cases ev <;> first | rfl | simp [Event.isFileOp] at h

theorem isEncode_of_fileOp (ev : Event) (h : ev.isFileOp = true) : ev.isEncode = false := by
  cases ev <;> first | rfl | simp [Event.isFileOp] at h

/-- C15 (the claim fails here): in the run of `createico out.ico in.png` whose
resampler returns 0 for 48x48, the resampling step is reached and the
resampler is called for the indices 1 and 2 only; the indices 3 and 4 are
never resampled, since the failure ends the run. -/
theorem C15_resampling_stops_at_failure :
    filename16 resizeFailEnv = none ∧
    (resizesOf (main resizeFailEnv).trace).map Prod.fst = [1, 2] ∧
    (main resizeFailEnv).status = .failure (.downsampleFailed 48) :=
  ⟨by decide, by decide, by decide⟩

/-- C15 (amended): in every run the resampler calls are, in program order, the
calls for an initial segment of the target indices, which are 1, 2, 3 and, if
and only if no secondary image was supplied, 4; the segment is the whole list
in every run that gets as far as a call of the encoder.  Every call has the
decoded primary buffer as source, 256x256 as source size, the resolution of
its index as destination width and height, and 4 channels; index 0 is never a
destination. -/
theorem C15_resampler_calls (env : Env) :
    (env.stbi_load (filename256 env) 0 = none → resizesOf (main env).trace = []) ∧
    (∀ d, env.stbi_load (filename256 env) 0 = some d →
      (∃ k, resizesOf (main env).trace =
        ((resizeTargets (filename16 env)).take k).map fun i =>
          (i, sourceCall env d.data (resolutions.getD i 0))) ∧
      ((∃ ev ∈ (main env).trace, ev.isEncode = true) →
        resizesOf (main env).trace =
          (resizeTargets (filename16 env)).map fun i =>
            (i, sourceCall env d.data (resolutions.getD i 0)))) ∧
    (filename16 env = none → resizeTargets (filename16 env) = [1, 2, 3, 4]) ∧
    (∀ f, filename16 env = some f → resizeTargets (filename16 env) = [1, 2, 3]) ∧
    (∀ i c, (i, c) ∈ resizesOf (main env).trace →
      i ≠ firstImage ∧ c.input_w = 256 ∧ c.input_h = 256 ∧
      c.output_w = resolutions.getD i 0 ∧ c.output_h = resolutions.getD i 0 ∧
      c.num_channels = 4 ∧
      ∃ d, env.stbi_load (filename256 env) 0 = some d ∧ c.input_pixels = d.data) := by
  -- the resampler and encoder calls of the run are those of the pipeline
  have hsame : (main env).trace = [] ∨
      (resizesOf (main env).trace =
          resizesOf (pipeline env (filename256 env) (filename16 env)).trace ∧
        ((∃ ev ∈ (main env).trace, ev.isEncode = true) →
          ∃ ev ∈ (pipeline env (filename256 env) (filename16 env)).trace,
            ev.isEncode = true)) := by
    by_cases hargs : env.argv.length < 3 ∨ env.argv.length > 4
    · exact Or.inl (main_of_usage env hargs).2.2
    · right
      obtain ⟨q, hq, hfile⟩ := main_trace_split env (by omega)
      constructor
      · rw [hq, resizesOf_append,
          resizesOf_of_noResize q fun ev hev => asResize_of_fileOp ev (hfile ev hev),
          List.append_nil]
      · rintro ⟨ev, hev, henc⟩
        rw [hq, List.mem_append] at hev
        rcases hev with hev | hev
        · exact ⟨ev, hev, henc⟩
        · rw [isEncode_of_fileOp ev (hfile ev hev)] at henc
          simp at henc
  obtain ⟨pn, ps⟩ := pipeline_resizes env (filename256 env) (filename16 env)
  have hnone : env.stbi_load (filename256 env) 0 = none → resizesOf (main env).trace = [] := by
    intro hl
    rcases hsame with h0 | ⟨h1, -⟩
    · rw [h0]; rfl
    · rw [h1]; exact pn hl
  have hsome : ∀ d, env.stbi_load (filename256 env) 0 = some d →
      (∃ k, resizesOf (main env).trace =
        ((resizeTargets (filename16 env)).take k).map fun i =>
          (i, sourceCall env d.data (resolutions.getD i 0))) ∧
      ((∃ ev ∈ (main env).trace, ev.isEncode = true) →
        resizesOf (main env).trace =
          (resizeTargets (filename16 env)).map fun i =>
            (i, sourceCall env d.data (resolutions.getD i 0))) := by
    intro d hd
    rcases hsame with h0 | ⟨h1, h2⟩
    · rw [h0]
      refine ⟨⟨0, by simp [resizesOf]⟩, ?_⟩
      rintro ⟨ev, hev, -⟩
      simp at hev
    · rw [h1]
      exact ⟨(ps d hd).1, fun hex => (ps d hd).2 (h2 hex)⟩
  refine ⟨hnone, hsome, ?_, ?_, ?_⟩
  · intro hf
    rw [hf]
    decide
  · intro f hf
    rw [hf]
    rfl
  · intro i c hmem
    cases hl : env.stbi_load (filename256 env) 0 with
    | none =>
      rw [hnone hl] at hmem
      simp at hmem
    | some d =>
      obtain ⟨⟨k, hk⟩, -⟩ := hsome d hl
      rw [hk] at hmem
      simp only [List.mem_map, Prod.mk.injEq] at hmem
      obtain ⟨j, hj, hji, hc⟩ := hmem
      subst hji
      have hj2 : j ∈ loopIndices 1 numImages :=
        (List.mem_filter.mp (List.mem_of_mem_take hj)).1
      rw [loopIndices_one] at hj2
      refine ⟨?_, ?_, ?_, ?_, ?_, ?_, d, rfl, ?_⟩
      · intro h0
        rw [h0] at hj2
        revert hj2
        decide
      all_goals rw [← hc]; rfl

theorem C15_resampler_calls_witness :
    (∃ k, resizesOf (main sampleEnv16).trace =
        ((resizeTargets (filename16 sampleEnv16)).take k).map fun i =>
          (i, sourceCall sampleEnv16 [10, 20, 30, 40] (resolutions.getD i 0))) ∧
    resizesOf (main sampleEnv16).trace =
      (resizeTargets (filename16 sampleEnv16)).map (fun i =>
        (i, sourceCall sampleEnv16 [10, 20, 30, 40] (resolutions.getD i 0))) ∧
    resizeTargets (filename16 sampleEnv) = [1, 2, 3, 4] ∧
    resizeTargets (filename16 sampleEnv16) = [1, 2, 3] :=
  ⟨((C15_resampler_calls sampleEnv16).2.1
      { data := [10, 20, 30, 40], x := 256, y := 256, comp := 4 } (by decide)).1,
   ((C15_resampler_calls sampleEnv16).2.1
      { data := [10, 20, 30, 40], x := 256, y := 256, comp := 4 } (by decide)).2
      ⟨.stbi_write_png 0 [10, 20, 30, 40] 0 256 256 4, by decide, rfl⟩,
   (C15_resampler_calls sampleEnv).2.2.1 (by decide),
   (C15_resampler_calls sampleEnv16).2.2.2.1 "small.png" (by decide)⟩


/-! ## Write failures -/

/-- The pipeline does not depend on the outcome of the `fwrite` calls and of
the flushes. -/
theorem pipeline_without_faults (env : Env) (g : Nat → Option Nat) (k : Nat → Nat) :
    pipeline { env with fwriteFault := g, flushed := k }
      (filename256 { env with fwriteFault := g, flushed := k })
      (filename16 { env with fwriteFault := g, flushed := k }) =
    pipeline env (filename256 env) (filename16 env) := by
  have hA : ∀ idxs images, allocLoop { env with fwriteFault := g, flushed := k } idxs images =
      allocLoop env idxs images := by
    intro idxs
    induction idxs with
    | nil => intro images; rfl
    | cons i rest ih => intro images; simp only [allocLoop, ih]
  have hR : ∀ f16 idxs images,
      resizeLoop { env with fwriteFault := g, flushed := k } f16 idxs images =
      resizeLoop env f16 idxs images := by
    intro f16 idxs
    induction idxs with
    | nil => intro images; rfl
    | cons i rest ih => intro images; simp only [resizeLoop, resizeCall, ih]
  have hE : ∀ idxs images, encodeLoop { env with fwriteFault := g, flushed := k } idxs images =
      encodeLoop env idxs images := by
    intro idxs
    induction idxs with
    | nil => intro images; rfl
    | cons i rest ih => intro images; simp only [encodeLoop, ih]
  have hf1 : filename256 { env with fwriteFault := g, flushed := k } = filename256 env := rfl
  have hf2 : filename16 { env with fwriteFault := g, flushed := k } = filename16 env := rfl
  rw [hf1, hf2]
  unfold pipeline
  simp only [hA, hR, hE]
  rfl

/-- A call of `fwrite` that does not return 1 leaves an initial part of the
item in the stream. -/
theorem fwrite_ne_one {env : Env} {obj : Obj} {size : Nat} {s : Stream}
    (h : (fwrite env obj size s).1 ≠ 1) :
    ∃ m, (fwrite env obj size s).2.content = s.content ++ (obj.bytes size).take m := by
  unfold fwrite at h ⊢
  by_cases hs : size = 0
  · exact ⟨0, by simp [hs]⟩
  · simp only [hs, if_false] at h ⊢
    cases hf : env.fwriteFault s.nwrites with
    | none => simp [hf] at h
    | some n => exact ⟨min n (size - 1), rfl⟩

theorem writeEntries_failure (env : Env) (images : Images) :
    ∀ (idxs : List Nat) (offset : Int) (s : Stream) (fl : Failure),
      (writeEntries env images idxs offset s).result = .error (.failure fl) →
      ∃ t obj size rest,
        (writeEntries env images idxs offset s).trace = t ++ [.fwrite obj size, .fclose] ∧
        s.content ++ ((entriesFrom images idxs offset).map ICONDIRENTRY.bytes).flatten =
          (writeEntries env images idxs offset s).stream.content ++ rest := by
  intro idxs
  induction idxs with
  | nil => intro offset s fl h; simp [writeEntries] at h
  | cons i rest ih =>
    intro offset s fl h
    simp only [writeEntries] at h ⊢
    split at h
    · rename_i hw
      obtain ⟨m, hm⟩ := fwrite_ne_one hw
      rw [obj_bytes_entry] at hm
      simp only [if_pos hw]
      refine ⟨[], _, _, (mkEntry (resolutions.getD i 0) (imageAt images.png i).size
        offset).bytes.drop m ++ ((entriesFrom images rest
          (offset + (imageAt images.png i).size)).map ICONDIRENTRY.bytes).flatten, rfl, ?_⟩
      rw [hm]
      simp only [entriesFrom, List.map_cons, List.flatten_cons, List.append_assoc]
      rw [← List.append_assoc (List.take m _), List.take_append_drop]
    · rename_i hw
      have hw1 := fwrite_eq_one (not_not.mp hw)
      rw [obj_bytes_entry] at hw1
      split at h
      · simp at h
      · rename_i offset1 hadd
        obtain ⟨h1, -⟩ := intAdd_eq_some hadd
        obtain ⟨t, obj, size, r, ht, hc⟩ := ih offset1 _ fl h
        simp only [hw, if_false, hadd]
        refine ⟨_ :: t, obj, size, r, by rw [ht]; rfl, ?_⟩
        rw [← hc, hw1.2, h1]
        simp [entriesFrom]

theorem writePayloads_failure (env : Env) (images : Images) :
    ∀ (idxs : List Nat) (s : Stream) (fl : Failure),
      (writePayloads env images idxs s).result = .error (.failure fl) →
      ∃ t obj size rest,
        (writePayloads env images idxs s).trace = t ++ [.fwrite obj size, .fclose] ∧
        s.content ++ (idxs.map (bufferAt images.png)).flatten =
          (writePayloads env images idxs s).stream.content ++ rest := by
  intro idxs
  induction idxs with
  | nil => intro s fl h; simp [writePayloads] at h
  | cons i rest ih =>
    intro s fl h
    have hlen := bufferAt_length images.png i
    have hbytes : Obj.bytes (.buffer (bufferAt images.png i))
        (imageAt images.png i).size.toNat = bufferAt images.png i := by
      simp only [Obj.bytes]
      apply List.take_of_length_le
      omega
    simp only [writePayloads] at h ⊢
    split at h
    · rename_i hw
      obtain ⟨m, hm⟩ := fwrite_ne_one hw
      rw [hbytes] at hm
      simp only [if_pos hw]
      refine ⟨[], _, _, (bufferAt images.png i).drop m ++
        (rest.map (bufferAt images.png)).flatten, rfl, ?_⟩
      rw [hm]
      simp only [List.map_cons, List.flatten_cons, List.append_assoc]
      rw [← List.append_assoc (List.take m _), List.take_append_drop]
    · rename_i hw
      have hw1 := fwrite_eq_one (not_not.mp hw)
      rw [hbytes] at hw1
      obtain ⟨t, obj, size, r, ht, hc⟩ := ih _ fl h
      simp only [hw, if_false]
      refine ⟨_ :: t, obj, size, r, by rw [ht]; rfl, ?_⟩
      rw [← hc, hw1.2]
      simp


theorem fwrite_eq_one_fault {env : Env} {obj : Obj} {size : Nat} {s : Stream}
    (h : (fwrite env obj size s).1 = 1) :
    env.fwriteFault s.nwrites = none ∧ (fwrite env obj size s).2.nwrites = s.nwrites + 1 := by
  unfold fwrite at h ⊢
  by_cases hs : size = 0
  · simp [hs] at h
  · simp only [hs, if_false] at h ⊢
    cases hf : env.fwriteFault s.nwrites with
    | none => simp
    | some n => simp [hf] at h

theorem writeEntries_ok_faults (env : Env) (images : Images) :
    ∀ (idxs : List Nat) (offset : Int) (s : Stream) (last : Int),
      (writeEntries env images idxs offset s).result = .ok last →
      (writeEntries env images idxs offset s).stream.nwrites = s.nwrites + idxs.length ∧
      ∀ k, s.nwrites ≤ k → k < s.nwrites + idxs.length → env.fwriteFault k = none := by
  intro idxs
  induction idxs with
  | nil =>
    intro offset s last _
    exact ⟨rfl, fun k h1 h2 => by simp at h2; omega⟩
  | cons i rest ih =>
    intro offset s last h
    simp only [writeEntries] at h ⊢
    split at h
    · simp at h
    · rename_i hw
      obtain ⟨f1, f2⟩ := fwrite_eq_one_fault (not_not.mp hw)
      split at h
      · simp at h
      · rename_i offset1 hadd
        obtain ⟨i1, i2⟩ := ih offset1 _ last h
        simp only [hw, if_false, hadd]
        rw [f2] at i1 i2
        refine ⟨by rw [i1, List.length_cons]; omega, ?_⟩
        intro k h1 h2
        rw [List.length_cons] at h2
        by_cases hk : k = s.nwrites
        · rw [hk]; exact f1
        · exact i2 k (by omega) (by omega)

theorem writePayloads_ok_faults (env : Env) (images : Images) :
    ∀ (idxs : List Nat) (s : Stream),
      (writePayloads env images idxs s).result = .ok () →
      ∀ k, s.nwrites ≤ k → k < s.nwrites + idxs.length → env.fwriteFault k = none := by
  intro idxs
  induction idxs with
  | nil =>
    intro s _ k h1 h2
    simp at h2
    omega
  | cons i rest ih =>
    intro s h
    simp only [writePayloads] at h
    split at h
    · simp at h
    · rename_i hw
      obtain ⟨f1, f2⟩ := fwrite_eq_one_fault (not_not.mp hw)
      have i2 := ih _ h
      rw [f2] at i2
      intro k h1 h2
      rw [List.length_cons] at h2
      by_cases hk : k = s.nwrites
      · rw [hk]; exact f1
      · exact i2 k (by omega) (by omega)

/-- A write phase that runs to its end has met no fault in its eleven `fwrite`
calls. -/
theorem writeAll_ok_faults (env : Env) (images : Images)
    (h : (writeAll env images { content := [], nwrites := 0 }).result = .ok ()) :
    ∀ k, k < 11 → env.fwriteFault k = none := by
  unfold writeAll at h
  obtain ⟨u1, hH, h2, -, -⟩ := wstep_andThen_ok h
  obtain ⟨last, hE, h3, -, -⟩ := wstep_andThen_ok h2
  obtain ⟨u3, hP, -, -, -⟩ := wstep_andThen_ok h3
  have hH2 : env.fwriteFault 0 = none ∧
      (writeHeader env { content := [], nwrites := 0 }).stream.nwrites = 1 := by
    unfold writeHeader at hH ⊢
    split at hH
    · simp at hH
    · rename_i hw
      obtain ⟨f1, f2⟩ := fwrite_eq_one_fault (not_not.mp hw)
      simp only [hw, if_false]
      exact ⟨f1, f2⟩
  obtain ⟨e1, e2⟩ := writeEntries_ok_faults env images _ _ _ _ hE
  have p2 := writePayloads_ok_faults env images _ _ hP
  rw [e1, hH2.2, loopIndices_zero] at p2
  rw [hH2.2, loopIndices_zero] at e2
  intro k hk
  by_cases h0 : k = 0
  · rw [h0]; exact hH2.1
  · by_cases h6 : k < 6
    · exact e2 k (by omega) (by simpa using h6)
    · exact p2 k (by simp; omega) (by simp; omega)

/-- A write phase that ends with a diagnostic has made a failing `fwrite` and
then `fclose` as its last two calls, and the stream holds an initial part of
the bytes of a write phase without faults. -/
theorem writeAll_failure (env : Env) (images : Images) (s : Stream) (fl : Failure)
    (h : (writeAll env images s).result = .error (.failure fl)) :
    ∃ t obj size rest,
      (writeAll env images s).trace = t ++ [.fwrite obj size, .fclose] ∧
      s.content ++ idealContent images = (writeAll env images s).stream.content ++ rest := by
  unfold writeAll at h ⊢
  unfold idealContent payloads
  cases hH : (writeHeader env s).result with
  | error st =>
    have hH' := hH
    unfold writeHeader at hH'
    split at hH'
    · rename_i hw
      obtain ⟨m, hm⟩ := fwrite_ne_one hw
      rw [obj_bytes_icondir] at hm
      simp only [WStep.andThen, hH]
      unfold writeHeader
      simp only [if_pos hw]
      refine ⟨[], _, _, mkHeader.bytes.drop m ++
        ((entriesFrom images (loopIndices 0 numImages) initialOffset).map
          ICONDIRENTRY.bytes).flatten ++
        ((loopIndices 0 numImages).map (bufferAt images.png)).flatten, rfl, ?_⟩
      rw [hm]
      simp only [List.append_assoc]
      rw [← List.append_assoc (List.take m _), List.take_append_drop]
    · simp at hH'
  | ok u1 =>
    have hHc : (writeHeader env s).trace = [.fwrite (.icondir mkHeader) ICONDIRSIZE] ∧
        (writeHeader env s).stream.content = s.content ++ mkHeader.bytes := by
      have hH' := hH
      unfold writeHeader at hH' ⊢
      split at hH'
      · simp at hH'
      · rename_i hw
        have hw1 := fwrite_eq_one (not_not.mp hw)
        rw [obj_bytes_icondir] at hw1
        simp only [hw, if_false]
        exact ⟨trivial, hw1.2⟩
    cases hE : (writeEntries env images (loopIndices 0 numImages) initialOffset
        (writeHeader env s).stream).result with
    | error st =>
      simp only [WStep.andThen, hH, hE] at h ⊢
      have hst : st = .failure fl := Except.error.inj h
      rw [hst] at hE
      obtain ⟨t, obj, size, r, ht, hc⟩ := writeEntries_failure env images _ _ _ fl hE
      refine ⟨(writeHeader env s).trace ++ t, obj, size,
        r ++ ((loopIndices 0 numImages).map (bufferAt images.png)).flatten, ?_, ?_⟩
      · rw [ht, List.append_assoc]
      · rw [← List.append_assoc _ r, ← hc, hHc.2]
        simp only [List.append_assoc]
    | ok last =>
      obtain ⟨-, e2⟩ := writeEntries_ok_stream env images _ _ _ _ hE
      cases hP : (writePayloads env images (loopIndices 0 numImages)
          (writeEntries env images (loopIndices 0 numImages) initialOffset
            (writeHeader env s).stream).stream).result with
      | error st =>
        simp only [WStep.andThen, hH, hE, hP] at h ⊢
        have hst : st = .failure fl := Except.error.inj h
        rw [hst] at hP
        obtain ⟨t, obj, size, r, ht, hc⟩ := writePayloads_failure env images _ _ fl hP
        refine ⟨(writeHeader env s).trace ++ ((writeEntries env images (loopIndices 0 numImages)
          initialOffset (writeHeader env s).stream).trace ++ t), obj, size, r, ?_, ?_⟩
        · rw [ht]
          simp only [List.append_assoc]
        · rw [← hc, e2, hHc.2]
          simp only [List.append_assoc]
      | ok u3 =>
        simp only [WStep.andThen, hH, hE, hP] at h
        simp at h


theorem isPipeline_of_isWrite (fl : Failure) (h : fl.isWrite = true) : fl.isPipeline = false := by
  cases fl <;> first | rfl | simp [Failure.isWrite] at h

/-- C16: when a run ends with one of the three write diagnostics (the header,
a directory entry or a payload could not be written), it reports failure, its
last two calls are the failing `fwrite` and `fclose` (the destination is
closed and no later write is attempted), and the bytes in the destination are
an initial part of the container of the images: of the bytes a write phase
without faults sends, which are the file of the same run without write and
flush faults whenever that run succeeds.  A fault in any of the eleven
`fwrite` calls keeps the run from succeeding. -/
theorem C16_write_failure (env : Env) :
    (∀ fl, (main env).status = .failure fl → fl.isWrite = true →
      ∃ images file t obj size rest,
        (pipeline env (filename256 env) (filename16 env)).result = .ok images ∧
        (main env).fs (outputfile env) = some file ∧
        (main env).trace = t ++ [.fwrite obj size, .fclose] ∧
        idealContent images = file.content ++ rest ∧
        (∀ file1,
          (main { env with fwriteFault := fun _ => none, flushed := fun n => n }).status =
            .success →
          (main { env with fwriteFault := fun _ => none, flushed := fun n => n }).fs
            (outputfile env) = some file1 →
          file1.content = file.content ++ rest)) ∧
    (∀ k, k < 11 → env.fwriteFault k ≠ none → (main env).status ≠ .success) := by
  constructor
  · intro fl hst hw
    by_cases hargs : env.argv.length < 3 ∨ env.argv.length > 4
    · rw [(main_of_usage env hargs).1] at hst
      simp only [Status.failure.injEq] at hst
      rw [← hst] at hw
      simp [Failure.isWrite] at hw
    · have hargs2 : 3 ≤ env.argv.length ∧ env.argv.length ≤ 4 := by omega
      cases hp : (pipeline env (filename256 env) (filename16 env)).result with
      | error st =>
        rw [(main_of_pipeline_error env st hargs2 hp).1] at hst
        obtain ⟨fl1, hfl1, hk⟩ := pipeline_error env _ _ st hp
        rw [hst] at hfl1
        simp only [Status.failure.injEq] at hfl1
        rw [← hfl1, isPipeline_of_isWrite fl hw] at hk
        simp at hk
      | ok images =>
        obtain ⟨m1, m2, m3⟩ := main_of_pipeline_ok env images hargs2 hp
        rw [m1] at hst
        unfold assemble at hst
        split at hst
        · simp only [Status.failure.injEq] at hst
          rw [← hst] at hw
          simp [Failure.isWrite] at hw
        · rename_i hrd
          have hrdf : fopenRead env.fs (outputfile env) = false := by simpa using hrd
          split at hst
          · simp only [Status.failure.injEq] at hst
            rw [← hst] at hw
            simp [Failure.isWrite] at hw
          · rename_i file hopen
            simp only [assemble, hrdf, Bool.false_eq_true, if_false, hopen] at m2 m3
            simp only at hst
            cases hwr : (writeAll env images { content := [], nwrites := 0 }).result with
            | ok u =>
              rw [hwr] at hst
              simp [finalStatus] at hst
            | error st =>
              rw [hwr] at hst
              simp only [finalStatus] at hst
              rw [hst] at hwr
              obtain ⟨t, obj, size, rest0, ht, hc0⟩ := writeAll_failure env images _ fl hwr
              simp only [List.nil_append] at hc0
              have hc : idealContent images =
                  onDisk env (writeAll env images { content := [], nwrites := 0 }).stream ++
                    ((writeAll env images { content := [], nwrites := 0 }).stream.content.drop
                      (env.flushed
                        (writeAll env images { content := [], nwrites := 0 }).stream.content.length)
                      ++ rest0) := by
                rw [hc0, onDisk, ← List.append_assoc, List.take_append_drop]
              refine ⟨images, { file with content :=
                  (onDisk env (writeAll env images { content := [], nwrites := 0 }).stream) },
                (pipeline env (filename256 env) (filename16 env)).trace ++
                  ([Event.fopen (outputfile env) "r", Event.fopen (outputfile env) "wb"] ++ t),
                obj, size, _, rfl, ?_, ?_, hc, ?_⟩
              · rw [m2]
                simp
              · rw [m3, ht]
                simp only [List.append_assoc]
              · intro file1 hs1 hfs1
                obtain ⟨images1, file2, pre, hp1, hfs2, hc2, hpre, -⟩ :=
                  flushed_layout { env with fwriteFault := fun _ => none, flushed := fun n => n }
                    hs1 (fun n => le_refl n)
                rw [pipeline_without_faults env, hp] at hp1
                have him : images = images1 := Except.ok.inj hp1
                subst him
                have hout : outputfile { env with fwriteFault := fun _ => none, flushed := fun n => n } =
                    outputfile env := rfl
                rw [hout, hfs1] at hfs2
                have hff : file1 = file2 := Option.some.inj hfs2
                rw [hff, hc2, hpre, ← hc]
                rfl
  · intro k hk hfault hs
    obtain ⟨images, file, -, -, -, hw, -, -⟩ := main_success env hs
    exact hfault (writeAll_ok_faults env images hw k hk)

theorem C16_write_failure_witness :
    (∃ images file t obj size rest,
        (pipeline writeFaultEnv (filename256 writeFaultEnv) (filename16 writeFaultEnv)).result =
          .ok images ∧
        (main writeFaultEnv).fs (outputfile writeFaultEnv) = some file ∧
        (main writeFaultEnv).trace = t ++ [.fwrite obj size, .fclose] ∧
        idealContent images = file.content ++ rest ∧
        (∀ file1,
          (main { writeFaultEnv with fwriteFault := fun _ => none, flushed := fun n => n }).status =
            .success →
          (main { writeFaultEnv with fwriteFault := fun _ => none, flushed := fun n => n }).fs
            (outputfile writeFaultEnv) = some file1 →
          file1.content = file.content ++ rest)) ∧
    (main writeFaultEnv).status ≠ .success :=
  ⟨(C16_write_failure writeFaultEnv).1 (.writeImageFailed 72) (by decide) rfl,
   (C16_write_failure writeFaultEnv).2 7 (by decide) (by decide)⟩


end CreateIco
